import Mathlib

/-!
OCS object manager: embedding and verified properties.

A shallow embedding of `ocs::ObjectManager`
(`include/OCS/Objects/ObjectManager.hpp`, `src/Objects/ObjectManager.cc`).

* `std::unordered_map` is an association list; iteration follows list order.
* The function-local static tables of `getComponentArray<C>()` and
  `getPrototypeComponentArray<C>()` form one heap indexed by `ArrayRef`;
  a `BaseComponentArray*` is an `Option ArrayRef` (`none` is `nullptr`).
* A component type `C` is identified by its family; a variadic pack is a list,
  the `SentinalType` instantiation is the empty list.
* `ID` is `Nat`: the counts returned by `assign` and `remove` are far below
  the wrap-around of the unsigned type; the two static counters
  (`versionCounter`, `prototypeIDCounter`) are incremented modulo `2 ^ idBits`.
* A member function acts on a `State`: the process-wide statics and one
  manager. A reference parameter (`Object&`) is passed in and handed back.
* A function that may fail returns `Except Fault _`: `outOfFuel` bounds the
  call depth (a call that yields `outOfFuel` for every fuel never returns),
  `undefined` is a null or stale dereference, `outOfRange` is the exception
  of `map::at`.
* `PackedArray`, `Object`, the component base class and `createCopy` are
  declared in headers that are not among the sources; they are modelled from
  the specification and marked so.
-/

namespace OCS

/-- Identifier type `ID` (object ids, table indices, counters). -/
abbrev ID := Nat

/-- Component family identifier `Family`. -/
abbrev Family := Nat

/-- Modelled from the spec: the bit width of `ID` (`OCS/Misc/Config.hpp` is not
among the sources); only `ID(-1)` depends on it. -/
def idBits : Nat := 64

/-- The value `ID(-1)`, the invalid / uninitialised id. -/
def invalidID : ID := 2 ^ idBits - 1

/-- Ways in which a call fails to return a result. -/
inductive Fault where
  | outOfFuel
  | undefined
  | outOfRange
deriving DecidableEq, Repr

/-! ## `std::unordered_map` -/

/-- `m.find(k)`: the value bound to `k`, if any. -/
def mapFind {K V : Type} [DecidableEq K] (k : K) : List (K × V) → Option V
  | [] => none
  | (k', v) :: rest => if k' = k then some v else mapFind k rest

/-- `m[k] = v`: overwrite the binding of `k`, or add one. -/
def mapSet {K V : Type} [DecidableEq K] (k : K) (v : V) : List (K × V) → List (K × V)
  | [] => [(k, v)]
  | (k', v') :: rest => if k' = k then (k, v) :: rest else (k', v') :: mapSet k v rest

/-- `m.erase(k)`. -/
def mapErase {K V : Type} [DecidableEq K] (k : K) : List (K × V) → List (K × V)
  | [] => []
  | (k', v) :: rest => if k' = k then mapErase k rest else (k', v) :: mapErase k rest

/-- `m[k]` as an rvalue: the bound value, default-inserting `d` when `k` is absent. -/
def mapIndex {K V : Type} [DecidableEq K] (k : K) (d : V) (m : List (K × V)) : V × List (K × V) :=
  match mapFind k m with
  | some v => (v, m)
  | none => (d, mapSet k d m)

/-! ## `PackedArray` -/

/-- Modelled from the spec: `PackedArray<T>` (the spec's StableIndexArray;
`OCS/Utilities/PackedArray.hpp` is not among the sources). A dense sequence
whose slots carry their external id (`indexToId`); `idToIndex` is the position
of the id in the sequence. Ids come from a monotonic counter. -/
structure PackedArray (T : Type) where
  elements : List (ID × T)
  nextId : ID

namespace PackedArray

/-- Modelled from the spec: a default-constructed array. -/
def empty {T : Type} : PackedArray T := ⟨[], 0⟩

/-- Modelled from the spec: `get(id)`, the element with external id `id`. -/
def get? {T : Type} (a : PackedArray T) (id : ID) : Option T :=
  mapFind id a.elements

/-- Modelled from the spec: `isValid(id)`. -/
def isValid {T : Type} (a : PackedArray T) (id : ID) : Bool :=
  (a.get? id).isSome

/-- Modelled from the spec: `size()`. -/
def size {T : Type} (a : PackedArray T) : Nat :=
  a.elements.length

/-- Modelled from the spec: `insert(value) -> id` (`addItem`, `emplaceItem`):
appends at the end of the dense sequence under a fresh id. -/
def addItem {T : Type} (a : PackedArray T) (x : T) : ID × PackedArray T :=
  (a.nextId, ⟨a.elements ++ [(a.nextId, x)], a.nextId + 1⟩)

/-- Modelled from the spec: swap-removal, the last element of the dense
sequence moves into slot `i` and the sequence shrinks by one. -/
def swapRemove {α : Type} (i : Nat) (l : List α) : List α :=
  match l.getLast? with
  | none => l
  | some last => (l.set i last).dropLast

/-- Modelled from the spec: `remove(id)`, a no-op on an invalid id, otherwise
the removed slot is filled with the last live slot and the sequence shrinks. -/
def remove {T : Type} (a : PackedArray T) (id : ID) : PackedArray T :=
  if a.isValid id then
    ⟨swapRemove (a.elements.findIdx (fun p => decide (p.1 = id))) a.elements, a.nextId⟩
  else a

/-- Modelled from the spec: apply `f` to the slot that a lookup of `id` finds. -/
def modifyFirst {T : Type} (id : ID) (f : T → T) : List (ID × T) → List (ID × T)
  | [] => []
  | (k, v) :: rest => if k = id then (k, f v) :: rest else (k, v) :: modifyFirst id f rest

/-- Modelled from the spec: a write through the reference that `operator[]`
returns for `id`, replacing the element by `f` of it. -/
def modify {T : Type} (a : PackedArray T) (id : ID) (f : T → T) : PackedArray T :=
  ⟨modifyFirst id f a.elements, a.nextId⟩

/-- Modelled from the spec: `idAt(denseIndex)` (`getId`). -/
def getId {T : Type} (a : PackedArray T) (index : Nat) : Option ID :=
  (a.elements.get? index).map Prod.fst

/-- Modelled from the spec: `clear()`. -/
def clear {T : Type} (_a : PackedArray T) : PackedArray T := empty

/-- Every live id was issued by the counter. -/
def Fresh {T : Type} (a : PackedArray T) : Prop :=
  ∀ p ∈ a.elements, p.1 < a.nextId

instance {T : Type} (a : PackedArray T) : Decidable a.Fresh :=
  inferInstanceAs (Decidable (∀ p ∈ a.elements, p.1 < a.nextId))

/-- The live ids are pairwise distinct (the spec's uniqueness-while-live). -/
def Distinct {T : Type} (a : PackedArray T) : Prop :=
  (a.elements.map Prod.fst).Nodup

instance {T : Type} (a : PackedArray T) : Decidable a.Distinct :=
  inferInstanceAs (Decidable (a.elements.map Prod.fst).Nodup)

end PackedArray

/-! ## Components, objects and the manager -/

/-- Modelled from the spec: a stored component (`OCS/Components/Component.hpp`
is not among the sources), the `ownerID` of `BaseComponent` and the payload of
the concrete component type. -/
structure Component (V : Type) where
  ownerID : ID
  value : V
deriving DecidableEq, Repr

/-- Modelled from the spec: what a component type supplies
(`OCS/Components/Component.hpp` and `ComponentArray.hpp` are not among the
sources): its identity `C::componentFamily()` and name `C::componentName()`. -/
structure ComponentType where
  family : Family
  name : String
deriving DecidableEq, Repr

/-- Modelled from the spec: the string codec of the component types, by
family: construction from a string (`addItem(const std::string&)`) and
`deSerialize` on an existing instance. -/
structure ComponentOps (V : Type) where
  fromString : Family → String → Component V
  deSerialize : Family → Component V → String → Component V

/-- The address of one `ComponentArray<C>`: which static table
(`getPrototypeComponentArray` or `getComponentArray`), for which component
type, under which manager version. -/
structure ArrayRef where
  prototype : Bool
  family : Family
  version : ID
deriving DecidableEq, Repr

/-- A `C*` as returned by `getComponent`: the address of the element with
table index `index` in `array`. -/
structure CompPtr where
  array : ArrayRef
  index : ID
deriving DecidableEq, Repr

/-- Modelled from the spec: `Object` (`OCS/Objects/Object.hpp` is not among
the sources), with the two maps the manager reads and writes. -/
structure Object where
  objectID : ID
  componentArrays : List (Family × Option ArrayRef)
  componentIndices : List (Family × ID)
deriving DecidableEq, Repr

/-- Modelled from the spec: a default-constructed `Object`, with the invalid
id and no components. -/
def Object.default : Object := ⟨invalidID, [], []⟩

/-- The value of `componentIndices[family]` read with `operator[]`: the
recorded index, or the default-inserted 0. -/
def Object.indexOf (o : Object) (family : Family) : ID :=
  (mapFind family o.componentIndices).getD 0

/-- The static members of `ObjectManager` and the function-local static
tables, shared by all managers of the process. -/
structure Statics (V : Type) where
  compFamilyToCompArray : List (Family × Option ArrayRef)
  stringToCompFamily : List (String × Family)
  prototypeIDCounter : ID
  versionCounter : ID
  availableVersions : List ID
  components : ArrayRef → PackedArray (Component V)

/-- The non-static members of one `ObjectManager`. -/
structure ObjectManager where
  objects : PackedArray Object
  objectPrototypes : List (String × Object)
  compFamilyToProtoCompArray : List (Family × Option ArrayRef)
  version : ID

/-- What a member function of one manager reads and writes: the process-wide
statics and the manager itself. -/
structure State (V : Type) where
  statics : Statics V
  mgr : ObjectManager

/-- The statics at program start. -/
def Statics.initial {V : Type} : Statics V :=
  ⟨[], [], 0, 0, [], fun _ => PackedArray.empty⟩

namespace State

variable {V : Type}

/-- Replace the table at `r`. -/
def setArray (s : State V) (r : ArrayRef) (a : PackedArray (Component V)) : State V :=
  { s with statics := { s.statics with
      components := fun r' => if r' = r then a else s.statics.components r' } }

/-- Replace the object array. -/
def setObjects (s : State V) (o : PackedArray Object) : State V :=
  { s with mgr := { s.mgr with objects := o } }

/-- Write to `objects[objectID]` through the reference. -/
def modifyObject (s : State V) (objectID : ID) (f : Object → Object) : State V :=
  s.setObjects (s.mgr.objects.modify objectID f)

end State

/-! ## Member functions -/

section Operations

variable {V : Type}

/-- `ObjectManager::ObjectManager()` (ObjectManager.cc 33-44): take a version
tag from the queue of released versions, or from the counter
(`versionCounter++` on the unsigned `ID`). -/
def construct (g : Statics V) : State V :=
  match g.availableVersions with
  | [] => ⟨{ g with versionCounter := (g.versionCounter + 1) % 2 ^ idBits },
           ⟨PackedArray.empty, [], [], g.versionCounter⟩⟩
  | v :: rest => ⟨{ g with availableVersions := rest }, ⟨PackedArray.empty, [], [], v⟩⟩

/-- The address of `getComponentArray<C>()` (hpp 230-236): `components[version]`. -/
def getComponentArray (s : State V) (C : ComponentType) : ArrayRef :=
  ⟨false, C.family, s.mgr.version⟩

/-- The address of `getPrototypeComponentArray<C>()` (hpp 258-264). -/
def getPrototypeComponentArray (s : State V) (C : ComponentType) : ArrayRef :=
  ⟨true, C.family, s.mgr.version⟩

/-- `getTotalComponents<C>()` (hpp 458-462). -/
def getTotalComponents (s : State V) (C : ComponentType) : Nat :=
  (s.statics.components (getComponentArray s C)).size

/-- `getTotalObjects()` (ObjectManager.cc 177-180). -/
def getTotalObjects (s : State V) : Nat :=
  s.mgr.objects.size

/-- `getComponent<C>(objectID)` (hpp 480-494): null unless the id is valid and
the object's `componentIndices` has an entry for the family; otherwise the
address of the slot with the recorded index in this manager's table of `C`. -/
def getComponent (s : State V) (C : ComponentType) (objectID : ID) : Option CompPtr :=
  match s.mgr.objects.get? objectID with
  | some obj =>
    match mapFind C.family obj.componentIndices with
    | some idx => some ⟨getComponentArray s C, idx⟩
    | none => none
  | none => none

/-- What a component pointer refers to, when its slot is live. -/
def deref (s : State V) (p : CompPtr) : Option (Component V) :=
  (s.statics.components p.array).get? p.index

/-- `hasComponents<C, Args...>(objectID)` (hpp 624-639); the empty list is the
`SentinalType` instantiation that ends the recursion. -/
def hasComponents (s : State V) : List ComponentType → ID → Bool
  | [], _ => true
  | C :: args, objectID =>
    if (getComponent s C objectID).isSome then
      true && hasComponents s args objectID
    else false

/-- `bindStringToComponent<C>(compName)` (hpp 421-427). -/
def bindStringToComponent (s : State V) (C : ComponentType) (compName : String) : State V :=
  if (mapFind compName s.statics.stringToCompFamily).isNone then
    { s with statics := { s.statics with
        stringToCompFamily := mapSet compName C.family s.statics.stringToCompFamily } }
  else s

/-- `registerComponent<C>()` (hpp 439-451). -/
def registerComponent (s : State V) (C : ComponentType) : State V :=
  if (mapFind C.family s.statics.compFamilyToCompArray).isNone then
    let s1 : State V :=
      { statics := { s.statics with
          compFamilyToCompArray :=
            mapSet C.family (some (getComponentArray s C)) s.statics.compFamilyToCompArray }
        mgr := { s.mgr with
          compFamilyToProtoCompArray :=
            mapSet C.family (some (getPrototypeComponentArray s C))
              s.mgr.compFamilyToProtoCompArray } }
    if C.name ≠ "" then bindStringToComponent s1 C C.name else s1
  else s

/-- `registerComponents<C, Args...>()` (hpp 430-436). -/
def registerComponents (s : State V) : List ComponentType → State V
  | [] => s
  | C :: args => registerComponents (registerComponent s C) args

/-- `createObject()` (ObjectManager.cc 104-110). -/
def createObject (s : State V) : ID × State V :=
  let r := s.mgr.objects.addItem Object.default
  (r.1, (s.setObjects r.2).modifyObject r.1 (fun o => { o with objectID := r.1 }))

/-- `addComponents(objectID, component, others...)` (hpp 290-321). -/
def addComponents (s : State V) (objectID : ID) :
    ComponentType × Component V → List (ComponentType × Component V) → ID × State V
  | (C, component), others =>
    let s0 := registerComponents s [C]
    let r : ID × State V :=
      match s0.mgr.objects.get? objectID with
      | some obj =>
        if (mapFind C.family obj.componentIndices).isNone then
          let ins := (s0.statics.components (getComponentArray s0 C)).addItem component
          let componentIndex := ins.1
          let s1 := s0.setArray (getComponentArray s0 C)
            (ins.2.modify componentIndex (fun c => { c with ownerID := objectID }))
          let s2 := s1.modifyObject objectID (fun o => { o with
            componentArrays := mapSet C.family (some (getComponentArray s0 C)) o.componentArrays })
          let s3 := s2.modifyObject objectID (fun o => { o with
            componentIndices := mapSet C.family componentIndex o.componentIndices })
          (1, s3)
        else (0, s0)
      | none => (0, s0)
    match others with
    | [] => r
    | next :: rest =>
      let r2 := addComponents r.2 objectID next rest
      (r.1 + r2.1, r2.2)

/-- `setComponent<C>(objectID, value)` (hpp 329-345): `*compPtr = value`
replaces the whole stored component; writing through the address of a slot
that is not live is undefined. -/
def setComponent (s : State V) (C : ComponentType) (objectID : ID) (value : Component V) :
    Except Fault (Bool × State V) :=
  if s.mgr.objects.isValid objectID then
    match getComponent s C objectID with
    | some compPtr =>
      match deref s compPtr with
      | some _ =>
        .ok (true, s.setArray compPtr.array
          ((s.statics.components compPtr.array).modify compPtr.index (fun _ => value)))
      | none => .error .undefined
    | none => .ok (false, s)
  else .ok (false, s)

/-- The typed `assign(objectID, first, others...)` (hpp 353-369) together with
the overload `assign(ID)` (hpp 193) for the empty pack. Every call, the call
`assign(objectID, first)` of line 360 included, takes one unit of fuel. -/
def assign : Nat → State V → ID → List (ComponentType × Component V) →
    Except Fault (ID × State V)
  | 0, _, _, _ => .error .outOfFuel
  | _ + 1, s, _, [] => .ok (0, s)
  | fuel + 1, s, objectID, (C, first) :: others =>
    if s.mgr.objects.isValid objectID then
      let r1 : Except Fault (ID × State V) :=
        if !hasComponents s [C] objectID then
          assign fuel s objectID [(C, first)]
        else
          match setComponent s C objectID first with
          | .ok r => .ok (0, r.2)
          | .error e => .error e
      match r1 with
      | .ok (numAdded, s1) =>
        if others.length > 0 then
          match assign fuel s1 objectID others with
          | .ok (n, s2) => .ok (numAdded + n, s2)
          | .error e => .error e
        else .ok (numAdded, s1)
      | .error e => .error e
    else .ok (0, s)

/-- The body of `assignFromString` for its first pair (hpp 565-592). `obj` is
passed by reference: the updated object is returned and written back by the
caller. Calling through a null table pointer, or `getBaseComponent` on an
index that is not live, is undefined. -/
def assignFromStringFirst (ops : ComponentOps V) (g : Statics V) (obj : Object)
    (compFamilyArray : List (Family × Option ArrayRef)) (compName compValues : String) :
    Except Fault (ID × Statics V × Object) :=
  match mapFind compName g.stringToCompFamily with
  | some componentFamily =>
    match mapFind componentFamily obj.componentArrays with
    | none =>
      match mapFind componentFamily compFamilyArray with
      | some (some compArray) =>
        let ins := (g.components compArray).addItem (ops.fromString compArray.family compValues)
        let compIdx := ins.1
        let obj1 : Object := { obj with
          componentArrays := mapSet componentFamily (some compArray) obj.componentArrays
          componentIndices := mapSet componentFamily compIdx obj.componentIndices }
        let table := ins.2.modify compIdx (fun c => { c with ownerID := obj.objectID })
        .ok (1, { g with components := fun r => if r = compArray then table else g.components r },
          obj1)
      | _ => .error .undefined
    | some (some arr) =>
      let ix := mapIndex componentFamily 0 obj.componentIndices
      match (g.components arr).get? ix.1 with
      | some _ =>
        let table := (g.components arr).modify ix.1
          (fun c => ops.deSerialize arr.family c compValues)
        .ok (0, { g with components := fun r => if r = arr then table else g.components r },
          { obj with componentIndices := ix.2 })
      | none => .error .undefined
    | some none => .error .undefined
  | none => .ok (0, g, obj)

/-- `assignFromString(obj, compFamilyArray, compName, compValues, others...)`
(hpp 562-598): the first pair, then the remaining pairs while there are any. -/
def assignFromString (ops : ComponentOps V) (compFamilyArray : List (Family × Option ArrayRef)) :
    Statics V → Object → String → String → List (String × String) →
    Except Fault (ID × Statics V × Object)
  | g, obj, compName, compValues, [] =>
    assignFromStringFirst ops g obj compFamilyArray compName compValues
  | g, obj, compName, compValues, (nextName, nextValues) :: rest =>
    match assignFromStringFirst ops g obj compFamilyArray compName compValues with
    | .ok (numAdded, g1, obj1) =>
      match assignFromString ops compFamilyArray g1 obj1 nextName nextValues rest with
      | .ok (n, g2, obj2) => .ok (numAdded + n, g2, obj2)
      | .error e => .error e
    | .error e => .error e

/-- The string-keyed `assign(objectID, componentName, compValues, others...)`
(hpp 373-379) together with the overload `assign(ID)` for the empty pack. -/
def assignString (ops : ComponentOps V) (s : State V) (objectID : ID) :
    List (String × String) → Except Fault (ID × State V)
  | [] => .ok (0, s)
  | (componentName, compValues) :: others =>
    match s.mgr.objects.get? objectID with
    | some obj =>
      match assignFromString ops s.statics.compFamilyToCompArray s.statics obj
          componentName compValues others with
      | .ok (n, g1, obj1) =>
        .ok (n, (State.mk g1 s.mgr).modifyObject objectID (fun _ => obj1))
      | .error e => .error e
    | none => .ok (0, s)

/-- `remove<C, Args...>(objectID)` (hpp 387-415); the empty list is the
`SentinalType` instantiation. -/
def remove : State V → List ComponentType → ID → ID × State V
  | s, [], _ => (0, s)
  | s, C :: args, objectID =>
    match s.mgr.objects.get? objectID with
    | some obj =>
      let r : ID × State V :=
        match mapFind C.family obj.componentIndices with
        | some componentIndex =>
          let s1 := s.setArray (getComponentArray s C)
            ((s.statics.components (getComponentArray s C)).remove componentIndex)
          let s2 := s1.modifyObject objectID (fun o => { o with
            componentArrays := mapErase C.family o.componentArrays })
          let s3 := s2.modifyObject objectID (fun o => { o with
            componentIndices := mapErase C.family o.componentIndices })
          (1, s3)
        | none => (0, s)
      let r2 := remove r.2 args objectID
      (r.1 + r2.1, r2.2)
    | none => (0, s)

/-- The loop of `removeAllComponents` (ObjectManager.cc 214-225) over the
entries of the object's `componentArrays`. -/
def removeAllComponentsLoop (objectID : ID) :
    List (Family × Option ArrayRef) → ID → State V → Except Fault (ID × State V)
  | [], componentsRemoved, s => .ok (componentsRemoved, s)
  | (compFamily, componentArray) :: rest, componentsRemoved, s =>
    match s.mgr.objects.get? objectID with
    | some obj =>
      let ix := mapIndex compFamily 0 obj.componentIndices
      let s1 := s.modifyObject objectID (fun o => { o with componentIndices := ix.2 })
      match componentArray with
      | some arr =>
        removeAllComponentsLoop objectID rest (componentsRemoved + 1)
          (s1.setArray arr ((s1.statics.components arr).remove ix.1))
      | none => .error .undefined
    | none => .error .undefined

/-- `removeAllComponents(objectID)` (ObjectManager.cc 206-229), the
implementation of `removeAll`. -/
def removeAllComponents (s : State V) (objectID : ID) : Except Fault (ID × State V) :=
  match s.mgr.objects.get? objectID with
  | some obj => removeAllComponentsLoop objectID obj.componentArrays 0 s
  | none => .ok (0, s)

/-- Modelled from the spec: `createCopy(sourceIndex, destinationTable)` of
`ComponentArray` (not among the sources): copies the component at
`sourceIndex` of the source table into the destination table and returns the
new index. -/
def createCopy (s : State V) (source : Option ArrayRef) (sourceCompIdx : ID)
    (destination : Option ArrayRef) : Except Fault (ID × State V) :=
  match source, destination with
  | some src, some dst =>
    match (s.statics.components src).get? sourceCompIdx with
    | some c =>
      let ins := (s.statics.components dst).addItem c
      .ok (ins.1, s.setArray dst ins.2)
    | none => .error .undefined
  | _, _ => .error .undefined

/-- The first loop of `copyObject` (ObjectManager.cc 68-69). -/
def copyObjectFamilies (destinationId : ID) : List (Family × Option ArrayRef) → State V → State V
  | [], s => s
  | (family, _) :: rest, s =>
    let ix := mapIndex family none s.statics.compFamilyToCompArray
    let s1 : State V := { s with statics := { s.statics with compFamilyToCompArray := ix.2 } }
    copyObjectFamilies destinationId rest
      (s1.modifyObject destinationId (fun o => { o with
        componentArrays := mapSet family ix.1 o.componentArrays }))

/-- The second loop of `copyObject` (ObjectManager.cc 75-94). -/
def copyObjectComponents (destinationId : ID) (source : Object) :
    List (Family × Option ArrayRef) → State V → Except Fault (State V)
  | [], s => .ok s
  | (compFamily, sourceComponentArray) :: rest, s =>
    match s.mgr.objects.get? destinationId with
    | some dest =>
      let ix := mapIndex compFamily none dest.componentArrays
      let s1 := s.modifyObject destinationId (fun o => { o with componentArrays := ix.2 })
      match mapFind compFamily source.componentIndices with
      | some sourceCompIdx =>
        match createCopy s1 sourceComponentArray sourceCompIdx ix.1, ix.1 with
        | .ok (newComponentIndex, s2), some componentArray =>
          let s3 := s2.setArray componentArray
            ((s2.statics.components componentArray).modify newComponentIndex
              (fun c => { c with ownerID := destinationId }))
          copyObjectComponents destinationId source rest
            (s3.modifyObject destinationId (fun o => { o with
              componentIndices := mapSet compFamily newComponentIndex o.componentIndices }))
        | .ok _, none => .error .undefined
        | .error e, _ => .error e
      | none => .error .outOfRange
    | none => .error .undefined

/-- `copyObject(destinationId, source)` (ObjectManager.cc 58-97). -/
def copyObject (s : State V) (destinationId : ID) (source : Object) : Except Fault (State V) :=
  if s.mgr.objects.isValid destinationId then
    match removeAllComponents s destinationId with
    | .ok (_, s1) =>
      copyObjectComponents destinationId source source.componentArrays
        (copyObjectFamilies destinationId source.componentArrays s1)
    | .error e => .error e
  else .ok s

/-- `destroyObject(objectID)` (ObjectManager.cc 144-155). -/
def destroyObject (s : State V) (objectID : ID) : Except Fault (State V) :=
  if s.mgr.objects.isValid objectID then
    match removeAllComponents s objectID with
    | .ok (_, s1) => .ok (s1.setObjects (s1.mgr.objects.remove objectID))
    | .error e => .error e
  else .ok s

/-- The state after the removal step of `remove` for one family. -/
def removedOne (s : State V) (C : ComponentType) (objectID componentIndex : ID) : State V :=
  ((s.setArray (getComponentArray s C)
      ((s.statics.components (getComponentArray s C)).remove componentIndex)).modifyObject
      objectID (fun o => { o with componentArrays := mapErase C.family o.componentArrays })).modifyObject
    objectID (fun o => { o with componentIndices := mapErase C.family o.componentIndices })

/-- The state after the insertion step of `addComponents` for one component
(hpp 303-311). -/
def addedOne (s : State V) (C : ComponentType) (objectID : ID) (component : Component V) :
    State V :=
  let ins := (s.statics.components (getComponentArray s C)).addItem component
  ((s.setArray (getComponentArray s C)
      (ins.2.modify ins.1 (fun c => { c with ownerID := objectID }))).modifyObject objectID
      (fun o => { o with
        componentArrays := mapSet C.family (some (getComponentArray s C)) o.componentArrays })).modifyObject
    objectID (fun o => { o with componentIndices := mapSet C.family ins.1 o.componentIndices })

end Operations

/-! ## Prototypes, queries and whole-store operations -/

section Prototypes

variable {V : Type}

/-- `ObjectManager::~ObjectManager()` (ObjectManager.cc 46-50): the version tag
goes to the back of the queue; nothing else is released. -/
def destruct (s : State V) : Statics V :=
  { s.statics with availableVersions := s.statics.availableVersions ++ [s.mgr.version] }

/-- `doesPrototypeExist(prototypeName)` (ObjectManager.cc 238-241). -/
def doesPrototypeExist (s : State V) (prototypeName : String) : Bool :=
  (mapFind prototypeName s.mgr.objectPrototypes).isSome

/-- `createObject(prototypeName)` (ObjectManager.cc 121-136). -/
def createObjectFromPrototype (s : State V) (prototypeName : String) :
    Except Fault (ID × State V) :=
  if doesPrototypeExist s prototypeName then
    let p := mapIndex prototypeName Object.default s.mgr.objectPrototypes
    let s0 : State V := { s with mgr := { s.mgr with objectPrototypes := p.2 } }
    let r := createObject s0
    match copyObject r.2 r.1 p.1 with
    | .ok s2 => .ok (r.1, s2)
    | .error e => .error e
  else .ok (invalidID, s)

/-- `getObjects<Args...>()` (hpp 242-252): scan the dense object array and
collect the `objectID` of the objects that pass `hasComponents<Args...>`. -/
def getObjects (s : State V) (families : List ComponentType) : List ID :=
  (s.mgr.objects.elements.filter
    (fun p => hasComponents s families p.2.objectID)).map (fun p => p.2.objectID)

/-- The prototype lookup and id assignment that open both `assignToPrototype`
overloads (hpp 530-533, 555-557): `objectPrototypes[prototypeName]`
default-inserts a record, and a record with id `ID(-1)` takes
`prototypeIDCounter++`. -/
def openPrototype (s : State V) (prototypeName : String) : Object × State V :=
  let p := mapIndex prototypeName Object.default s.mgr.objectPrototypes
  if p.1.objectID = invalidID then
    ({ p.1 with objectID := s.statics.prototypeIDCounter },
      { statics := { s.statics with
          prototypeIDCounter := (s.statics.prototypeIDCounter + 1) % 2 ^ idBits }
        mgr := { s.mgr with objectPrototypes := p.2 } })
  else (p.1, { s with mgr := { s.mgr with objectPrototypes := p.2 } })

/-- Write to the prototype record through the reference `prototype`. -/
def setPrototype (s : State V) (prototypeName : String) (prototype : Object) : State V :=
  { s with mgr := { s.mgr with
      objectPrototypes := mapSet prototypeName prototype s.mgr.objectPrototypes } }

/-- The typed `assignToPrototype(prototypeName, first, others...)`
(hpp 524-549) together with the overload for the empty pack (hpp 204). -/
def assignToPrototype : State V → String → List (ComponentType × Component V) → State V
  | s, _, [] => s
  | s, prototypeName, (C, first) :: others =>
    let s0 := registerComponent s C
    let o := openPrototype s0 prototypeName
    let s1 := setPrototype o.2 prototypeName o.1
    if (mapFind C.family o.1.componentArrays).isNone then
      let ins := (s1.statics.components (getPrototypeComponentArray s1 C)).addItem first
      let s2 := s1.setArray (getPrototypeComponentArray s1 C) ins.2
      let s3 := setPrototype s2 prototypeName { o.1 with
        componentArrays :=
          mapSet C.family (some (getPrototypeComponentArray s1 C)) o.1.componentArrays
        componentIndices := mapSet C.family ins.1 o.1.componentIndices }
      match others with
      | [] => s3
      | next :: rest => assignToPrototype s3 prototypeName (next :: rest)
    else s1

/-- The string-keyed `assignToPrototype(prototypeName, compName, compValues,
others...)` (hpp 551-560). -/
def assignToPrototypeString (ops : ComponentOps V) (s : State V) (prototypeName : String)
    (compName compValues : String) (others : List (String × String)) :
    Except Fault (State V) :=
  let o := openPrototype s prototypeName
  let s1 := setPrototype o.2 prototypeName o.1
  match assignFromString ops s1.mgr.compFamilyToProtoCompArray s1.statics o.1
      compName compValues others with
  | .ok (_, g1, prototype) => .ok (setPrototype (State.mk g1 s1.mgr) prototypeName prototype)
  | .error e => .error e

/-- The loop of `destroyAllObjects` (ObjectManager.cc 164-168); every test of
the loop condition takes one unit of fuel. -/
def destroyAllObjectsLoop : Nat → State V → Except Fault (State V)
  | 0, _ => .error .outOfFuel
  | fuel + 1, s =>
    if s.mgr.objects.size > 0 then
      match s.mgr.objects.getId 0 with
      | some objectID =>
        match destroyObject s objectID with
        | .ok s1 => destroyAllObjectsLoop fuel s1
        | .error e => .error e
      | none => .error .undefined
    else .ok s

/-- `destroyAllObjects()` (ObjectManager.cc 162-171). -/
def destroyAllObjects (fuel : Nat) (s : State V) : Except Fault (State V) :=
  match destroyAllObjectsLoop fuel s with
  | .ok s1 => .ok (s1.setObjects s1.mgr.objects.clear)
  | .error e => .error e

/-- The state after one round of the second loop of `copyObject`
(ObjectManager.cc 77-92) that copies the component `v` into the table `dst`,
for a destination whose record is `od`. -/
def copiedOne (s : State V) (destinationId : ID) (od : Object) (compFamily : Family)
    (dst : ArrayRef) (v : Component V) : State V :=
  let s1 := s.modifyObject destinationId (fun o => { o with componentArrays := od.componentArrays })
  let ins := (s1.statics.components dst).addItem v
  let s2 := s1.setArray dst ins.2
  let s3 := s2.setArray dst
    ((s2.statics.components dst).modify ins.1 (fun c => { c with ownerID := destinationId }))
  s3.modifyObject destinationId
    (fun o => { o with componentIndices := mapSet compFamily ins.1 o.componentIndices })

/-- The prototype record that the typed `assignToPrototype` works on for the
component type `C`, after `registerComponent<C>()` and the id assignment. -/
def protoRecord (s : State V) (prototypeName : String) (C : ComponentType) : Object :=
  (openPrototype (registerComponent s C) prototypeName).1

/-- The state of the typed `assignToPrototype` when it tests whether the
prototype owns the family (hpp 536). -/
def protoOpened (s : State V) (prototypeName : String) (C : ComponentType) : State V :=
  setPrototype (openPrototype (registerComponent s C) prototypeName).2 prototypeName
    (protoRecord s prototypeName C)

/-- The state after the insertion step of the typed `assignToPrototype`
(hpp 539-542). -/
def protoInserted (s : State V) (prototypeName : String) (C : ComponentType)
    (first : Component V) : State V :=
  let s1 := protoOpened s prototypeName C
  let ins := (s1.statics.components (getPrototypeComponentArray s1 C)).addItem first
  setPrototype (s1.setArray (getPrototypeComponentArray s1 C) ins.2) prototypeName
    { protoRecord s prototypeName C with
      componentArrays := mapSet C.family (some (getPrototypeComponentArray s1 C))
        (protoRecord s prototypeName C).componentArrays
      componentIndices := mapSet C.family ins.1
        (protoRecord s prototypeName C).componentIndices }

/-- Consistency of a store, as far as draining it needs: distinct ids in the
object array and in every table, no null table pointer in a live object, and
every element of this manager's live-object tables referenced by a live
object (a table pointer together with the index recorded for the family). -/
structure OwnedTables (s : State V) : Prop where
  objectsDistinct : s.mgr.objects.Distinct
  tablesDistinct : ∀ r, (s.statics.components r).Distinct
  pointersNonNull : ∀ p ∈ s.mgr.objects.elements, ∀ q ∈ p.2.componentArrays, q.2 ≠ none
  owned : ∀ r, r.prototype = false → r.version = s.mgr.version →
    ∀ e ∈ (s.statics.components r).elements,
      ∃ p ∈ s.mgr.objects.elements, ∃ q ∈ p.2.componentArrays,
        q.2 = some r ∧ p.2.indexOf q.1 = e.1

end Prototypes

/-! ## Name bindings, prototype queries, manager lifetimes, consistency -/

section Lifetimes

variable {V : Type}

/-- A sequence of `bindStringToComponent<C>(compName)` calls, in order. -/
def bindAll (s : State V) : List (ComponentType × String) → State V
  | [] => s
  | (C, compName) :: rest => bindAll (bindStringToComponent s C compName) rest

/-- `hasComponentsPrototype<C, Args...>(prototypeName)` (hpp 497-513). Every
instantiation, the `SentinalType` one for the empty list included, first
evaluates `objectPrototypes[prototypeName]`, which default-inserts a record
for a name that has none. -/
def hasComponentsPrototype : State V → List ComponentType → String → Bool × State V
  | s, [], prototypeName =>
    let p := mapIndex prototypeName Object.default s.mgr.objectPrototypes
    (true, { s with mgr := { s.mgr with objectPrototypes := p.2 } })
  | s, C :: args, prototypeName =>
    let p := mapIndex prototypeName Object.default s.mgr.objectPrototypes
    let s1 : State V := { s with mgr := { s.mgr with objectPrototypes := p.2 } }
    if (mapFind C.family p.1.componentIndices).isSome then
      let r := hasComponentsPrototype s1 args prototypeName
      (true && r.1, r.2)
    else (false, s1)

/-- `serializeObject(objectID)` (ObjectManager.cc 183-191). The member
`Object::serializeComponents` is declared in `OCS/Objects/Object.hpp`, which
is not among the sources, and is taken as a parameter. -/
def serializeObject (serializeComponents : Statics V → Object → List String)
    (s : State V) (objectID : ID) : List String :=
  match s.mgr.objects.get? objectID with
  | some obj => serializeComponents s.statics obj
  | none => []

/-- `deSerializeObject(objectID, objectArgs)` (ObjectManager.cc 193-199). The
member `Object::deSerializeComponents` is declared in `OCS/Objects/Object.hpp`,
which is not among the sources, and is taken as a parameter. -/
def deSerializeObject
    (deSerializeComponents :
      Statics V → Object → List (Family × String) → Except Fault (Statics V × Object))
    (s : State V) (objectID : ID) (objectArgs : List (Family × String)) :
    Except Fault (State V) :=
  match s.mgr.objects.get? objectID with
  | some obj =>
    match deSerializeComponents s.statics obj objectArgs with
    | .ok (g, obj1) => .ok ((State.mk g s.mgr).modifyObject objectID (fun _ => obj1))
    | .error e => .error e
  | none => .ok s

/-- The managers alive at one moment, with the statics of the process. -/
structure World (V : Type) where
  statics : Statics V
  live : List ObjectManager

/-- A step in the lifetime of the managers of a process: a construction, or
the destruction of the live manager at a position of the list. -/
inductive LifeEvent where
  | create
  | destroy (position : Nat)
deriving DecidableEq, Repr

/-- The process before any manager is constructed. -/
def World.initial : World V := ⟨Statics.initial, []⟩

/-- One construction (ObjectManager.cc 33-44) or destruction
(ObjectManager.cc 46-50); a destruction names a manager that is alive. -/
def World.step (w : World V) : LifeEvent → World V
  | .create => ⟨(construct w.statics).statics, w.live ++ [(construct w.statics).mgr]⟩
  | .destroy position =>
    match w.live.get? position with
    | some m => ⟨destruct ⟨w.statics, m⟩, w.live.eraseIdx position⟩
    | none => w

/-- A sequence of constructions and destructions. -/
def World.run (w : World V) : List LifeEvent → World V
  | [] => w
  | e :: rest => World.run (w.step e) rest

/-- The version tags in use: those of the live managers, then the queue of
released versions. -/
def World.versions (w : World V) : List ID :=
  w.live.map (fun m => m.version) ++ w.statics.availableVersions

/-- One `assignToPrototype` call: the typed overload with its components, or
the string-keyed overload with its pairs. -/
inductive PrototypeCall (V : Type) where
  | typed (prototypeName : String) (first : ComponentType × Component V)
      (others : List (ComponentType × Component V))
  | keyed (prototypeName compName compValues : String) (others : List (String × String))

/-- The prototype a call is addressed to. -/
def PrototypeCall.target : PrototypeCall V → String
  | .typed prototypeName _ _ => prototypeName
  | .keyed prototypeName _ _ _ => prototypeName

/-- One `assignToPrototype` call on a store. -/
def runPrototypeCall (ops : ComponentOps V) (s : State V) :
    PrototypeCall V → Except Fault (State V)
  | .typed prototypeName first others => .ok (assignToPrototype s prototypeName (first :: others))
  | .keyed prototypeName compName compValues others =>
    assignToPrototypeString ops s prototypeName compName compValues others

/-- A sequence of `assignToPrototype` calls on a store. -/
def runPrototypeCalls (ops : ComponentOps V) : State V → List (PrototypeCall V) →
    Except Fault (State V)
  | s, [] => .ok s
  | s, c :: rest =>
    match runPrototypeCall ops s c with
    | .ok s1 => runPrototypeCalls ops s1 rest
    | .error e => .error e

/-- The id of the prototype record under a name, if there is one. -/
def prototypeId (s : State V) (prototypeName : String) : Option ID :=
  (mapFind prototypeName s.mgr.objectPrototypes).map (fun o => o.objectID)

/-- Every prototype id was issued by `prototypeIDCounter`, and prototypes
under different names hold different ids. -/
structure PrototypeIds (s : State V) : Prop where
  issued : ∀ n i, prototypeId s n = some i → i < s.statics.prototypeIDCounter
  different : ∀ n1 n2 i, prototypeId s n1 = some i → prototypeId s n2 = some i → n1 = n2

/-- What one `assignToPrototype` call on `prototypeName` does to the prototype
ids and to `prototypeIDCounter`, from the state `s` to the state `s2`: no
other name is affected; a record that has an id keeps it and the counter
stays; a name without a record gets the counter value as its id and the
counter advances by one (when it does not wrap around). -/
structure PrototypeTouched (s s2 : State V) (prototypeName : String) : Prop where
  others : ∀ n, n ≠ prototypeName → prototypeId s2 n = prototypeId s n
  existing : ∀ i, prototypeId s prototypeName = some i → i ≠ invalidID →
    prototypeId s2 prototypeName = some i ∧
      s2.statics.prototypeIDCounter = s.statics.prototypeIDCounter
  created : prototypeId s prototypeName = none →
    s.statics.prototypeIDCounter + 1 < 2 ^ idBits →
    prototypeId s2 prototypeName = some s.statics.prototypeIDCounter ∧
      s2.statics.prototypeIDCounter = s.statics.prototypeIDCounter + 1

/-- No dangling reference: for every live object and every family recorded in
its index map, the recorded index is a live slot of this manager's table of
the family and the component there has the object's id as `ownerID`. -/
def NoDangling (s : State V) : Prop :=
  ∀ p ∈ s.mgr.objects.elements, ∀ q ∈ p.2.componentIndices,
    ((s.statics.components ⟨false, q.1, s.mgr.version⟩).get? q.2).map (fun c => c.ownerID)
      = some p.1

instance (s : State V) : Decidable (NoDangling s) :=
  inferInstanceAs (Decidable (∀ p ∈ s.mgr.objects.elements, ∀ q ∈ p.2.componentIndices,
    ((s.statics.components ⟨false, q.1, s.mgr.version⟩).get? q.2).map (fun c => c.ownerID)
      = some p.1))

/-- No orphan: every element of a live-object table of this manager is
recorded by exactly one live object. -/
def NoOrphans (s : State V) : Prop :=
  ∀ r : ArrayRef, r.prototype = false → r.version = s.mgr.version →
    ∀ e ∈ (s.statics.components r).elements,
      (s.mgr.objects.elements.filter
        (fun p => decide (mapFind r.family p.2.componentIndices = some e.1))).length = 1

/-- The consistency invariant of the object/component graph. -/
structure Consistent (s : State V) : Prop where
  noDangling : NoDangling s
  noOrphans : NoOrphans s

end Lifetimes

/-! ## Example data -/

/-- A string codec for the examples: the payload is the string itself. -/
def exampleOps : ComponentOps String :=
  ⟨fun _ str => ⟨invalidID, str⟩, fun _ c str => { c with value := str }⟩

/-- The component type `Position` of the spec's scenarios, bound to "pos". -/
def Position : ComponentType := ⟨0, "pos"⟩

/-- The component type `Velocity` of the spec's scenarios, bound to "vel". -/
def Velocity : ComponentType := ⟨1, "vel"⟩

/-- The state of a result, or `d` when the call failed. -/
def stateOr {V : Type} (r : Except Fault (ID × State V)) (d : State V) : State V :=
  match r with
  | .ok x => x.2
  | .error _ => d

/-- A first manager with both component types registered and one object, id 0. -/
def exampleOne : State String :=
  (createObject (registerComponents (construct Statics.initial) [Position, Velocity])).2

/-- Object 0 owns a `Position` decoded from "3,4". -/
def examplePos : State String :=
  stateOr (assignString exampleOps exampleOne 0 [("pos", "3,4")]) exampleOne

/-- Object 0 after `removeAll`. -/
def exampleRemoved : State String :=
  stateOr (removeAllComponents examplePos 0) examplePos

/-- Two objects: object 0 owns a `Velocity`, object 1 owns a `Position`. -/
def exampleTwo : State String :=
  stateOr (assignString exampleOps
    (stateOr (assignString exampleOps (createObject exampleOne).2 0 [("vel", "5,5")])
      exampleOne) 1 [("pos", "1,2")]) exampleOne

/-- The record of object 1 of `exampleTwo`, used as the source of a copy. -/
def exampleSource : Object := ⟨1, [(0, some ⟨false, 0, 0⟩)], [(0, 0)]⟩

/-- The state after `copyObject(0, exampleSource)` on `exampleTwo`. -/
def exampleCopied : State String :=
  match copyObject exampleTwo 0 exampleSource with
  | .ok s => s
  | .error _ => exampleTwo

/-- A first manager (version 0) with both component types registered and no
object. -/
def exampleBase : State String :=
  registerComponents (construct Statics.initial) [Position, Velocity]

/-- The prototype "Enemy" owns a `Position` with payload "1,2". -/
def examplePrototype : State String :=
  assignToPrototype exampleBase "Enemy" [(Position, ⟨invalidID, "1,2"⟩)]

/-- A second manager (version 1), constructed while the first is alive, after
its own `registerComponents` and one `createObject`. -/
def exampleSecond : State String :=
  (createObject (registerComponents (construct exampleBase.statics) [Position, Velocity])).2

/-- The second manager after `assign(0, "pos", "3,4")`. -/
def exampleSecondAssigned : State String :=
  stateOr (assignString exampleOps exampleSecond 0 [("pos", "3,4")]) exampleSecond

/-- The calls of the prototype example: a typed call that creates "Enemy", a
string-keyed call on "Enemy", and a typed call that creates "Boss". -/
def examplePrototypeCalls : List (PrototypeCall String) :=
  [.typed "Enemy" (Position, ⟨invalidID, "1,2"⟩) [],
   .keyed "Enemy" "vel" "1,1" [],
   .typed "Boss" (Position, ⟨invalidID, "5,5"⟩) [(Velocity, ⟨invalidID, "0,1"⟩)]]

/-- The state of the first manager after `examplePrototypeCalls`. -/
def examplePrototypes : State String :=
  match runPrototypeCalls exampleOps exampleBase examplePrototypeCalls with
  | .ok s => s
  | .error _ => exampleBase

/-- A second manager (version 1), constructed while the first is alive, after
its own `registerComponents` and the typed
`assignToPrototype("Enemy", Position "1,2")`. -/
def exampleSecondPrototype : State String :=
  assignToPrototype (registerComponents (construct exampleBase.statics) [Position, Velocity])
    "Enemy" [(Position, ⟨invalidID, "1,2"⟩)]

/-- The second manager after `createObject("Enemy")`. -/
def exampleSecondCreated : State String :=
  stateOr (createObjectFromPrototype exampleSecondPrototype "Enemy") exampleSecondPrototype

/-- A manager constructed after the manager of `examplePos` was destructed: it
takes the released version 0. -/
def exampleReused : State String :=
  construct (destruct examplePos)

/-- The first manager after the string-keyed
`assignToPrototype("Enemy", "pos", "9,9", "vel", "1,1")` on `examplePrototype`. -/
def examplePrototypeKeyed : State String :=
  match assignToPrototypeString exampleOps examplePrototype "Enemy" "pos" "9,9"
      [("vel", "1,1")] with
  | .ok s => s
  | .error _ => examplePrototype

/-- Three objects: 0 owns a `Position`, 1 owns a `Position` and a `Velocity`,
2 owns a `Velocity`. -/
def exampleThree : State String :=
  stateOr (assignString exampleOps
    (stateOr (assignString exampleOps
      (stateOr (assignString exampleOps
        (createObject (createObject exampleOne).2).2 0 [("pos", "1,1")]) exampleOne)
      1 [("pos", "2,2"), ("vel", "2,0")]) exampleOne)
    2 [("vel", "3,3")]) exampleOne

/-! ## Lemmas on maps and packed arrays -/

section MapLemmas

variable {K W : Type} [DecidableEq K]

theorem mapFind_mapSet_self (k : K) (v : W) (m : List (K × W)) :
    mapFind k (mapSet k v m) = some v := by
  induction m with
  | nil => simp [mapSet, mapFind]
  | cons p rest ih =>
    obtain ⟨k1, v1⟩ := p
    by_cases h : k1 = k
    · simp [mapSet, mapFind, h]
    · simp [mapSet, mapFind, h, ih]

theorem mapFind_mapSet_ne (k k2 : K) (v : W) (m : List (K × W)) (hne : k2 ≠ k) :
    mapFind k2 (mapSet k v m) = mapFind k2 m := by
  induction m with
  | nil => simp [mapSet, mapFind, Ne.symm hne]
  | cons p rest ih =>
    obtain ⟨k1, v1⟩ := p
    by_cases h : k1 = k
    · subst h
      simp [mapSet, mapFind, Ne.symm hne]
    · by_cases h2 : k1 = k2
      · subst h2
        simp [mapSet, mapFind, h]
      · simp [mapSet, mapFind, h, h2, ih]

theorem mapFind_mapErase_self (k : K) (m : List (K × W)) :
    mapFind k (mapErase k m) = none := by
  induction m with
  | nil => simp [mapErase, mapFind]
  | cons p rest ih =>
    obtain ⟨k1, v1⟩ := p
    by_cases h : k1 = k
    · simp [mapErase, h, ih]
    · simp [mapErase, h, mapFind, ih]

theorem mapFind_mapErase_ne (k k2 : K) (m : List (K × W)) (hne : k2 ≠ k) :
    mapFind k2 (mapErase k m) = mapFind k2 m := by
  induction m with
  | nil => simp [mapErase, mapFind]
  | cons p rest ih =>
    obtain ⟨k1, v1⟩ := p
    by_cases h : k1 = k
    · subst h
      simp [mapErase, mapFind, Ne.symm hne, ih]
    · by_cases h2 : k1 = k2
      · subst h2
        simp [mapErase, h, mapFind]
      · simp [mapErase, h, mapFind, h2, ih]

theorem mapFind_some_mem (k : K) (v : W) (m : List (K × W)) (h : mapFind k m = some v) :
    (k, v) ∈ m := by
  induction m with
  | nil => simp [mapFind] at h
  | cons p rest ih =>
    obtain ⟨k1, v1⟩ := p
    by_cases hk : k1 = k
    · simp [mapFind, hk] at h
      simp [hk, h]
    · simp [mapFind, hk] at h
      simp [ih h]

end MapLemmas

namespace PackedArray

variable {T : Type}

theorem get?_modify (a : PackedArray T) (id id2 : ID) (f : T → T) :
    (a.modify id f).get? id2 = if id2 = id then (a.get? id).map f else a.get? id2 := by
  obtain ⟨els, n⟩ := a
  simp only [modify, get?]
  induction els with
  | nil => simp [modifyFirst, mapFind]
  | cons p rest ih =>
    obtain ⟨k1, v1⟩ := p
    by_cases h1 : k1 = id
    · subst h1
      by_cases h2 : id2 = k1
      · simp [modifyFirst, mapFind, h2]
      · have h3 : ¬ k1 = id2 := fun h => h2 h.symm
        simp [modifyFirst, mapFind, h2, h3]
    · by_cases h3 : k1 = id2
      · subst h3
        simp [modifyFirst, mapFind, h1]
      · simp only [modifyFirst, h1, if_false, mapFind, h3]
        exact ih

theorem get?_modify_self (a : PackedArray T) (id : ID) (f : T → T) :
    (a.modify id f).get? id = (a.get? id).map f := by
  simp [get?_modify]

theorem get?_modify_ne (a : PackedArray T) (id id2 : ID) (f : T → T) (h : id2 ≠ id) :
    (a.modify id f).get? id2 = a.get? id2 := by
  simp [get?_modify, h]

theorem length_modifyFirst (id : ID) (f : T → T) (l : List (ID × T)) :
    (modifyFirst id f l).length = l.length := by
  induction l with
  | nil => rfl
  | cons p rest ih =>
    obtain ⟨k1, v1⟩ := p
    by_cases h1 : k1 = id <;> simp [modifyFirst, h1, ih]

theorem size_modify (a : PackedArray T) (id : ID) (f : T → T) :
    (a.modify id f).size = a.size := by
  simp [modify, size, length_modifyFirst]

theorem modify_const_of_get? (a : PackedArray T) (id : ID) (x : T) (h : a.get? id = some x) :
    a.modify id (fun _ => x) = a := by
  obtain ⟨els, n⟩ := a
  simp only [modify, get?] at *
  congr 1
  induction els with
  | nil => rfl
  | cons p rest ih =>
    obtain ⟨k1, v1⟩ := p
    by_cases h1 : k1 = id
    · simp [mapFind, h1] at h
      simp [modifyFirst, h1, h]
    · simp only [mapFind, h1, if_false] at h
      simp [modifyFirst, h1, ih h]

theorem modify_of_get?_none (a : PackedArray T) (id : ID) (f : T → T) (h : a.get? id = none) :
    a.modify id f = a := by
  obtain ⟨els, n⟩ := a
  simp only [modify, get?] at *
  congr 1
  induction els with
  | nil => rfl
  | cons p rest ih =>
    obtain ⟨k1, v1⟩ := p
    by_cases h1 : k1 = id
    · simp [mapFind, h1] at h
    · simp only [mapFind, h1, if_false] at h
      simp [modifyFirst, h1, ih h]

theorem modify_modify_const (a : PackedArray T) (id : ID) (f : T → T) (x : T) :
    (a.modify id f).modify id (fun _ => x) = a.modify id (fun _ => x) := by
  obtain ⟨els, n⟩ := a
  simp only [modify]
  congr 1
  induction els with
  | nil => rfl
  | cons p rest ih =>
    obtain ⟨k1, v1⟩ := p
    by_cases h1 : k1 = id
    · simp [modifyFirst, h1]
    · simp [modifyFirst, h1, ih]

theorem isValid_modify (a : PackedArray T) (id id2 : ID) (f : T → T) :
    (a.modify id f).isValid id2 = a.isValid id2 := by
  simp only [isValid, get?_modify]
  by_cases h : id2 = id
  · subst h
    cases a.get? id2 <;> simp
  · simp [h]

theorem size_addItem (a : PackedArray T) (x : T) : (a.addItem x).2.size = a.size + 1 := by
  simp [addItem, size]

theorem get?_addItem_self (a : PackedArray T) (x : T) (h : a.Fresh) :
    (a.addItem x).2.get? (a.addItem x).1 = some x := by
  obtain ⟨els, n⟩ := a
  simp only [addItem, get?]
  have key : ∀ (l : List (ID × T)), (∀ p ∈ l, p.1 < n) → mapFind n (l ++ [(n, x)]) = some x := by
    intro l
    induction l with
    | nil => intro _; simp [mapFind]
    | cons p rest ih =>
      intro hl
      obtain ⟨k1, v1⟩ := p
      have h1 : k1 < n := by simpa using hl (k1, v1) (by simp)
      have h2 : ¬ k1 = n := Nat.ne_of_lt h1
      simp only [List.cons_append, mapFind, h2, if_false]
      exact ih (fun q hq => hl q (by simp [hq]))
  exact key els h

theorem get?_addItem_of_some (a : PackedArray T) (x y : T) (id : ID)
    (h : a.get? id = some y) : (a.addItem x).2.get? id = some y := by
  obtain ⟨els, n⟩ := a
  simp only [addItem, get?] at *
  induction els with
  | nil => simp [mapFind] at h
  | cons p rest ih =>
    obtain ⟨k1, v1⟩ := p
    by_cases h1 : k1 = id
    · simpa [mapFind, h1] using h
    · simp only [List.cons_append, mapFind, h1, if_false] at h ⊢
      exact ih h

theorem fresh_addItem (a : PackedArray T) (x : T) (h : a.Fresh) : (a.addItem x).2.Fresh := by
  intro p hp
  simp only [addItem, List.mem_append, List.mem_singleton] at hp
  rcases hp with hp | hp
  · have h1 : p.1 < a.nextId := h p hp
    exact Nat.lt_succ_of_lt h1
  · subst hp
    exact Nat.lt_succ_self _

theorem mem_modifyFirst_fst (id : ID) (f : T → T) (l : List (ID × T)) (p : ID × T)
    (hp : p ∈ modifyFirst id f l) : ∃ q ∈ l, q.1 = p.1 := by
  induction l with
  | nil => simp [modifyFirst] at hp
  | cons q rest ih =>
    obtain ⟨k1, v1⟩ := q
    by_cases h1 : k1 = id
    · simp only [modifyFirst, h1, if_true, List.mem_cons] at hp
      rcases hp with hp | hp
      · exact ⟨(k1, v1), by simp, by simp [hp, h1]⟩
      · exact ⟨p, by simp [hp], rfl⟩
    · simp only [modifyFirst, h1, if_false, List.mem_cons] at hp
      rcases hp with hp | hp
      · exact ⟨(k1, v1), by simp, by simp [hp]⟩
      · obtain ⟨q, hq, hq2⟩ := ih hp
        exact ⟨q, by simp [hq], hq2⟩

theorem fresh_modify (a : PackedArray T) (id : ID) (f : T → T) (h : a.Fresh) :
    (a.modify id f).Fresh := by
  intro p hp
  obtain ⟨q, hq, hq2⟩ := mem_modifyFirst_fst id f a.elements p hp
  have h1 : q.1 < a.nextId := h q hq
  rw [hq2] at h1
  exact h1

end PackedArray

/-! ## The typed `assign` -/

section TypedAssign

variable {V : Type}

theorem getComponent_of_entry (s : State V) (C : ComponentType) (objectID : ID) (obj : Object)
    (idx : ID) (hobj : s.mgr.objects.get? objectID = some obj)
    (hidx : mapFind C.family obj.componentIndices = some idx) :
    getComponent s C objectID = some ⟨getComponentArray s C, idx⟩ := by
  simp [getComponent, hobj, hidx]

theorem hasComponents_single (s : State V) (C : ComponentType) (objectID : ID) :
    hasComponents s [C] objectID = (getComponent s C objectID).isSome := by
  simp [hasComponents]

/-- C1 (the code at the failing inputs): on a valid object id whose object has
no entry for the family of `C`, the typed `assign` never returns: line 360
calls `assign(objectID, first)`, the same instantiation on the same state,
and not `addComponents`; the call fails for every amount of fuel. -/
theorem assign_missing_family_never_returns (s : State V) (objectID : ID) (C : ComponentType)
    (c : Component V) (others : List (ComponentType × Component V)) (fuel : Nat)
    (hvalid : s.mgr.objects.isValid objectID = true)
    (hlacks : hasComponents s [C] objectID = false) :
    assign fuel s objectID ((C, c) :: others) = .error .outOfFuel := by
  induction fuel generalizing others with
  | zero => rfl
  | succ n ih =>
    simp only [assign, hvalid, hlacks, if_true, Bool.not_false, ih []]

theorem State.setArray_setArray (s : State V) (r : ArrayRef) (a b : PackedArray (Component V)) :
    (s.setArray r a).setArray r b = s.setArray r b := by
  simp only [State.setArray]
  congr 2
  funext r2
  by_cases h : r2 = r <;> simp [h]

theorem State.components_setArray_self (s : State V) (r : ArrayRef)
    (a : PackedArray (Component V)) : (s.setArray r a).statics.components r = a := by
  simp [State.setArray]

theorem State.components_setArray_ne (s : State V) (r r2 : ArrayRef)
    (a : PackedArray (Component V)) (h : r2 ≠ r) :
    (s.setArray r a).statics.components r2 = s.statics.components r2 := by
  simp [State.setArray, h]

/-- The result of the typed `assign(id, c)` on an object that owns the family. -/
theorem assign_existing_family_eq (s : State V) (objectID : ID) (C : ComponentType)
    (c old : Component V) (fuel : Nat) (obj : Object) (idx : ID)
    (hobj : s.mgr.objects.get? objectID = some obj)
    (hidx : mapFind C.family obj.componentIndices = some idx)
    (hlive : deref s ⟨getComponentArray s C, idx⟩ = some old) :
    assign (fuel + 1) s objectID [(C, c)] = .ok (0, s.setArray (getComponentArray s C)
      ((s.statics.components (getComponentArray s C)).modify idx (fun _ => c))) := by
  have hvalid : s.mgr.objects.isValid objectID = true := by
    simp [PackedArray.isValid, hobj]
  have hget := getComponent_of_entry s C objectID obj idx hobj hidx
  have hhas : hasComponents s [C] objectID = true := by
    simp [hasComponents_single, hget]
  simp [assign, hvalid, hhas, setComponent, hget, hlive]

/-- C2: on a valid object id whose object records index `idx` for the family
of `C`, with a live component in that slot of this manager's table, the typed
`assign(id, c)` returns 0, leaves the manager (so the recorded index) and
`getTotalComponents<C>()` unchanged, and afterwards `getComponent<C>(id)`
points at slot `idx` and refers to `c`. -/
theorem assign_existing_family_overwrites (s : State V) (objectID : ID) (C : ComponentType)
    (c old : Component V) (fuel : Nat) (obj : Object) (idx : ID)
    (hobj : s.mgr.objects.get? objectID = some obj)
    (hidx : mapFind C.family obj.componentIndices = some idx)
    (hlive : deref s ⟨getComponentArray s C, idx⟩ = some old) :
    ∃ s2, assign (fuel + 1) s objectID [(C, c)] = .ok (0, s2) ∧
      s2.mgr = s.mgr ∧
      (∃ obj2, s2.mgr.objects.get? objectID = some obj2 ∧
        mapFind C.family obj2.componentIndices = some idx) ∧
      getTotalComponents s2 C = getTotalComponents s C ∧
      getComponent s2 C objectID = some ⟨getComponentArray s2 C, idx⟩ ∧
      deref s2 ⟨getComponentArray s2 C, idx⟩ = some c := by
  refine ⟨_, assign_existing_family_eq s objectID C c old fuel obj idx hobj hidx hlive, rfl,
    ⟨obj, hobj, hidx⟩, ?_, ?_, ?_⟩
  · simp [getTotalComponents, State.setArray, getComponentArray, PackedArray.size_modify]
  · simp [getComponent, State.setArray, hobj, hidx, getComponentArray]
  · simp only [deref] at hlive
    simp only [getComponentArray] at hlive
    simp [deref, State.setArray, getComponentArray, PackedArray.get?_modify_self, hlive]

/-- The typed `assign` is idempotent on an object that already owns the
family: the second call returns 0 and leaves the state of the first. -/
theorem assign_twice_existing_family (s : State V) (objectID : ID) (C : ComponentType)
    (c old : Component V) (fuel : Nat) (obj : Object) (idx : ID)
    (hobj : s.mgr.objects.get? objectID = some obj)
    (hidx : mapFind C.family obj.componentIndices = some idx)
    (hlive : deref s ⟨getComponentArray s C, idx⟩ = some old) :
    ∃ s1, assign (fuel + 1) s objectID [(C, c)] = .ok (0, s1) ∧
      assign (fuel + 1) s1 objectID [(C, c)] = .ok (0, s1) ∧
      deref s1 ⟨getComponentArray s1 C, idx⟩ = some c := by
  have h1 := assign_existing_family_eq s objectID C c old fuel obj idx hobj hidx hlive
  have hd : deref (s.setArray (getComponentArray s C)
      ((s.statics.components (getComponentArray s C)).modify idx (fun _ => c)))
      ⟨getComponentArray s C, idx⟩ = some c := by
    simp only [deref] at hlive
    simp [deref, State.setArray, PackedArray.get?_modify_self, hlive]
  refine ⟨_, h1, ?_, hd⟩
  have h2 := assign_existing_family_eq (s.setArray (getComponentArray s C)
      ((s.statics.components (getComponentArray s C)).modify idx (fun _ => c)))
    objectID C c c fuel obj idx hobj hidx hd
  rw [h2]
  have hr : getComponentArray (s.setArray (getComponentArray s C)
      ((s.statics.components (getComponentArray s C)).modify idx (fun _ => c))) C
      = getComponentArray s C := rfl
  rw [hr, State.components_setArray_self, PackedArray.modify_modify_const,
    State.setArray_setArray]

/-- C3 (the code at the failing inputs): on a valid object id whose object has
no entry for the family of `C`, two typed `assign(id, c)` calls in a row never
complete, because the first one never returns (the defect of C1). -/
theorem assign_twice_missing_family_never_returns (s : State V) (objectID : ID)
    (C : ComponentType) (c : Component V) (fuel : Nat)
    (hvalid : s.mgr.objects.isValid objectID = true)
    (hlacks : hasComponents s [C] objectID = false) :
    Except.bind (assign fuel s objectID [(C, c)]) (fun r => assign fuel r.2 objectID [(C, c)])
      = .error .outOfFuel := by
  have h : assign fuel s objectID [(C, c)] = .error .outOfFuel := by
    induction fuel with
    | zero => rfl
    | succ n ih => simp only [assign, hvalid, hlacks, if_true, Bool.not_false, ih]
  rw [h]
  rfl

/-- Witness for C1: object 0 of `exampleOne` has no `Position`. -/
theorem assign_missing_family_never_returns_witness :
    (exampleOne.mgr.objects.isValid 0 = true ∧ hasComponents exampleOne [Position] 0 = false) ∧
    assign 1000 exampleOne 0 [(Position, ⟨invalidID, "0,0"⟩)] = .error .outOfFuel :=
  ⟨⟨by decide, by decide⟩,
    assign_missing_family_never_returns exampleOne 0 Position ⟨invalidID, "0,0"⟩ [] 1000
      (by decide) (by decide)⟩

/-- Witness for C2: object 0 of `examplePos` owns a `Position` in slot 0. -/
theorem assign_existing_family_overwrites_witness :
    (examplePos.mgr.objects.get? 0
        = some ⟨0, [(0, some ⟨false, 0, 0⟩)], [(0, 0)]⟩ ∧
      deref examplePos ⟨getComponentArray examplePos Position, 0⟩ = some ⟨0, "3,4"⟩) ∧
    ∃ s2, assign 1 examplePos 0 [(Position, ⟨0, "9,9"⟩)] = .ok (0, s2) ∧
      s2.mgr = examplePos.mgr ∧
      (∃ obj2, s2.mgr.objects.get? 0 = some obj2 ∧
        mapFind Position.family obj2.componentIndices = some 0) ∧
      getTotalComponents s2 Position = getTotalComponents examplePos Position ∧
      getComponent s2 Position 0 = some ⟨getComponentArray s2 Position, 0⟩ ∧
      deref s2 ⟨getComponentArray s2 Position, 0⟩ = some ⟨0, "9,9"⟩ :=
  ⟨⟨by decide, by decide⟩,
    assign_existing_family_overwrites examplePos 0 Position ⟨0, "9,9"⟩ ⟨0, "3,4"⟩ 0
      ⟨0, [(0, some ⟨false, 0, 0⟩)], [(0, 0)]⟩ 0 (by decide) (by decide) (by decide)⟩

/-- Witness for C3: object 0 of `exampleOne` has no `Position`. -/
theorem assign_twice_missing_family_never_returns_witness :
    (exampleOne.mgr.objects.isValid 0 = true ∧ hasComponents exampleOne [Position] 0 = false) ∧
    Except.bind (assign 1000 exampleOne 0 [(Position, ⟨invalidID, "0,0"⟩)])
      (fun r => assign 1000 r.2 0 [(Position, ⟨invalidID, "0,0"⟩)]) = .error .outOfFuel :=
  ⟨⟨by decide, by decide⟩,
    assign_twice_missing_family_never_returns exampleOne 0 Position ⟨invalidID, "0,0"⟩ 1000
      (by decide) (by decide)⟩

end TypedAssign


/-! ## The string-keyed `assign` -/

section StringAssign

variable {V : Type}

theorem State.modifyObject_const_self (s : State V) (objectID : ID) (obj : Object)
    (h : s.mgr.objects.get? objectID = some obj) :
    s.modifyObject objectID (fun _ => obj) = s := by
  obtain ⟨g, m⟩ := s
  obtain ⟨objs, protos, pmap, ver⟩ := m
  simp only [State.modifyObject, State.setObjects]
  have h2 : objs.modify objectID (fun _ => obj) = objs :=
    PackedArray.modify_const_of_get? objs objectID obj h
  simp [h2]

theorem assignFromStringFirst_names (ops : ComponentOps V) (g g1 : Statics V) (obj obj1 : Object)
    (cfa : List (Family × Option ArrayRef)) (n v : String) (k : ID)
    (h : assignFromStringFirst ops g obj cfa n v = .ok (k, g1, obj1)) :
    g1.stringToCompFamily = g.stringToCompFamily := by
  unfold assignFromStringFirst at h
  split at h
  · split at h
    · split at h
      · injection h with h
        injection h with _ h
        injection h with h _
        rw [← h]
      · exact absurd h (by simp)
    · dsimp only at h
      split at h
      · injection h with h
        injection h with _ h
        injection h with h _
        rw [← h]
      · exact absurd h (by simp)
    · exact absurd h (by simp)
  · injection h with h
    injection h with _ h
    injection h with h _
    rw [← h]

theorem assignFromStringFirst_unbound (ops : ComponentOps V) (g : Statics V) (obj : Object)
    (cfa : List (Family × Option ArrayRef)) (n v : String)
    (h : mapFind n g.stringToCompFamily = none) :
    assignFromStringFirst ops g obj cfa n v = .ok (0, g, obj) := by
  simp [assignFromStringFirst, h]

/-- The pairs of a call whose name is bound in `stringToCompFamily`. -/
theorem assignFromString_filter (ops : ComponentOps V) (cfa : List (Family × Option ArrayRef))
    (others : List (String × String)) :
    ∀ (g : Statics V) (obj : Object) (n v : String),
      assignFromString ops cfa g obj n v others =
        match ((n, v) :: others).filter
            (fun p => (mapFind p.1 g.stringToCompFamily).isSome) with
        | [] => .ok (0, g, obj)
        | (n2, v2) :: rest => assignFromString ops cfa g obj n2 v2 rest := by
  induction others with
  | nil =>
    intro g obj n v
    cases hb : mapFind n g.stringToCompFamily with
    | none => simp [assignFromString, assignFromStringFirst_unbound, hb, List.filter_cons]
    | some f => simp [hb, List.filter_cons]
  | cons p rest ih =>
    intro g obj n v
    obtain ⟨n2, v2⟩ := p
    cases hb : mapFind n g.stringToCompFamily with
    | none =>
      have h1 : assignFromString ops cfa g obj n v ((n2, v2) :: rest)
          = assignFromString ops cfa g obj n2 v2 rest := by
        simp only [assignFromString, assignFromStringFirst_unbound ops g obj cfa n v hb]
        cases assignFromString ops cfa g obj n2 v2 rest with
        | error e => rfl
        | ok r => obtain ⟨k, g2, o2⟩ := r; simp
      have hf1 : List.filter (fun p => (mapFind p.1 g.stringToCompFamily).isSome)
          ((n, v) :: (n2, v2) :: rest)
          = List.filter (fun p => (mapFind p.1 g.stringToCompFamily).isSome)
            ((n2, v2) :: rest) := List.filter_cons_of_neg (by simp [hb])
      rw [h1, ih g obj n2 v2, hf1]
    | some f =>
      have hf1 : List.filter (fun p => (mapFind p.1 g.stringToCompFamily).isSome)
          ((n, v) :: (n2, v2) :: rest)
          = (n, v) :: List.filter (fun p => (mapFind p.1 g.stringToCompFamily).isSome)
            ((n2, v2) :: rest) := List.filter_cons_of_pos (by simp [hb])
      rw [hf1]
      simp only [assignFromString]
      cases hF : assignFromStringFirst ops g obj cfa n v with
      | error e =>
        simp only
        cases hfl : List.filter (fun p => (mapFind p.1 g.stringToCompFamily).isSome)
            ((n2, v2) :: rest) with
        | nil => simp [assignFromString, hF]
        | cons q rest2 => obtain ⟨n3, v3⟩ := q; simp [assignFromString, hF]
      | ok r =>
        obtain ⟨k, g1, obj1⟩ := r
        have hn := assignFromStringFirst_names ops g g1 obj obj1 cfa n v k hF
        simp only
        rw [ih g1 obj1 n2 v2, hn]
        cases hfl : List.filter (fun p => (mapFind p.1 g.stringToCompFamily).isSome)
            ((n2, v2) :: rest) with
        | nil => simp [assignFromString, hF]
        | cons q rest2 => obtain ⟨n3, v3⟩ := q; simp [assignFromString, hF]

/-- In the string-keyed `assign`, the pairs whose name is not bound in
`stringToCompFamily` are skipped and all other pairs are processed: the
result (count and state, or failure) is that of the call with the unbound
pairs deleted; a call whose names are all unbound returns 0 and leaves the
state unchanged. -/
theorem assignString_skips_unbound_names (ops : ComponentOps V) (s : State V) (objectID : ID)
    (pairs : List (String × String)) :
    assignString ops s objectID pairs =
      assignString ops s objectID
        (pairs.filter (fun p => (mapFind p.1 s.statics.stringToCompFamily).isSome)) ∧
    ((∀ p ∈ pairs, mapFind p.1 s.statics.stringToCompFamily = none) →
      assignString ops s objectID pairs = .ok (0, s)) := by
  have main : assignString ops s objectID pairs =
      assignString ops s objectID
        (pairs.filter (fun p => (mapFind p.1 s.statics.stringToCompFamily).isSome)) := by
    cases pairs with
    | nil => rfl
    | cons p others =>
      obtain ⟨n, v⟩ := p
      cases hobj : s.mgr.objects.get? objectID with
      | none =>
        cases hfl : List.filter (fun p => (mapFind p.1 s.statics.stringToCompFamily).isSome)
            ((n, v) :: others) with
        | nil => simp [assignString, hobj]
        | cons q rest2 => obtain ⟨n3, v3⟩ := q; simp [assignString, hobj]
      | some obj =>
        simp only [assignString, hobj]
        rw [assignFromString_filter]
        cases hfl : List.filter (fun p => (mapFind p.1 s.statics.stringToCompFamily).isSome)
            ((n, v) :: others) with
        | nil =>
          simp only [assignString]
          have := State.modifyObject_const_self s objectID obj hobj
          obtain ⟨g, m⟩ := s
          simpa using this
        | cons q rest2 =>
          obtain ⟨n3, v3⟩ := q
          simp only [assignString, hobj]
  refine ⟨main, fun hall => ?_⟩
  rw [main]
  have : pairs.filter (fun p => (mapFind p.1 s.statics.stringToCompFamily).isSome) = [] := by
    rw [List.filter_eq_nil_iff]
    intro p hp
    simp [hall p hp]
  rw [this]
  rfl

theorem PackedArray.lt_nextId_of_get? {T : Type} (a : PackedArray T) (id : ID) (x : T)
    (hf : a.Fresh) (h : a.get? id = some x) : id < a.nextId := by
  have hm := mapFind_some_mem id x a.elements h
  exact hf (id, x) hm

theorem PackedArray.get?_nextId {T : Type} (a : PackedArray T) (hf : a.Fresh) :
    a.get? a.nextId = none := by
  cases h : a.get? a.nextId with
  | none => rfl
  | some x => exact absurd (PackedArray.lt_nextId_of_get? a a.nextId x hf h) (Nat.lt_irrefl _)

/-- C5: the string-keyed `assign(id, n, v)` with a bound name `n` (family `f`)
on a valid object id. If the object has no table entry for `f` and `f` is
registered with table `arr`, one component decoded from `v` is appended to
`arr` in a new slot `idx`, the object records `arr` and `idx` under `f`, the
component's `ownerID` is the object id, and 1 is returned. If the object
already owns `f` (table `arr`, live index `idx`), `v` is deserialized into
that instance, object and table size are unchanged, and 0 is returned. -/
theorem assignString_bound_name (ops : ComponentOps V) (s : State V) (objectID : ID)
    (n v : String) (f : Family) (obj : Object)
    (hobj : s.mgr.objects.get? objectID = some obj)
    (hid : obj.objectID = objectID)
    (hbound : mapFind n s.statics.stringToCompFamily = some f) :
    (∀ arr, mapFind f obj.componentArrays = none →
        mapFind f s.statics.compFamilyToCompArray = some (some arr) →
        (s.statics.components arr).Fresh →
        ∃ s2 obj2 idx, assignString ops s objectID [(n, v)] = .ok (1, s2) ∧
          (s.statics.components arr).get? idx = none ∧
          (s2.statics.components arr).size = (s.statics.components arr).size + 1 ∧
          (∀ r, r ≠ arr → s2.statics.components r = s.statics.components r) ∧
          (∀ i c, (s.statics.components arr).get? i = some c →
            (s2.statics.components arr).get? i = some c) ∧
          s2.mgr.objects.get? objectID = some obj2 ∧
          mapFind f obj2.componentIndices = some idx ∧
          mapFind f obj2.componentArrays = some (some arr) ∧
          (s2.statics.components arr).get? idx
            = some { ops.fromString arr.family v with ownerID := objectID }) ∧
    (∀ arr idx old, mapFind f obj.componentArrays = some (some arr) →
        mapFind f obj.componentIndices = some idx →
        (s.statics.components arr).get? idx = some old →
        ∃ s2, assignString ops s objectID [(n, v)] = .ok (0, s2) ∧
          s2.mgr = s.mgr ∧
          (s2.statics.components arr).size = (s.statics.components arr).size ∧
          (∀ r, r ≠ arr → s2.statics.components r = s.statics.components r) ∧
          (s2.statics.components arr).get? idx = some (ops.deSerialize arr.family old v)) := by
  constructor
  · intro arr hlacks hreg hfresh
    have heq : assignString ops s objectID [(n, v)] = .ok (1,
        (State.mk { s.statics with components := fun r =>
            if r = arr then
              (((s.statics.components arr).addItem (ops.fromString arr.family v)).2.modify
                (s.statics.components arr).nextId (fun c => { c with ownerID := obj.objectID }))
            else s.statics.components r } s.mgr).modifyObject objectID
          (fun _ => { obj with
            componentArrays := mapSet f (some arr) obj.componentArrays
            componentIndices :=
              mapSet f (s.statics.components arr).nextId obj.componentIndices })) := by
      simp only [assignString, hobj, assignFromString, assignFromStringFirst, hbound, hlacks,
        hreg]
      rfl
    refine ⟨_, { obj with
        componentArrays := mapSet f (some arr) obj.componentArrays
        componentIndices := mapSet f (s.statics.components arr).nextId obj.componentIndices },
      (s.statics.components arr).nextId, heq, ?_, ?_, ?_, ?_, ?_, ?_, ?_, ?_⟩
    · exact PackedArray.get?_nextId _ hfresh
    · simp [State.modifyObject, State.setObjects, PackedArray.size_modify,
        PackedArray.size_addItem]
    · intro r hr
      simp [State.modifyObject, State.setObjects, hr]
    · intro i c hi
      have hlt := PackedArray.lt_nextId_of_get? _ i c hfresh hi
      have hne : i ≠ (s.statics.components arr).nextId := Nat.ne_of_lt hlt
      simp only [State.modifyObject, State.setObjects, if_true]
      rw [PackedArray.get?_modify_ne _ _ _ _ hne]
      exact PackedArray.get?_addItem_of_some _ _ _ _ hi
    · simp only [State.modifyObject, State.setObjects]
      rw [PackedArray.get?_modify_self, hobj]
      rfl
    · simp [mapFind_mapSet_self]
    · simp [mapFind_mapSet_self]
    · simp only [State.modifyObject, State.setObjects, if_true]
      have h1 := PackedArray.get?_addItem_self (s.statics.components arr)
        (ops.fromString arr.family v) hfresh
      have h2 : ((s.statics.components arr).addItem (ops.fromString arr.family v)).1
          = (s.statics.components arr).nextId := rfl
      rw [h2] at h1
      rw [PackedArray.get?_modify_self, h1, hid]
      rfl
  · intro arr idx old harr hidx hlive
    have hix : mapIndex f 0 obj.componentIndices = (idx, obj.componentIndices) := by
      simp [mapIndex, hidx]
    have heq : assignString ops s objectID [(n, v)] = .ok (0,
        (State.mk { s.statics with components := fun r =>
            if r = arr then
              ((s.statics.components arr).modify idx (fun c => ops.deSerialize arr.family c v))
            else s.statics.components r } s.mgr).modifyObject objectID (fun _ => obj)) := by
      simp only [assignString, hobj, assignFromString, assignFromStringFirst, hbound, harr,
        hix, hlive]
    refine ⟨_, heq, ?_, ?_, ?_, ?_⟩
    · simp only [State.modifyObject, State.setObjects]
      rw [PackedArray.modify_const_of_get? _ _ _ hobj]
    · simp [State.modifyObject, State.setObjects, PackedArray.size_modify]
    · intro r hr
      simp [State.modifyObject, State.setObjects, hr]
    · simp [State.modifyObject, State.setObjects, PackedArray.get?_modify_self, hlive]

/-- C6: on an object id that is not live, the typed `assign`, the string-keyed
`assign`, `remove<Families...>` and `destroyObject` leave the whole state
unchanged, and `assign` and `remove` return 0. -/
theorem invalid_id_is_noop (ops : ComponentOps V) (s : State V) (objectID : ID)
    (hinvalid : s.mgr.objects.isValid objectID = false)
    (comps : List (ComponentType × Component V)) (pairs : List (String × String))
    (families : List ComponentType) (fuel : Nat) :
    assign (fuel + 1) s objectID comps = .ok (0, s) ∧
    assignString ops s objectID pairs = .ok (0, s) ∧
    remove s families objectID = (0, s) ∧
    destroyObject s objectID = .ok s := by
  have hget : s.mgr.objects.get? objectID = none := by
    simpa [PackedArray.isValid] using hinvalid
  refine ⟨?_, ?_, ?_, ?_⟩
  · cases comps with
    | nil => rfl
    | cons p rest => obtain ⟨C, c⟩ := p; simp [assign, hinvalid]
  · cases pairs with
    | nil => rfl
    | cons p rest => obtain ⟨n, v⟩ := p; simp [assignString, hget]
  · cases families with
    | nil => rfl
    | cons C rest => simp [remove, hget]
  · simp [destroyObject, hinvalid]

/-- Witness for C5: object 0 of `exampleOne` has no `Position` (insert
branch); object 0 of `examplePos` owns one in slot 0 (overwrite branch). -/
theorem assignString_bound_name_witness :
    (∃ s2 obj2 idx, assignString exampleOps exampleOne 0 [("pos", "3,4")] = .ok (1, s2) ∧
      (exampleOne.statics.components ⟨false, 0, 0⟩).get? idx = none ∧
      (s2.statics.components ⟨false, 0, 0⟩).size
        = (exampleOne.statics.components ⟨false, 0, 0⟩).size + 1 ∧
      (∀ r, r ≠ ⟨false, 0, 0⟩ → s2.statics.components r = exampleOne.statics.components r) ∧
      (∀ i c, (exampleOne.statics.components ⟨false, 0, 0⟩).get? i = some c →
        (s2.statics.components ⟨false, 0, 0⟩).get? i = some c) ∧
      s2.mgr.objects.get? 0 = some obj2 ∧
      mapFind 0 obj2.componentIndices = some idx ∧
      mapFind 0 obj2.componentArrays = some (some ⟨false, 0, 0⟩) ∧
      (s2.statics.components ⟨false, 0, 0⟩).get? idx
        = some { exampleOps.fromString 0 "3,4" with ownerID := 0 }) ∧
    (∃ s2, assignString exampleOps examplePos 0 [("pos", "9,9")] = .ok (0, s2) ∧
      s2.mgr = examplePos.mgr ∧
      (s2.statics.components ⟨false, 0, 0⟩).size
        = (examplePos.statics.components ⟨false, 0, 0⟩).size ∧
      (∀ r, r ≠ ⟨false, 0, 0⟩ → s2.statics.components r = examplePos.statics.components r) ∧
      (s2.statics.components ⟨false, 0, 0⟩).get? 0
        = some (exampleOps.deSerialize 0 ⟨0, "3,4"⟩ "9,9")) :=
  ⟨(assignString_bound_name exampleOps exampleOne 0 "pos" "3,4" 0 ⟨0, [], []⟩
      (by decide) rfl (by decide)).1 ⟨false, 0, 0⟩ (by decide) (by decide) (by decide),
    (assignString_bound_name exampleOps examplePos 0 "pos" "9,9" 0
      ⟨0, [(0, some ⟨false, 0, 0⟩)], [(0, 0)]⟩ (by decide) rfl (by decide)).2
      ⟨false, 0, 0⟩ 0 ⟨0, "3,4"⟩ (by decide) (by decide) (by decide)⟩

/-- Witness for C6: id 5 is not live in `exampleOne`. -/
theorem invalid_id_is_noop_witness :
    exampleOne.mgr.objects.isValid 5 = false ∧
    (assign 1 exampleOne 5 [(Position, ⟨invalidID, "0,0"⟩)] = .ok (0, exampleOne) ∧
      assignString exampleOps exampleOne 5 [("pos", "3,4")] = .ok (0, exampleOne) ∧
      remove exampleOne [Position] 5 = (0, exampleOne) ∧
      destroyObject exampleOne 5 = .ok exampleOne) :=
  ⟨by decide,
    invalid_id_is_noop exampleOps exampleOne 5 (by decide)
      [(Position, ⟨invalidID, "0,0"⟩)] [("pos", "3,4")] [Position] 0⟩

end StringAssign


/-! ## `remove` -/

section Remove

variable {V : Type}

theorem State.get?_modifyObject (s : State V) (objectID id2 : ID) (f : Object → Object) :
    (s.modifyObject objectID f).mgr.objects.get? id2
      = if id2 = objectID then (s.mgr.objects.get? objectID).map f
        else s.mgr.objects.get? id2 := by
  simp only [State.modifyObject, State.setObjects]
  exact PackedArray.get?_modify _ _ _ _

theorem remove_cons_some (s : State V) (C : ComponentType) (args : List ComponentType)
    (objectID idx : ID) (obj : Object) (hobj : s.mgr.objects.get? objectID = some obj)
    (hidx : mapFind C.family obj.componentIndices = some idx) :
    remove s (C :: args) objectID =
      (1 + (remove (removedOne s C objectID idx) args objectID).1,
        (remove (removedOne s C objectID idx) args objectID).2) := by
  simp only [remove, hobj, hidx, removedOne]

theorem remove_cons_none (s : State V) (C : ComponentType) (args : List ComponentType)
    (objectID : ID) (obj : Object) (hobj : s.mgr.objects.get? objectID = some obj)
    (hidx : mapFind C.family obj.componentIndices = none) :
    remove s (C :: args) objectID =
      (0 + (remove s args objectID).1, (remove s args objectID).2) := by
  simp only [remove, hobj, hidx]

theorem removedOne_get? (s : State V) (C : ComponentType) (objectID idx : ID) (obj : Object)
    (hobj : s.mgr.objects.get? objectID = some obj) :
    (removedOne s C objectID idx).mgr.objects.get? objectID
      = some { obj with
          componentArrays := mapErase C.family obj.componentArrays
          componentIndices := mapErase C.family obj.componentIndices } := by
  simp only [removedOne]
  rw [State.get?_modifyObject, if_pos rfl, State.get?_modifyObject, if_pos rfl]
  have : (s.setArray (getComponentArray s C)
      ((s.statics.components (getComponentArray s C)).remove idx)).mgr = s.mgr := rfl
  rw [this, hobj]
  rfl

/-- C7: on a valid object id, after `remove<C>(id)` the object has no `C`
(`hasComponents<C>` is false and `getComponent<C>` is null), while its entries
for every other family, in both maps, and its id are unchanged. -/
theorem remove_single_family (s : State V) (objectID : ID) (C : ComponentType) (obj : Object)
    (hobj : s.mgr.objects.get? objectID = some obj) :
    hasComponents (remove s [C] objectID).2 [C] objectID = false ∧
    getComponent (remove s [C] objectID).2 C objectID = none ∧
    ∃ obj2, (remove s [C] objectID).2.mgr.objects.get? objectID = some obj2 ∧
      obj2.objectID = obj.objectID ∧
      ∀ f, f ≠ C.family →
        mapFind f obj2.componentIndices = mapFind f obj.componentIndices ∧
        mapFind f obj2.componentArrays = mapFind f obj.componentArrays := by
  cases hidx : mapFind C.family obj.componentIndices with
  | none =>
    have hr : (remove s [C] objectID).2 = s := by
      rw [remove_cons_none s C [] objectID obj hobj hidx]
      rfl
    rw [hr]
    have hg : getComponent s C objectID = none := by
      simp [getComponent, hobj, hidx]
    exact ⟨by simp [hasComponents_single, hg], hg, obj, hobj, rfl, fun f _ => ⟨rfl, rfl⟩⟩
  | some idx =>
    have hr : (remove s [C] objectID).2 = removedOne s C objectID idx := by
      rw [remove_cons_some s C [] objectID idx obj hobj hidx]
      rfl
    rw [hr]
    have hobj2 := removedOne_get? s C objectID idx obj hobj
    have hg : getComponent (removedOne s C objectID idx) C objectID = none := by
      simp [getComponent, hobj2, mapFind_mapErase_self]
    refine ⟨by simp [hasComponents_single, hg], hg, _, hobj2, rfl, fun f hf => ⟨?_, ?_⟩⟩
    · exact mapFind_mapErase_ne _ _ _ hf
    · exact mapFind_mapErase_ne _ _ _ hf

/-- Witness for C7: object 0 of `examplePos` owns a `Position`. -/
theorem remove_single_family_witness :
    examplePos.mgr.objects.get? 0 = some ⟨0, [(0, some ⟨false, 0, 0⟩)], [(0, 0)]⟩ ∧
    (hasComponents (remove examplePos [Position] 0).2 [Position] 0 = false ∧
      getComponent (remove examplePos [Position] 0).2 Position 0 = none ∧
      ∃ obj2, (remove examplePos [Position] 0).2.mgr.objects.get? 0 = some obj2 ∧
        obj2.objectID = (Object.mk 0 [(0, some ⟨false, 0, 0⟩)] [(0, 0)]).objectID ∧
        ∀ f, f ≠ Position.family →
          mapFind f obj2.componentIndices
            = mapFind f (Object.mk 0 [(0, some ⟨false, 0, 0⟩)] [(0, 0)]).componentIndices ∧
          mapFind f obj2.componentArrays
            = mapFind f (Object.mk 0 [(0, some ⟨false, 0, 0⟩)] [(0, 0)]).componentArrays) :=
  ⟨by decide,
    remove_single_family examplePos 0 Position ⟨0, [(0, some ⟨false, 0, 0⟩)], [(0, 0)]⟩
      (by decide)⟩

end Remove


section RemoveCount

variable {V : Type}

theorem PackedArray.size_remove_of_valid {T : Type} (a : PackedArray T) (id : ID)
    (h : a.isValid id = true) : (a.remove id).size + 1 = a.size := by
  obtain ⟨els, n⟩ := a
  have hne : els ≠ [] := by
    intro h0
    subst h0
    simp [PackedArray.isValid, PackedArray.get?, mapFind] at h
  simp only [PackedArray.remove, h, if_true, PackedArray.size, PackedArray.swapRemove]
  obtain ⟨last, hlast⟩ : ∃ last, els.getLast? = some last := by
    cases hl : els.getLast? with
    | none => exact absurd (List.getLast?_eq_none_iff.mp hl) hne
    | some x => exact ⟨x, rfl⟩
  rw [hlast]
  simp only [List.length_dropLast, List.length_set]
  have : 0 < els.length := List.length_pos.mpr hne
  omega

theorem PackedArray.remove_of_invalid {T : Type} (a : PackedArray T) (id : ID)
    (h : a.isValid id = false) : a.remove id = a := by
  simp [PackedArray.remove, h]

theorem removedOne_components (s : State V) (C : ComponentType) (objectID idx : ID)
    (ref : ArrayRef) :
    (removedOne s C objectID idx).statics.components ref
      = if ref = getComponentArray s C then
          (s.statics.components (getComponentArray s C)).remove idx
        else s.statics.components ref := by
  simp [removedOne, State.modifyObject, State.setObjects, State.setArray]

theorem removedOne_version (s : State V) (C : ComponentType) (objectID idx : ID) :
    (removedOne s C objectID idx).mgr.version = s.mgr.version := rfl

/-- What `remove<Families...>(id)` does on a valid id when every recorded
index of a listed family is live in this manager's table of that family. -/
theorem remove_spec (objectID : ID) (fams : List ComponentType) :
    ∀ (s : State V) (obj : Object), s.mgr.objects.get? objectID = some obj →
      (∀ C ∈ fams, ∀ idx, mapFind C.family obj.componentIndices = some idx →
        (s.statics.components (getComponentArray s C)).isValid idx = true) →
      (remove s fams objectID).1
        = (Finset.filter (fun f => (mapFind f obj.componentIndices).isSome = true)
            (fams.map (fun C => C.family)).toFinset).card ∧
      (remove s fams objectID).2.mgr.version = s.mgr.version ∧
      (∃ obj2, (remove s fams objectID).2.mgr.objects.get? objectID = some obj2 ∧
        ∀ f, mapFind f obj2.componentIndices
          = if f ∈ fams.map (fun C => C.family) then none
            else mapFind f obj.componentIndices) ∧
      (∀ ref : ArrayRef,
        ((remove s fams objectID).2.statics.components ref).size
          + (if ref.prototype = false ∧ ref.version = s.mgr.version ∧
                ref.family ∈ fams.map (fun C => C.family) ∧
                (mapFind ref.family obj.componentIndices).isSome = true then 1 else 0)
          = (s.statics.components ref).size) ∧
      (∀ ref : ArrayRef,
        ¬ (ref.prototype = false ∧ ref.version = s.mgr.version ∧
            ref.family ∈ fams.map (fun C => C.family) ∧
            (mapFind ref.family obj.componentIndices).isSome = true) →
        (remove s fams objectID).2.statics.components ref = s.statics.components ref) := by
  induction fams with
  | nil =>
    intro s obj hobj _
    refine ⟨by simp [remove], rfl, ⟨obj, hobj, fun f => by simp⟩, fun ref => by simp [remove],
      fun ref _ => rfl⟩
  | cons C rest ih =>
    intro s obj hobj hlive
    cases hidx : mapFind C.family obj.componentIndices with
    | none =>
      rw [remove_cons_none s C rest objectID obj hobj hidx]
      obtain ⟨h1, h2, ⟨obj2, h3, h3b⟩, h4, h5⟩ := ih s obj hobj
        (fun D hD idx hi => hlive D (List.mem_cons_of_mem _ hD) idx hi)
      have hcond : ∀ f : Family, (f ∈ (C :: rest).map (fun C => C.family) ∧
          (mapFind f obj.componentIndices).isSome = true) ↔
          (f ∈ rest.map (fun C => C.family) ∧
          (mapFind f obj.componentIndices).isSome = true) := by
        intro f
        constructor
        · rintro ⟨hm, ho⟩
          simp only [List.map_cons, List.mem_cons] at hm
          rcases hm with hm | hm
          · rw [hm, hidx] at ho
            simp at ho
          · exact ⟨hm, ho⟩
        · rintro ⟨hm, ho⟩
          exact ⟨by simp only [List.map_cons, List.mem_cons]; exact Or.inr hm, ho⟩
      refine ⟨?_, h2, ⟨obj2, h3, fun f => ?_⟩, fun ref => ?_, fun ref hn => ?_⟩
      · simp only [Nat.zero_add, h1]
        congr 1
        ext f
        simp only [Finset.mem_filter, List.mem_toFinset]
        exact (hcond f).symm
      · rw [h3b f]
        by_cases hf : f = C.family
        · subst hf
          simp [hidx]
        · simp [hf]
      · rw [← h4 ref]
        congr 1
        by_cases hc : ref.family ∈ rest.map (fun C => C.family) ∧
            (mapFind ref.family obj.componentIndices).isSome = true
        · have hc2 := (hcond ref.family).mpr hc
          by_cases hp : ref.prototype = false ∧ ref.version = s.mgr.version
          · rw [if_pos ⟨hp.1, hp.2, hc2.1, hc2.2⟩, if_pos ⟨hp.1, hp.2, hc.1, hc.2⟩]
          · rw [if_neg (fun h => hp ⟨h.1, h.2.1⟩), if_neg (fun h => hp ⟨h.1, h.2.1⟩)]
        · have hc2 : ¬ (ref.family ∈ (C :: rest).map (fun C => C.family) ∧
              (mapFind ref.family obj.componentIndices).isSome = true) :=
            fun h => hc ((hcond ref.family).mp h)
          rw [if_neg (fun h => hc2 ⟨h.2.2.1, h.2.2.2⟩), if_neg (fun h => hc ⟨h.2.2.1, h.2.2.2⟩)]
      · apply h5 ref
        intro h
        exact hn ⟨h.1, h.2.1, ((hcond ref.family).mpr ⟨h.2.2.1, h.2.2.2⟩).1, h.2.2.2⟩
    | some idx =>
      rw [remove_cons_some s C rest objectID idx obj hobj hidx]
      dsimp only
      have hobj3 := removedOne_get? s C objectID idx obj hobj
      have hvalid := hlive C (List.mem_cons_self _ _) idx hidx
      have hlive3 : ∀ D ∈ rest, ∀ i,
          mapFind D.family (Object.mk obj.objectID (mapErase C.family obj.componentArrays)
            (mapErase C.family obj.componentIndices)).componentIndices = some i →
          ((removedOne s C objectID idx).statics.components
            (getComponentArray (removedOne s C objectID idx) D)).isValid i = true := by
        intro D hD i hi
        have hne : D.family ≠ C.family := by
          intro h
          simp only [h, mapFind_mapErase_self] at hi
          exact absurd hi (by simp)
        simp only [mapFind_mapErase_ne _ _ _ hne] at hi
        have hT : getComponentArray (removedOne s C objectID idx) D ≠ getComponentArray s C := by
          simp [getComponentArray, hne]
        rw [removedOne_components, if_neg hT]
        exact hlive D (List.mem_cons_of_mem _ hD) i hi
      obtain ⟨h1, h2, ⟨obj2, h3, h3b⟩, h4, h5⟩ := ih (removedOne s C objectID idx) _ hobj3 hlive3
      dsimp only at h1 h3b h4 h5
      have howned : ∀ f : Family,
          (mapFind f (mapErase C.family obj.componentIndices)).isSome = true ↔
            (f ≠ C.family ∧ (mapFind f obj.componentIndices).isSome = true) := by
        intro f
        by_cases hf : f = C.family
        · subst hf
          simp [mapFind_mapErase_self]
        · simp [mapFind_mapErase_ne _ _ _ hf, hf]
      refine ⟨?_, ?_, ⟨obj2, h3, fun f => ?_⟩, fun ref => ?_, fun ref hn => ?_⟩
      · rw [h1]
        have hset : Finset.filter (fun f => (mapFind f obj.componentIndices).isSome = true)
            ((C :: rest).map (fun C => C.family)).toFinset
            = insert C.family (Finset.filter
              (fun f => (mapFind f (mapErase C.family obj.componentIndices)).isSome = true)
              (rest.map (fun C => C.family)).toFinset) := by
          ext f
          simp only [Finset.mem_filter, List.mem_toFinset, List.map_cons, List.mem_cons,
            Finset.mem_insert, howned f]
          by_cases hf : f = C.family
          · subst hf
            simp [hidx]
          · simp [hf]
        rw [hset, Finset.card_insert_of_not_mem]
        · exact Nat.add_comm _ _
        · simp only [Finset.mem_filter, howned C.family]
          intro h
          exact h.2.1 rfl
      · rw [h2]
        rfl
      · rw [h3b f]
        by_cases hf : f = C.family
        · subst hf
          simp [mapFind_mapErase_self]
        · simp [hf, mapFind_mapErase_ne _ _ _ hf]
      · have h4r := h4 ref
        rw [removedOne_components] at h4r
        simp only [removedOne_version] at h4r
        by_cases hT : ref = getComponentArray s C
        · subst hT
          rw [if_pos rfl] at h4r
          have hsz := PackedArray.size_remove_of_valid _ idx hvalid
          have hc3 : ¬ ((getComponentArray s C).prototype = false ∧
              (getComponentArray s C).version = s.mgr.version ∧
              (getComponentArray s C).family ∈ rest.map (fun C => C.family) ∧
              (mapFind (getComponentArray s C).family
                (mapErase C.family obj.componentIndices)).isSome = true) := by
            intro h
            have := (howned _).mp h.2.2.2
            exact this.1 rfl
          have hc : (getComponentArray s C).prototype = false ∧
              (getComponentArray s C).version = s.mgr.version ∧
              (getComponentArray s C).family ∈ (C :: rest).map (fun C => C.family) ∧
              (mapFind (getComponentArray s C).family obj.componentIndices).isSome = true := by
            refine ⟨rfl, rfl, by simp [getComponentArray], ?_⟩
            simp [getComponentArray, hidx]
          rw [if_neg hc3] at h4r
          rw [if_pos hc]
          omega
        · rw [if_neg hT] at h4r
          rw [← h4r]
          congr 1
          by_cases hc : ref.prototype = false ∧ ref.version = s.mgr.version ∧
              ref.family ∈ (C :: rest).map (fun C => C.family) ∧
              (mapFind ref.family obj.componentIndices).isSome = true
          · have hfam : ref.family ≠ C.family := by
              intro h
              apply hT
              obtain ⟨p, f, v⟩ := ref
              simp only [getComponentArray] at *
              simp at hc h
              simp [hc.1, hc.2.1, h]
            have hc3 : ref.prototype = false ∧ ref.version = s.mgr.version ∧
                ref.family ∈ rest.map (fun C => C.family) ∧
                (mapFind ref.family (mapErase C.family obj.componentIndices)).isSome = true := by
              refine ⟨hc.1, hc.2.1, ?_, (howned _).mpr ⟨hfam, hc.2.2.2⟩⟩
              have := hc.2.2.1
              simp only [List.map_cons, List.mem_cons] at this
              rcases this with h | h
              · exact absurd h hfam
              · exact h
            rw [if_pos hc, if_pos hc3]
          · have hc3 : ¬ (ref.prototype = false ∧ ref.version = s.mgr.version ∧
                ref.family ∈ rest.map (fun C => C.family) ∧
                (mapFind ref.family (mapErase C.family obj.componentIndices)).isSome = true) := by
              intro h
              apply hc
              refine ⟨h.1, h.2.1, ?_, ((howned _).mp h.2.2.2).2⟩
              simp only [List.map_cons, List.mem_cons]
              exact Or.inr h.2.2.1
            rw [if_neg hc, if_neg hc3]
      · have hT : ref ≠ getComponentArray s C := by
          intro h
          apply hn
          subst h
          refine ⟨rfl, rfl, by simp [getComponentArray], ?_⟩
          simp [getComponentArray, hidx]
        have h5r := h5 ref (by
          intro h
          apply hn
          refine ⟨h.1, h.2.1, ?_, ((howned _).mp h.2.2.2).2⟩
          simp only [List.map_cons, List.mem_cons]
          exact Or.inr h.2.2.1)
        rw [h5r, removedOne_components, if_neg hT]

end RemoveCount


section RemoveClaim

variable {V : Type}

theorem remove_unowned (objectID : ID) (fams : List ComponentType) (s : State V) (obj : Object)
    (hobj : s.mgr.objects.get? objectID = some obj)
    (hnone : ∀ C ∈ fams, mapFind C.family obj.componentIndices = none) :
    remove s fams objectID = (0, s) := by
  induction fams with
  | nil => rfl
  | cons C rest ih =>
    rw [remove_cons_none s C rest objectID obj hobj (hnone C (List.mem_cons_self _ _)),
      ih (fun D hD => hnone D (List.mem_cons_of_mem _ hD))]
    rfl

/-- C8 (amended): on a valid object id, when every recorded index of a listed
family is a live slot of this manager's table of that family,
`remove<Families...>(id)` returns the number of distinct listed families the
object records, the table of each of them shrinks by exactly one element,
every other table is unchanged, listed families the object does not record
change nothing, and the empty list returns 0. -/
theorem remove_counts_owned_families (s : State V) (objectID : ID) (fams : List ComponentType)
    (obj : Object) (hobj : s.mgr.objects.get? objectID = some obj)
    (hlive : ∀ C ∈ fams, ∀ idx, mapFind C.family obj.componentIndices = some idx →
      (s.statics.components (getComponentArray s C)).isValid idx = true) :
    (remove s fams objectID).1
      = (Finset.filter (fun f => (mapFind f obj.componentIndices).isSome = true)
          (fams.map (fun C => C.family)).toFinset).card ∧
    (∀ D ∈ fams, (mapFind D.family obj.componentIndices).isSome = true →
      getTotalComponents (remove s fams objectID).2 D + 1 = getTotalComponents s D) ∧
    (∀ ref : ArrayRef,
      ¬ (ref.prototype = false ∧ ref.version = s.mgr.version ∧
          ref.family ∈ fams.map (fun C => C.family) ∧
          (mapFind ref.family obj.componentIndices).isSome = true) →
      (remove s fams objectID).2.statics.components ref = s.statics.components ref) ∧
    ((∀ C ∈ fams, mapFind C.family obj.componentIndices = none) →
      remove s fams objectID = (0, s)) ∧
    remove s [] objectID = (0, s) := by
  obtain ⟨h1, h2, _, h4, h5⟩ := remove_spec objectID fams s obj hobj hlive
  refine ⟨h1, fun D hD hown => ?_, h5, remove_unowned objectID fams s obj hobj, rfl⟩
  have h := h4 (getComponentArray s D)
  have hc : (getComponentArray s D).prototype = false ∧
      (getComponentArray s D).version = s.mgr.version ∧
      (getComponentArray s D).family ∈ fams.map (fun C => C.family) ∧
      (mapFind (getComponentArray s D).family obj.componentIndices).isSome = true :=
    ⟨rfl, rfl, List.mem_map_of_mem _ hD, hown⟩
  rw [if_pos hc] at h
  have hv : getComponentArray (remove s fams objectID).2 D = getComponentArray s D := by
    simp [getComponentArray, h2]
  simp only [getTotalComponents, hv]
  exact h

/-- Witness for C8 (amended): object 0 of `examplePos` owns a `Position` in a
live slot and no `Velocity`. -/
theorem remove_counts_owned_families_witness :
    (examplePos.mgr.objects.get? 0 = some ⟨0, [(0, some ⟨false, 0, 0⟩)], [(0, 0)]⟩) ∧
    ((remove examplePos [Position, Velocity, Position] 0).1
      = (Finset.filter (fun f => (mapFind f
            (Object.mk 0 [(0, some ⟨false, 0, 0⟩)] [(0, 0)]).componentIndices).isSome = true)
          ([Position, Velocity, Position].map (fun C => C.family)).toFinset).card ∧
    (∀ D ∈ [Position, Velocity, Position],
      (mapFind D.family
        (Object.mk 0 [(0, some ⟨false, 0, 0⟩)] [(0, 0)]).componentIndices).isSome = true →
      getTotalComponents (remove examplePos [Position, Velocity, Position] 0).2 D + 1
        = getTotalComponents examplePos D) ∧
    (∀ ref : ArrayRef,
      ¬ (ref.prototype = false ∧ ref.version = examplePos.mgr.version ∧
          ref.family ∈ [Position, Velocity, Position].map (fun C => C.family) ∧
          (mapFind ref.family
            (Object.mk 0 [(0, some ⟨false, 0, 0⟩)] [(0, 0)]).componentIndices).isSome = true) →
      (remove examplePos [Position, Velocity, Position] 0).2.statics.components ref
        = examplePos.statics.components ref) ∧
    ((∀ C ∈ [Position, Velocity, Position],
        mapFind C.family (Object.mk 0 [(0, some ⟨false, 0, 0⟩)] [(0, 0)]).componentIndices
          = none) →
      remove examplePos [Position, Velocity, Position] 0 = (0, examplePos)) ∧
    remove examplePos [] 0 = (0, examplePos)) :=
  ⟨by decide,
    remove_counts_owned_families examplePos 0 [Position, Velocity, Position]
      ⟨0, [(0, some ⟨false, 0, 0⟩)], [(0, 0)]⟩ (by decide) (by decide)⟩

/-- C8 as stated fails: object 0 of `exampleRemoved` (after `removeAll`) still
records `Position`; `remove<Position>(0)` returns 1 although the `Position`
table does not shrink (it is empty before and after). -/
theorem remove_stale_index_counterexample :
    (∃ obj idx, exampleRemoved.mgr.objects.get? 0 = some obj ∧
      mapFind Position.family obj.componentIndices = some idx) ∧
    (remove exampleRemoved [Position] 0).1 = 1 ∧
    ¬ (getTotalComponents (remove exampleRemoved [Position] 0).2 Position + 1
        = getTotalComponents exampleRemoved Position) :=
  ⟨⟨⟨0, [(0, some ⟨false, 0, 0⟩)], [(0, 0)]⟩, 0, by decide, by decide⟩, by decide, by decide⟩

end RemoveClaim

/-! ## `removeAllComponents` and `copyObject` -/

section RemoveAll

variable {V : Type}

theorem mapIndex_keeps {K W : Type} [DecidableEq K] (k k2 : K) (d v : W) (m : List (K × W))
    (h : mapFind k2 m = some v) : mapFind k2 (mapIndex k d m).2 = some v := by
  unfold mapIndex
  cases hk : mapFind k m with
  | some x => exact h
  | none =>
    have hne : k2 ≠ k := by
      intro h2
      rw [h2, hk] at h
      exact absurd h (by simp)
    simp only [mapFind_mapSet_ne _ _ _ _ hne, h]

/-- The loop of `removeAllComponents` keeps every entry of the object's
`componentIndices`, its `componentArrays`, and the manager version. -/
theorem removeAllComponentsLoop_keeps (objectID : ID) (f : Family) (idx : ID)
    (l : List (Family × Option ArrayRef)) :
    ∀ (n m : ID) (s s2 : State V) (obj : Object),
      removeAllComponentsLoop objectID l n s = .ok (m, s2) →
      s.mgr.objects.get? objectID = some obj →
      mapFind f obj.componentIndices = some idx →
      ∃ obj2, s2.mgr.objects.get? objectID = some obj2 ∧
        mapFind f obj2.componentIndices = some idx ∧
        obj2.componentArrays = obj.componentArrays ∧
        s2.mgr.version = s.mgr.version := by
  induction l with
  | nil =>
    intro n m s s2 obj h hobj hidx
    simp only [removeAllComponentsLoop] at h
    injection h with h
    injection h with _ h
    subst h
    exact ⟨obj, hobj, hidx, rfl, rfl⟩
  | cons p rest ih =>
    intro n m s s2 obj h hobj hidx
    obtain ⟨fam, arrPtr⟩ := p
    simp only [removeAllComponentsLoop, hobj] at h
    cases arrPtr with
    | none => exact absurd h (by simp)
    | some arr =>
      simp only at h
      have hobj1 : ((s.modifyObject objectID (fun o => { o with
          componentIndices := (mapIndex fam 0 obj.componentIndices).2 })).setArray arr
          (((s.modifyObject objectID (fun o => { o with
            componentIndices := (mapIndex fam 0 obj.componentIndices).2 })).statics.components
              arr).remove (mapIndex fam 0 obj.componentIndices).1)).mgr.objects.get? objectID
          = some { obj with componentIndices := (mapIndex fam 0 obj.componentIndices).2 } := by
        have : ∀ (t : State V) (r : ArrayRef) (a : PackedArray (Component V)),
            (t.setArray r a).mgr = t.mgr := fun _ _ _ => rfl
        rw [this, State.get?_modifyObject, if_pos rfl, hobj]
        rfl
      obtain ⟨obj2, h1, h2, h3, h4⟩ := ih _ _ _ _ _ h hobj1
        (mapIndex_keeps fam f 0 idx obj.componentIndices hidx)
      exact ⟨obj2, h1, h2, h3, h4⟩

/-- The loop of `removeAllComponents` returns when no table pointer is null. -/
theorem removeAllComponentsLoop_returns (objectID : ID)
    (l : List (Family × Option ArrayRef)) :
    ∀ (n : ID) (s : State V) (obj : Object),
      s.mgr.objects.get? objectID = some obj →
      (∀ p ∈ l, p.2 ≠ none) →
      ∃ s2, removeAllComponentsLoop objectID l n s = .ok (n + l.length, s2) := by
  induction l with
  | nil =>
    intro n s obj _ _
    exact ⟨s, rfl⟩
  | cons p rest ih =>
    intro n s obj hobj hnn
    obtain ⟨fam, arrPtr⟩ := p
    cases arrPtr with
    | none => exact absurd rfl (hnn (fam, none) (List.mem_cons_self _ _))
    | some arr =>
      simp only [removeAllComponentsLoop, hobj]
      have hobj1 : ((s.modifyObject objectID (fun o => { o with
          componentIndices := (mapIndex fam 0 obj.componentIndices).2 })).setArray arr
          (((s.modifyObject objectID (fun o => { o with
            componentIndices := (mapIndex fam 0 obj.componentIndices).2 })).statics.components
              arr).remove (mapIndex fam 0 obj.componentIndices).1)).mgr.objects.get? objectID
          = some { obj with componentIndices := (mapIndex fam 0 obj.componentIndices).2 } := by
        have : ∀ (t : State V) (r : ArrayRef) (a : PackedArray (Component V)),
            (t.setArray r a).mgr = t.mgr := fun _ _ _ => rfl
        rw [this, State.get?_modifyObject, if_pos rfl, hobj]
        rfl
      obtain ⟨s2, h2⟩ := ih (n + 1) _ _ hobj1
        (fun q hq => hnn q (List.mem_cons_of_mem _ hq))
      refine ⟨s2, ?_⟩
      rw [h2, List.length_cons, Nat.add_assoc, Nat.add_comm 1]

/-- C9 (the code at the failing inputs): on a valid object id,
`removeAllComponents` returns the number of the object's components but erases
nothing from the object's maps: a family `F` recorded before is still
recorded afterwards, `getComponent<F>` is non-null and `hasComponents<F>` is
still true. -/
theorem removeAllComponents_keeps_entries (s : State V) (objectID : ID) (obj : Object)
    (F : ComponentType) (idx : ID)
    (hobj : s.mgr.objects.get? objectID = some obj)
    (hnonnull : ∀ p ∈ obj.componentArrays, p.2 ≠ none)
    (hentry : mapFind F.family obj.componentIndices = some idx) :
    ∃ s2, removeAllComponents s objectID = .ok (obj.componentArrays.length, s2) ∧
      hasComponents s2 [F] objectID = true ∧
      getComponent s2 F objectID = some ⟨getComponentArray s2 F, idx⟩ := by
  obtain ⟨s2, hret⟩ := removeAllComponentsLoop_returns objectID obj.componentArrays 0 s obj
    hobj hnonnull
  obtain ⟨obj2, h1, h2, _, _⟩ := removeAllComponentsLoop_keeps objectID F.family idx
    obj.componentArrays 0 _ s s2 obj hret hobj hentry
  have hg := getComponent_of_entry s2 F objectID obj2 idx h1 h2
  refine ⟨s2, ?_, by simp [hasComponents_single, hg], hg⟩
  simp only [removeAllComponents, hobj, hret, Nat.zero_add]

/-- Witness for C9: object 0 of `examplePos` owns a `Position`; after
`removeAll` it still answers `hasComponents<Position>` with true. -/
theorem removeAllComponents_keeps_entries_witness :
    (examplePos.mgr.objects.get? 0 = some ⟨0, [(0, some ⟨false, 0, 0⟩)], [(0, 0)]⟩) ∧
    ∃ s2, removeAllComponents examplePos 0
        = .ok ((Object.mk 0 [(0, some ⟨false, 0, 0⟩)] [(0, 0)]).componentArrays.length, s2) ∧
      hasComponents s2 [Position] 0 = true ∧
      getComponent s2 Position 0 = some ⟨getComponentArray s2 Position, 0⟩ :=
  ⟨by decide,
    removeAllComponents_keeps_entries examplePos 0 ⟨0, [(0, some ⟨false, 0, 0⟩)], [(0, 0)]⟩
      Position 0 (by decide) (by decide) (by decide)⟩

end RemoveAll


section Copy

variable {V : Type}

theorem mapFind_none_of_forall_ne {K W : Type} [DecidableEq K] (k : K) (m : List (K × W))
    (h : mapFind k m = none) : ∀ p ∈ m, p.1 ≠ k := by
  induction m with
  | nil => intro p hp; simp at hp
  | cons q rest ih =>
    obtain ⟨k1, v1⟩ := q
    by_cases hk : k1 = k
    · simp [mapFind, hk] at h
    · simp only [mapFind, hk, if_false] at h
      intro p hp
      simp only [List.mem_cons] at hp
      rcases hp with hp | hp
      · rw [hp]; exact hk
      · exact ih h p hp

/-- The first loop of `copyObject` leaves the destination's `componentIndices`. -/
theorem copyObjectFamilies_keeps (destinationId : ID) (l : List (Family × Option ArrayRef)) :
    ∀ (s : State V) (obj : Object), s.mgr.objects.get? destinationId = some obj →
      ∃ obj1, (copyObjectFamilies destinationId l s).mgr.objects.get? destinationId = some obj1 ∧
        obj1.componentIndices = obj.componentIndices := by
  induction l with
  | nil => intro s obj hobj; exact ⟨obj, hobj, rfl⟩
  | cons p rest ih =>
    intro s obj hobj
    obtain ⟨fam, ptr⟩ := p
    simp only [copyObjectFamilies]
    exact ih _
      (Object.mk obj.objectID
        (mapSet fam (mapIndex fam none s.statics.compFamilyToCompArray).1 obj.componentArrays)
        obj.componentIndices)
      (by
        rw [State.get?_modifyObject, if_pos rfl]
        exact (congrArg (Option.map _) hobj).trans rfl)

theorem createCopy_mgr (s s2 : State V) (src dst : Option ArrayRef) (i k : ID)
    (h : createCopy s src i dst = .ok (k, s2)) : s2.mgr = s.mgr := by
  unfold createCopy at h
  split at h
  · split at h
    · injection h with h
      injection h with _ h
      rw [← h]
      rfl
    · exact absurd h (by simp)
  · exact absurd h (by simp)

/-- The second loop of `copyObject` leaves the destination's entry for a
family that the source does not list. -/
theorem copyObjectComponents_keeps (destinationId : ID) (source : Object) (f : Family)
    (idx : ID) (l : List (Family × Option ArrayRef)) :
    ∀ (s s2 : State V) (obj : Object),
      copyObjectComponents destinationId source l s = .ok s2 →
      s.mgr.objects.get? destinationId = some obj →
      mapFind f obj.componentIndices = some idx →
      (∀ p ∈ l, p.1 ≠ f) →
      ∃ obj2, s2.mgr.objects.get? destinationId = some obj2 ∧
        mapFind f obj2.componentIndices = some idx := by
  induction l with
  | nil =>
    intro s s2 obj h hobj hidx _
    simp only [copyObjectComponents] at h
    injection h with h
    subst h
    exact ⟨obj, hobj, hidx⟩
  | cons p rest ih =>
    intro s s2 obj h hobj hidx hne
    obtain ⟨fam, srcArr⟩ := p
    have hfam : f ≠ fam := fun h => hne (fam, srcArr) (List.mem_cons_self _ _) h.symm
    simp only [copyObjectComponents, hobj] at h
    cases hsi : mapFind fam source.componentIndices with
    | none => rw [hsi] at h; exact absurd h (by simp)
    | some sourceCompIdx =>
      rw [hsi] at h
      simp only at h
      cases hcc : createCopy (s.modifyObject destinationId (fun o => { o with
          componentArrays := (mapIndex fam none obj.componentArrays).2 })) srcArr sourceCompIdx
          (mapIndex fam none obj.componentArrays).1 with
      | error e => rw [hcc] at h; exact absurd h (by simp)
      | ok r =>
        obtain ⟨newIdx, s3⟩ := r
        rw [hcc] at h
        cases hptr : (mapIndex fam none obj.componentArrays).1 with
        | none => rw [hptr] at h; exact absurd h (by simp)
        | some componentArray =>
          rw [hptr] at h
          simp only at h
          have hm := createCopy_mgr _ _ _ _ _ _ hcc
          have hobj3 : ((s3.setArray componentArray
              ((s3.statics.components componentArray).modify newIdx
                (fun c => { c with ownerID := destinationId }))).modifyObject destinationId
              (fun o => { o with
                componentIndices := mapSet fam newIdx o.componentIndices })).mgr.objects.get?
                destinationId
              = some { obj with
                  componentArrays := (mapIndex fam none obj.componentArrays).2
                  componentIndices := mapSet fam newIdx obj.componentIndices } := by
            rw [State.get?_modifyObject, if_pos rfl]
            have : (s3.setArray componentArray
              ((s3.statics.components componentArray).modify newIdx
                (fun c => { c with ownerID := destinationId }))).mgr = s3.mgr := rfl
            rw [this, hm, State.get?_modifyObject, if_pos rfl, hobj]
            rfl
          exact ih _ _ _ h hobj3 (by simp [mapFind_mapSet_ne _ _ _ _ hfam, hidx])
            (fun q hq => hne q (List.mem_cons_of_mem _ hq))

/-- C10 (the code at the failing inputs): a family `F` that the destination
records before `copyObject(destinationId, source)` and that the source does
not record is still recorded on the destination afterwards, with the same
(stale) index: the destination's families are not exactly the source's. -/
theorem copyObject_keeps_destination_entries (s s2 : State V) (destinationId : ID)
    (source obj : Object) (F : ComponentType) (idx : ID)
    (hobj : s.mgr.objects.get? destinationId = some obj)
    (hentry : mapFind F.family obj.componentIndices = some idx)
    (hsource : mapFind F.family source.componentArrays = none)
    (hret : copyObject s destinationId source = .ok s2) :
    ∃ obj2, s2.mgr.objects.get? destinationId = some obj2 ∧
      mapFind F.family obj2.componentIndices = some idx ∧
      hasComponents s2 [F] destinationId = true := by
  have hvalid : s.mgr.objects.isValid destinationId = true := by
    simp [PackedArray.isValid, hobj]
  simp only [copyObject, hvalid, if_true] at hret
  cases hra : removeAllComponents s destinationId with
  | error e => rw [hra] at hret; exact absurd hret (by simp)
  | ok r =>
    obtain ⟨n, s1⟩ := r
    rw [hra] at hret
    simp only at hret
    simp only [removeAllComponents, hobj] at hra
    obtain ⟨obj1, h1, h2, _, _⟩ := removeAllComponentsLoop_keeps destinationId F.family idx
      obj.componentArrays 0 n s s1 obj hra hobj hentry
    obtain ⟨obj1b, h3, h4⟩ := copyObjectFamilies_keeps destinationId source.componentArrays
      s1 obj1 h1
    obtain ⟨obj2, h5, h6⟩ := copyObjectComponents_keeps destinationId source F.family idx
      source.componentArrays _ s2 obj1b hret h3 (by rw [h4]; exact h2)
      (mapFind_none_of_forall_ne _ _ hsource)
    refine ⟨obj2, h5, h6, ?_⟩
    simp [hasComponents_single, getComponent_of_entry s2 F destinationId obj2 idx h5 h6]

/-- Witness for C10: object 0 of `exampleTwo` owns a `Velocity`, the source
owns only a `Position`; after the copy object 0 records both families. -/
theorem copyObject_keeps_destination_entries_witness :
    (exampleTwo.mgr.objects.get? 0 = some ⟨0, [(1, some ⟨false, 1, 0⟩)], [(1, 0)]⟩ ∧
      mapFind Velocity.family exampleSource.componentArrays = none ∧
      mapFind Velocity.family exampleSource.componentIndices = none ∧
      copyObject exampleTwo 0 exampleSource = .ok exampleCopied) ∧
    ∃ obj2, exampleCopied.mgr.objects.get? 0 = some obj2 ∧
      mapFind Velocity.family obj2.componentIndices = some 0 ∧
      hasComponents exampleCopied [Velocity] 0 = true :=
  ⟨⟨by decide, by decide, by decide, rfl⟩,
    copyObject_keeps_destination_entries exampleTwo exampleCopied 0 exampleSource
      ⟨0, [(1, some ⟨false, 1, 0⟩)], [(1, 0)]⟩ Velocity 0 (by decide) (by decide) (by decide)
      rfl⟩

end Copy


/-! ## The insert path `addComponents` -/

section AddComponents

variable {V : Type}

theorem bindStringToComponent_frame (s : State V) (C : ComponentType) (n : String) :
    (bindStringToComponent s C n).mgr = s.mgr ∧
    (bindStringToComponent s C n).statics.components = s.statics.components := by
  unfold bindStringToComponent
  split <;> exact ⟨rfl, rfl⟩

theorem registerComponent_frame (s : State V) (C : ComponentType) :
    (registerComponent s C).mgr.objects = s.mgr.objects ∧
    (registerComponent s C).mgr.version = s.mgr.version ∧
    (registerComponent s C).statics.components = s.statics.components := by
  unfold registerComponent
  split
  · dsimp only
    split
    · refine ⟨?_, ?_, ?_⟩
      · rw [(bindStringToComponent_frame _ C C.name).1]
      · rw [(bindStringToComponent_frame _ C C.name).1]
      · rw [(bindStringToComponent_frame _ C C.name).2]
    · exact ⟨rfl, rfl, rfl⟩
  · exact ⟨rfl, rfl, rfl⟩

/-- The insert path `addComponents(id, c)` (hpp 290-321), which the typed
`assign` never reaches: on a valid id whose object has no entry for the family
of `C` it returns 1, and afterwards `hasComponents<C>(id)` is true,
`getComponent<C>(id)` refers to `c` owned by the object, and
`getTotalComponents<C>()` has grown by exactly 1. -/
theorem addComponents_inserts (s : State V) (objectID : ID) (C : ComponentType)
    (c : Component V) (obj : Object)
    (hobj : s.mgr.objects.get? objectID = some obj)
    (hlacks : mapFind C.family obj.componentIndices = none)
    (hfresh : (s.statics.components (getComponentArray s C)).Fresh) :
    (addComponents s objectID (C, c) []).1 = 1 ∧
    hasComponents (addComponents s objectID (C, c) []).2 [C] objectID = true ∧
    (getComponent (addComponents s objectID (C, c) []).2 C objectID).bind
        (deref (addComponents s objectID (C, c) []).2)
      = some { c with ownerID := objectID } ∧
    getTotalComponents (addComponents s objectID (C, c) []).2 C
      = getTotalComponents s C + 1 := by
  obtain ⟨ho, hv, hc⟩ := registerComponent_frame s C
  have hobj0 : (registerComponent s C).mgr.objects.get? objectID = some obj := by
    rw [ho]; exact hobj
  have hr : getComponentArray (registerComponent s C) C = getComponentArray s C := by
    simp [getComponentArray, hv]
  have hadd : addComponents s objectID (C, c) []
      = (1, addedOne (registerComponent s C) C objectID c) := by
    simp only [addComponents, registerComponents, hobj0, hlacks]
    rfl
  rw [hadd]
  have hobj2 : (addedOne (registerComponent s C) C objectID c).mgr.objects.get? objectID
      = some (Object.mk obj.objectID
          (mapSet C.family (some (getComponentArray s C)) obj.componentArrays)
          (mapSet C.family (s.statics.components (getComponentArray s C)).nextId
            obj.componentIndices)) := by
    simp only [addedOne]
    rw [State.get?_modifyObject, if_pos rfl, State.get?_modifyObject, if_pos rfl]
    refine (congrArg (fun o => Option.map _ (Option.map _ o)) hobj0).trans ?_
    simp only [Option.map, hr, hc, PackedArray.addItem]
  have hget := getComponent_of_entry _ C objectID _
    (s.statics.components (getComponentArray s C)).nextId hobj2
    (mapFind_mapSet_self _ _ _)
  have hra : getComponentArray (addedOne (registerComponent s C) C objectID c) C
      = getComponentArray s C := hr
  have hcomp : (addedOne (registerComponent s C) C objectID c).statics.components
      (getComponentArray s C)
      = ((s.statics.components (getComponentArray s C)).addItem c).2.modify
          (s.statics.components (getComponentArray s C)).nextId
          (fun c => { c with ownerID := objectID }) := by
    simp only [addedOne, State.modifyObject, State.setObjects, State.setArray, hr, hc, if_true]
    rfl
  refine ⟨rfl, ?_, ?_, ?_⟩
  · simp only [hasComponents_single, hget, Option.isSome_some]
  · rw [hget, hra]
    simp only [Option.bind, deref]
    have h1 := PackedArray.get?_addItem_self _ c hfresh
    have h2 : ((s.statics.components (getComponentArray s C)).addItem c).1
        = (s.statics.components (getComponentArray s C)).nextId := rfl
    rw [h2] at h1
    rw [hcomp, PackedArray.get?_modify_self, h1]
    rfl
  · simp only [getTotalComponents, hra]
    rw [hcomp, PackedArray.size_modify, PackedArray.size_addItem]

end AddComponents


/-! ## Queries and `createObject(name)` without a prototype -/

section Queries

variable {V : Type}

theorem mapFind_isSome_iff_mem {K W : Type} [DecidableEq K] (k : K) (m : List (K × W)) :
    (mapFind k m).isSome = true ↔ k ∈ m.map Prod.fst := by
  induction m with
  | nil => simp [mapFind]
  | cons p rest ih =>
    obtain ⟨k1, v1⟩ := p
    by_cases h : k1 = k
    · simp [mapFind, h]
    · simp only [mapFind, h, if_false, List.map_cons, List.mem_cons, ih]
      constructor
      · intro hm; exact Or.inr hm
      · rintro (hm | hm)
        · exact absurd hm.symm h
        · exact hm

/-- C12: when no prototype has the given name, `createObject(name)` returns
`ID(-1)` and the state (objects, prototypes, tables, statics) is unchanged;
so `getTotalObjects()` is unchanged and the prototype still does not exist. -/
theorem createObject_unknown_prototype (s : State V) (prototypeName : String)
    (hmissing : doesPrototypeExist s prototypeName = false) :
    createObjectFromPrototype s prototypeName = .ok (invalidID, s) ∧
    invalidID = 2 ^ idBits - 1 ∧
    ∀ s2 id, createObjectFromPrototype s prototypeName = .ok (id, s2) →
      getTotalObjects s2 = getTotalObjects s ∧ doesPrototypeExist s2 prototypeName = false := by
  have h : createObjectFromPrototype s prototypeName = .ok (invalidID, s) := by
    simp [createObjectFromPrototype, hmissing]
  refine ⟨h, rfl, fun s2 id h2 => ?_⟩
  rw [h] at h2
  injection h2 with h2
  injection h2 with _ h2
  subst h2
  exact ⟨rfl, hmissing⟩

/-- C16: `hasComponents<Families...>(id)` is true exactly when, for every
listed family, the id is live and its object has an entry for the family; for
the empty list it is true for every id, live or not. -/
theorem hasComponents_iff_owns_all (s : State V) (families : List ComponentType)
    (objectID : ID) :
    (hasComponents s families objectID = true ↔
      ∀ C ∈ families, ∃ obj, s.mgr.objects.get? objectID = some obj ∧
        (mapFind C.family obj.componentIndices).isSome = true) ∧
    hasComponents s [] objectID = true := by
  refine ⟨?_, rfl⟩
  induction families with
  | nil => simp [hasComponents]
  | cons C rest ih =>
    have hg : (getComponent s C objectID).isSome = true ↔
        ∃ obj, s.mgr.objects.get? objectID = some obj ∧
          (mapFind C.family obj.componentIndices).isSome = true := by
      unfold getComponent
      cases hobj : s.mgr.objects.get? objectID with
      | none => simp
      | some obj =>
        cases hidx : mapFind C.family obj.componentIndices with
        | none => simp [hidx]
        | some idx => simp [hidx]
    by_cases h : (getComponent s C objectID).isSome = true
    · simp only [hasComponents, h, if_true, Bool.true_and, ih, List.mem_cons, forall_eq_or_imp]
      constructor
      · intro hr; exact ⟨hg.mp h, hr⟩
      · intro hr; exact hr.2
    · simp only [hasComponents, h, List.mem_cons, forall_eq_or_imp]
      constructor
      · intro hf; exact absurd hf (by simp)
      · intro hr; exact absurd (hg.mpr hr.1) h

/-- C17: when every object carries its own id and the ids of the object array
are distinct, `getObjects<Families...>()` is the list of live ids, in the
order of the object array, filtered by `hasComponents<Families...>`: it holds
exactly the live ids that pass, each once; for the empty list it is the list
of all live ids and its length is `getTotalObjects()`. -/
theorem getObjects_spec (s : State V) (families : List ComponentType)
    (hids : ∀ p ∈ s.mgr.objects.elements, p.2.objectID = p.1)
    (hnodup : (s.mgr.objects.elements.map Prod.fst).Nodup) :
    getObjects s families
      = (s.mgr.objects.elements.map Prod.fst).filter (fun id => hasComponents s families id) ∧
    (getObjects s families).Nodup ∧
    (∀ id, id ∈ getObjects s families ↔
      (s.mgr.objects.isValid id = true ∧ hasComponents s families id = true)) ∧
    getObjects s [] = s.mgr.objects.elements.map Prod.fst ∧
    (getObjects s []).length = getTotalObjects s := by
  have key : ∀ fams, getObjects s fams
      = (s.mgr.objects.elements.map Prod.fst).filter (fun id => hasComponents s fams id) := by
    intro fams
    unfold getObjects
    rw [List.filter_map]
    have h1 : s.mgr.objects.elements.filter (fun p => hasComponents s fams p.2.objectID)
        = s.mgr.objects.elements.filter ((fun id => hasComponents s fams id) ∘ Prod.fst) := by
      apply List.filter_congr
      intro p hp
      simp [hids p hp]
    rw [h1]
    apply List.map_congr_left
    intro p hp
    exact hids p (List.mem_of_mem_filter hp)
  have hall : getObjects s [] = s.mgr.objects.elements.map Prod.fst := by
    rw [key]
    simp [hasComponents]
  refine ⟨key families, ?_, ?_, hall, ?_⟩
  · rw [key]
    exact hnodup.filter _
  · intro id
    rw [key, List.mem_filter]
    have : id ∈ s.mgr.objects.elements.map Prod.fst ↔ s.mgr.objects.isValid id = true := by
      rw [PackedArray.isValid, PackedArray.get?, mapFind_isSome_iff_mem]
    rw [this]
  · rw [hall]
    simp [getTotalObjects, PackedArray.size]

/-- C18: `getComponent<C>(id)` is null exactly when the id is not live or its
object has no entry for the family of `C`; otherwise it is the address of the
slot with the recorded index in this manager's table of `C`, whose content is
what the table holds under that index. The function only looks up: no state
is produced. -/
theorem getComponent_spec (s : State V) (C : ComponentType) (objectID : ID) :
    (getComponent s C objectID = none ↔
      (s.mgr.objects.isValid objectID = false ∨
        ∃ obj, s.mgr.objects.get? objectID = some obj ∧
          mapFind C.family obj.componentIndices = none)) ∧
    (∀ obj idx, s.mgr.objects.get? objectID = some obj →
      mapFind C.family obj.componentIndices = some idx →
      getComponent s C objectID = some ⟨⟨false, C.family, s.mgr.version⟩, idx⟩ ∧
      deref s ⟨⟨false, C.family, s.mgr.version⟩, idx⟩
        = (s.statics.components (getComponentArray s C)).get? idx) := by
  constructor
  · unfold getComponent
    cases hobj : s.mgr.objects.get? objectID with
    | none => simp [PackedArray.isValid, hobj]
    | some obj =>
      cases hidx : mapFind C.family obj.componentIndices with
      | none => simp [PackedArray.isValid, hobj, hidx]
      | some idx => simp [PackedArray.isValid, hobj, hidx]
  · intro obj idx hobj hidx
    exact ⟨getComponent_of_entry s C objectID obj idx hobj hidx, rfl⟩

/-- Witness for C12: `exampleOne` has no prototype named "Enemy". -/
theorem createObject_unknown_prototype_witness :
    doesPrototypeExist exampleOne "Enemy" = false ∧
    (createObjectFromPrototype exampleOne "Enemy" = .ok (invalidID, exampleOne) ∧
      invalidID = 2 ^ idBits - 1 ∧
      ∀ s2 id, createObjectFromPrototype exampleOne "Enemy" = .ok (id, s2) →
        getTotalObjects s2 = getTotalObjects exampleOne ∧
        doesPrototypeExist s2 "Enemy" = false) :=
  ⟨by decide, createObject_unknown_prototype exampleOne "Enemy" (by decide)⟩

/-- Witness for C17: the two objects of `exampleTwo`; only object 1 owns a
`Position`. -/
theorem getObjects_spec_witness :
    getObjects exampleTwo [Position] = [1] ∧
    (getObjects exampleTwo [Position]
      = (exampleTwo.mgr.objects.elements.map Prod.fst).filter
          (fun id => hasComponents exampleTwo [Position] id) ∧
    (getObjects exampleTwo [Position]).Nodup ∧
    (∀ id, id ∈ getObjects exampleTwo [Position] ↔
      (exampleTwo.mgr.objects.isValid id = true ∧
        hasComponents exampleTwo [Position] id = true)) ∧
    getObjects exampleTwo [] = exampleTwo.mgr.objects.elements.map Prod.fst ∧
    (getObjects exampleTwo []).length = getTotalObjects exampleTwo) :=
  ⟨by decide, getObjects_spec exampleTwo [Position] (by decide) (by decide)⟩

end Queries


/-! ## Removal from a packed array with distinct ids -/

namespace PackedArray

variable {T : Type}

/-- Swap-removal at a valid position keeps exactly the other elements. -/
theorem swapRemove_perm {α : Type} (x : α) :
    ∀ (l : List α) (i : Nat), i < l.length → l.getLast? = some x →
      ((l.set i x).dropLast).Perm (l.eraseIdx i) := by
  intro l
  induction l with
  | nil => intro i hi; simp at hi
  | cons a t ih =>
    intro i hi hlast
    cases t with
    | nil =>
      have hi0 : i = 0 := by simpa using hi
      subst hi0
      simp
    | cons b t2 =>
      have hlast2 : (b :: t2).getLast? = some x := by
        simpa [List.getLast?_cons_cons] using hlast
      cases i with
      | zero =>
        simp only [List.set_cons_zero, List.dropLast_cons₂, List.eraseIdx_cons_zero]
        have hsplit : b :: t2 = (b :: t2).dropLast ++ [x] := by
          have := List.dropLast_append_getLast? x hlast2
          exact this.symm
        conv_rhs => rw [hsplit]
        exact (List.perm_append_singleton x _).symm
      | succ j =>
        have hj : j < (b :: t2).length := by simpa using hi
        have h1 : ((a :: b :: t2).set (j + 1) x).dropLast
            = a :: (((b :: t2).set j x).dropLast) := by
          rw [List.set_cons_succ]
          cases hs : (b :: t2).set j x with
          | nil =>
            have := congrArg List.length hs
            simp at this
          | cons c t3 => simp
        rw [h1, List.eraseIdx_cons_succ]
        exact (ih j hj hlast2).cons a

theorem mem_eraseIdx_of_nodup (id : ID) :
    ∀ (l : List (ID × T)) (i : Nat) (hi : i < l.length), (l.map Prod.fst).Nodup →
      (l.get ⟨i, hi⟩).1 = id →
      ∀ p, p ∈ l.eraseIdx i ↔ (p ∈ l ∧ p.1 ≠ id) := by
  intro l
  induction l with
  | nil => intro i hi; simp at hi
  | cons a t ih =>
    intro i hi hnd hid p
    have hnd2 : (t.map Prod.fst).Nodup := (List.nodup_cons.mp (by simpa using hnd)).2
    have hnot : a.1 ∉ t.map Prod.fst := (List.nodup_cons.mp (by simpa using hnd)).1
    cases i with
    | zero =>
      simp only [List.get_eq_getElem, List.getElem_cons_zero] at hid
      simp only [List.eraseIdx_cons_zero, List.mem_cons]
      constructor
      · intro hp
        refine ⟨Or.inr hp, ?_⟩
        intro h
        apply hnot
        rw [hid, ← h]
        exact List.mem_map_of_mem _ hp
      · rintro ⟨hp | hp, hne⟩
        · exact absurd (by rw [hp]; exact hid) hne
        · exact hp
    | succ j =>
      have hj : j < t.length := by simpa using hi
      have hid2 : (t.get ⟨j, hj⟩).1 = id := by
        simpa using hid
      have hmem : t.get ⟨j, hj⟩ ∈ t := List.get_mem t j hj
      have hane : a.1 ≠ id := by
        intro h
        apply hnot
        rw [h, ← hid2]
        exact List.mem_map_of_mem _ hmem
      simp only [List.eraseIdx_cons_succ, List.mem_cons, ih j hj hnd2 hid2 p]
      constructor
      · rintro (hp | ⟨hp, hne⟩)
        · exact ⟨Or.inl hp, by rw [hp]; exact hane⟩
        · exact ⟨Or.inr hp, hne⟩
      · rintro ⟨hp | hp, hne⟩
        · exact Or.inl hp
        · exact Or.inr ⟨hp, hne⟩

theorem mapFind_eq_some_iff_mem (k : ID) (v : T) (l : List (ID × T))
    (hnd : (l.map Prod.fst).Nodup) : mapFind k l = some v ↔ (k, v) ∈ l := by
  induction l with
  | nil => simp [mapFind]
  | cons a t ih =>
    obtain ⟨k1, v1⟩ := a
    have hnd2 : (t.map Prod.fst).Nodup := (List.nodup_cons.mp (by simpa using hnd)).2
    have hnot : k1 ∉ t.map Prod.fst := (List.nodup_cons.mp (by simpa using hnd)).1
    by_cases h : k1 = k
    · subst h
      simp only [mapFind, if_true, Option.some.injEq, List.mem_cons, Prod.mk.injEq, true_and]
      constructor
      · intro hv; exact Or.inl hv.symm
      · rintro (hv | hv)
        · exact hv.symm
        · exact absurd (List.mem_map_of_mem Prod.fst hv) hnot
    · simp only [mapFind, h, if_false, ih hnd2, List.mem_cons, Prod.mk.injEq]
      constructor
      · intro hm; exact Or.inr hm
      · rintro (hv | hv)
        · exact absurd hv.1.symm h
        · exact hv

theorem findIdx_spec (id : ID) (l : List (ID × T)) (h : (mapFind id l).isSome = true) :
    ∃ hi : l.findIdx (fun p => decide (p.1 = id)) < l.length,
      (l.get ⟨l.findIdx (fun p => decide (p.1 = id)), hi⟩).1 = id := by
  have hex : ∃ p ∈ l, decide (p.1 = id) = true := by
    obtain ⟨v, hv⟩ := Option.isSome_iff_exists.mp h
    exact ⟨(id, v), mapFind_some_mem id v l hv, by simp⟩
  have hi : l.findIdx (fun p => decide (p.1 = id)) < l.length := List.findIdx_lt_length.mpr hex
  refine ⟨hi, ?_⟩
  have := List.findIdx_getElem (w := hi)
  simpa using this

/-- The elements after `remove(id)`, up to order: all others. -/
theorem mem_remove (a : PackedArray T) (id : ID) (hd : a.Distinct) (p : ID × T) :
    p ∈ (a.remove id).elements ↔ (p ∈ a.elements ∧ p.1 ≠ id) := by
  by_cases hv : a.isValid id = true
  · obtain ⟨hi, hid⟩ := findIdx_spec id a.elements hv
    have hne : a.elements ≠ [] := by
      intro h0; rw [h0] at hi; simp at hi
    obtain ⟨x, hx⟩ : ∃ x, a.elements.getLast? = some x := by
      cases hl : a.elements.getLast? with
      | none => exact absurd (List.getLast?_eq_none_iff.mp hl) hne
      | some x => exact ⟨x, rfl⟩
    have hperm := swapRemove_perm x a.elements _ hi hx
    simp only [remove, hv, if_true, swapRemove, hx]
    rw [hperm.mem_iff]
    exact mem_eraseIdx_of_nodup id a.elements _ hi hd hid p
  · have hv2 : a.isValid id = false := by simpa using hv
    simp only [remove, hv2]
    constructor
    · intro hp
      refine ⟨hp, ?_⟩
      intro h
      have : (mapFind id a.elements).isSome = true := by
        rw [mapFind_isSome_iff_mem, ← h]
        exact List.mem_map_of_mem _ hp
      simp [isValid, get?, this] at hv2
    · intro hp; exact hp.1

theorem distinct_remove (a : PackedArray T) (id : ID) (hd : a.Distinct) :
    (a.remove id).Distinct := by
  by_cases hv : a.isValid id = true
  · obtain ⟨hi, _⟩ := findIdx_spec id a.elements hv
    have hne : a.elements ≠ [] := by
      intro h0; rw [h0] at hi; simp at hi
    obtain ⟨x, hx⟩ : ∃ x, a.elements.getLast? = some x := by
      cases hl : a.elements.getLast? with
      | none => exact absurd (List.getLast?_eq_none_iff.mp hl) hne
      | some x => exact ⟨x, rfl⟩
    have hperm := swapRemove_perm x a.elements _ hi hx
    simp only [Distinct, remove, hv, if_true, swapRemove, hx]
    rw [(hperm.map Prod.fst).nodup_iff]
    exact List.Nodup.sublist ((List.eraseIdx_sublist _ _).map Prod.fst) hd
  · have hv2 : a.isValid id = false := by simpa using hv
    simpa [remove, hv2] using hd

theorem get?_remove (a : PackedArray T) (id j : ID) (hd : a.Distinct) :
    (a.remove id).get? j = if j = id then none else a.get? j := by
  have hd2 := distinct_remove a id hd
  by_cases hj : j = id
  · subst hj
    simp only [if_true]
    cases h : (a.remove j).get? j with
    | none => rfl
    | some v =>
      have hm := (mapFind_eq_some_iff_mem j v _ hd2).mp h
      exact absurd rfl ((mem_remove a j hd (j, v)).mp hm).2
  · simp only [hj, if_false]
    cases h : a.get? j with
    | none =>
      cases h2 : (a.remove id).get? j with
      | none => rfl
      | some v =>
        have hm := (mapFind_eq_some_iff_mem j v _ hd2).mp h2
        have hm2 := ((mem_remove a id hd (j, v)).mp hm).1
        have := (mapFind_eq_some_iff_mem j v _ hd).mpr hm2
        simp only [get?] at h
        rw [h] at this
        exact absurd this (by simp)
    | some v =>
      have hm := (mapFind_eq_some_iff_mem j v _ hd).mp h
      have hm2 := (mem_remove a id hd (j, v)).mpr ⟨hm, hj⟩
      exact (mapFind_eq_some_iff_mem j v _ hd2).mpr hm2

theorem fresh_remove (a : PackedArray T) (id : ID) (hd : a.Distinct) (hf : a.Fresh) :
    (a.remove id).Fresh := by
  intro p hp
  have := ((mem_remove a id hd p).mp hp).1
  have h2 : (a.remove id).nextId = a.nextId := by
    unfold remove
    split <;> rfl
  rw [h2]
  exact hf p this

theorem ids_modify (a : PackedArray T) (id : ID) (f : T → T) :
    (a.modify id f).elements.map Prod.fst = a.elements.map Prod.fst := by
  obtain ⟨els, n⟩ := a
  simp only [modify]
  induction els with
  | nil => rfl
  | cons p rest ih =>
    obtain ⟨k1, v1⟩ := p
    by_cases h1 : k1 = id
    · simp [modifyFirst, h1]
    · simp [modifyFirst, h1, ih]

theorem distinct_addItem (a : PackedArray T) (x : T) (hd : a.Distinct) (hf : a.Fresh) :
    (a.addItem x).2.Distinct := by
  simp only [Distinct, addItem, List.map_append, List.map_cons, List.map_nil]
  rw [List.nodup_append]
  refine ⟨hd, by simp, ?_⟩
  intro i hi1 hi2
  simp only [List.mem_singleton] at hi2
  subst hi2
  obtain ⟨p, hp, hp2⟩ := List.mem_map.mp hi1
  have := hf p hp
  rw [hp2] at this
  exact Nat.lt_irrefl _ this

end PackedArray


/-! ## `removeAllComponents` and `destroyObject` on consistent states -/

section RemoveAllSpec

variable {V : Type}

theorem mapIndex_fst {K W : Type} [DecidableEq K] (k : K) (d : W) (m : List (K × W)) :
    (mapIndex k d m).1 = (mapFind k m).getD d := by
  unfold mapIndex
  cases mapFind k m <;> rfl

theorem mapIndex_getD {K W : Type} [DecidableEq K] (k k2 : K) (d : W) (m : List (K × W)) :
    (mapFind k2 (mapIndex k d m).2).getD d = (mapFind k2 m).getD d := by
  unfold mapIndex
  cases hk : mapFind k m with
  | some x => rfl
  | none =>
    by_cases h : k2 = k
    · subst h
      simp [mapFind_mapSet_self, hk]
    · simp [mapFind_mapSet_ne _ _ _ _ h]

theorem PackedArray.mem_modifyFirst_ne {T : Type} (id : ID) (f : T → T) (l : List (ID × T))
    (p : ID × T) (hp : p.1 ≠ id) :
    p ∈ PackedArray.modifyFirst id f l ↔ p ∈ l := by
  induction l with
  | nil => simp [PackedArray.modifyFirst]
  | cons q rest ih =>
    obtain ⟨k1, v1⟩ := q
    by_cases h1 : k1 = id
    · subst h1
      simp only [PackedArray.modifyFirst, if_true, List.mem_cons]
      constructor
      · rintro (h | h)
        · exact absurd (by rw [h]) hp
        · exact Or.inr h
      · rintro (h | h)
        · exact absurd (by rw [h]) hp
        · exact Or.inr h
    · simp only [PackedArray.modifyFirst, h1, if_false, List.mem_cons, ih]

theorem PackedArray.nextId_remove {T : Type} (a : PackedArray T) (id : ID) :
    (a.remove id).nextId = a.nextId := by
  unfold PackedArray.remove
  split <;> rfl

theorem State.statics_modifyObject (s : State V) (i : ID) (f : Object → Object) :
    (s.modifyObject i f).statics = s.statics := rfl

theorem State.mgr_setArray (s : State V) (r : ArrayRef) (a : PackedArray (Component V)) :
    (s.setArray r a).mgr = s.mgr := rfl

/-- What the loop of `removeAllComponents` does when no table pointer of the
object is null and the ids of every table are distinct: it returns, removes
from each listed table the slot under the object's index for the family, and
touches nothing else; in the object it default-inserts missing indices only. -/
theorem removeAllComponentsLoop_spec (objectID : ID) (l : List (Family × Option ArrayRef)) :
    ∀ (n : ID) (s : State V) (ob : Object),
      s.mgr.objects.get? objectID = some ob →
      (∀ p ∈ l, p.2 ≠ none) →
      (∀ r, (s.statics.components r).Distinct) →
      ∃ s2 ob2, removeAllComponentsLoop objectID l n s = .ok (n + l.length, s2) ∧
        s2.mgr.objects.get? objectID = some ob2 ∧
        ob2.componentArrays = ob.componentArrays ∧
        ob2.objectID = ob.objectID ∧
        (∀ f, ob2.indexOf f = ob.indexOf f) ∧
        (∀ f idx, mapFind f ob.componentIndices = some idx →
          mapFind f ob2.componentIndices = some idx) ∧
        (∀ x, x ≠ objectID → s2.mgr.objects.get? x = s.mgr.objects.get? x) ∧
        (∀ p : ID × Object, p.1 ≠ objectID →
          (p ∈ s2.mgr.objects.elements ↔ p ∈ s.mgr.objects.elements)) ∧
        s2.mgr.objects.elements.map Prod.fst = s.mgr.objects.elements.map Prod.fst ∧
        s2.mgr.objects.nextId = s.mgr.objects.nextId ∧
        s2.mgr.version = s.mgr.version ∧
        s2.mgr.objectPrototypes = s.mgr.objectPrototypes ∧
        s2.mgr.compFamilyToProtoCompArray = s.mgr.compFamilyToProtoCompArray ∧
        s2.statics.compFamilyToCompArray = s.statics.compFamilyToCompArray ∧
        s2.statics.stringToCompFamily = s.statics.stringToCompFamily ∧
        (∀ r, (s2.statics.components r).Distinct) ∧
        (∀ r, (s2.statics.components r).nextId = (s.statics.components r).nextId) ∧
        (∀ r p, p ∈ (s2.statics.components r).elements ↔
          (p ∈ (s.statics.components r).elements ∧
            ∀ q ∈ l, ¬ (q.2 = some r ∧ ob.indexOf q.1 = p.1))) := by
  induction l with
  | nil =>
    intro n s ob hobj _ hd
    exact ⟨s, ob, rfl, hobj, rfl, rfl, fun _ => rfl, fun _ _ h => h, fun _ _ => rfl,
      fun _ _ => Iff.rfl, rfl, rfl, rfl, rfl, rfl, rfl, rfl, hd, fun _ => rfl,
      fun r p => by simp⟩
  | cons q rest ih =>
    intro n s ob hobj hnn hd
    obtain ⟨fam, arrPtr⟩ := q
    cases arrPtr with
    | none => exact absurd rfl (hnn (fam, none) (List.mem_cons_self _ _))
    | some arr =>
      have hix1 : (mapIndex fam 0 ob.componentIndices).1 = ob.indexOf fam :=
        mapIndex_fst fam 0 ob.componentIndices
      have hobj1 : ((s.modifyObject objectID (fun o => { o with
          componentIndices := (mapIndex fam 0 ob.componentIndices).2 })).setArray arr
          (((s.modifyObject objectID (fun o => { o with
            componentIndices := (mapIndex fam 0 ob.componentIndices).2 })).statics.components
              arr).remove (mapIndex fam 0 ob.componentIndices).1)).mgr.objects.get? objectID
          = some (Object.mk ob.objectID ob.componentArrays
              (mapIndex fam 0 ob.componentIndices).2) := by
        have : ∀ (t : State V) (r : ArrayRef) (a : PackedArray (Component V)),
            (t.setArray r a).mgr = t.mgr := fun _ _ _ => rfl
        rw [this, State.get?_modifyObject, if_pos rfl, hobj]
        rfl
      have hd1 : ∀ r, (((s.modifyObject objectID (fun o => { o with
          componentIndices := (mapIndex fam 0 ob.componentIndices).2 })).setArray arr
          (((s.modifyObject objectID (fun o => { o with
            componentIndices := (mapIndex fam 0 ob.componentIndices).2 })).statics.components
              arr).remove (mapIndex fam 0 ob.componentIndices).1)).statics.components
              r).Distinct := by
        intro r
        by_cases hr : r = arr
        · subst hr
          rw [State.components_setArray_self]
          exact PackedArray.distinct_remove _ _ (hd r)
        · rw [State.components_setArray_ne _ _ _ _ hr]
          exact hd r
      obtain ⟨s2, ob2, h1, h2, h3, h4, h5, h6, h7, h8, h9, h10, h11, h12, h13, h14, h15, h16,
        h17, h18⟩ := ih (n + 1) _ _ hobj1 (fun p hp => hnn p (List.mem_cons_of_mem _ hp)) hd1
      refine ⟨s2, ob2, ?_, h2, h3, h4, ?_, ?_, ?_, ?_, ?_, ?_, h11, h12, h13, h14, h15, h16,
        ?_, ?_⟩
      · simp only [removeAllComponentsLoop, hobj]
        rw [h1, List.length_cons, Nat.add_assoc, Nat.add_comm 1]
      · intro f
        rw [h5 f]
        exact mapIndex_getD fam f 0 ob.componentIndices
      · intro f idx hf
        exact h6 f idx (mapIndex_keeps fam f 0 idx ob.componentIndices hf)
      · intro x hx
        rw [h7 x hx]
        have : ∀ (t : State V) (r : ArrayRef) (a : PackedArray (Component V)),
            (t.setArray r a).mgr = t.mgr := fun _ _ _ => rfl
        rw [this, State.get?_modifyObject, if_neg hx]
      · intro p hp
        rw [h8 p hp]
        exact PackedArray.mem_modifyFirst_ne _ _ _ p hp
      · rw [h9]
        exact PackedArray.ids_modify _ _ _
      · rw [h10]
        rfl
      · intro r
        rw [h17 r]
        by_cases hr : r = arr
        · subst hr
          rw [State.components_setArray_self]
          exact PackedArray.nextId_remove _ _
        · rw [State.components_setArray_ne _ _ _ _ hr]
          rfl
      · intro r p
        rw [h18 r p]
        have hidx : ∀ f, (Object.mk ob.objectID ob.componentArrays
            (mapIndex fam 0 ob.componentIndices).2).indexOf f = ob.indexOf f :=
          fun f => mapIndex_getD fam f 0 ob.componentIndices
        simp only [hidx, List.mem_cons, forall_eq_or_imp]
        by_cases hr : r = arr
        · subst hr
          rw [State.components_setArray_self, State.statics_modifyObject,
            PackedArray.mem_remove _ _ (hd r), hix1]
          constructor
          · rintro ⟨⟨hm, hne⟩, hrest⟩
            exact ⟨hm, fun h => hne h.2.symm, hrest⟩
          · rintro ⟨hm, hne, hrest⟩
            exact ⟨⟨hm, fun h => hne ⟨rfl, h.symm⟩⟩, hrest⟩
        · rw [State.components_setArray_ne _ _ _ _ hr]
          constructor
          · rintro ⟨hm, hrest⟩
            refine ⟨hm, fun h => hr ?_, hrest⟩
            injection h.1 with h1
            exact h1.symm
          · rintro ⟨hm, _, hrest⟩
            exact ⟨hm, hrest⟩

end RemoveAllSpec


section Destroy

variable {V : Type}

theorem PackedArray.get?_eq_of_mem_iff {T : Type} (a b : PackedArray T) (i : ID)
    (ha : a.Distinct) (hb : b.Distinct)
    (h : ∀ v, (i, v) ∈ a.elements ↔ (i, v) ∈ b.elements) : a.get? i = b.get? i := by
  apply Option.ext
  intro v
  simp only [PackedArray.get?, Option.mem_def]
  rw [PackedArray.mapFind_eq_some_iff_mem i v _ ha, PackedArray.mapFind_eq_some_iff_mem i v _ hb]
  exact h v

/-- What `destroyObject` does on a valid id when no table pointer of the
object is null and the ids of the object array and of every table are
distinct. -/
theorem destroyObject_spec (s : State V) (objectID : ID) (ob : Object)
    (hobj : s.mgr.objects.get? objectID = some ob)
    (hnn : ∀ p ∈ ob.componentArrays, p.2 ≠ none)
    (hd : ∀ r, (s.statics.components r).Distinct)
    (hdo : s.mgr.objects.Distinct) :
    ∃ s2, destroyObject s objectID = .ok s2 ∧
      s2.mgr.objects.get? objectID = none ∧
      (∀ x, x ≠ objectID → s2.mgr.objects.get? x = s.mgr.objects.get? x) ∧
      (∀ p : ID × Object, p ∈ s2.mgr.objects.elements ↔
        (p ∈ s.mgr.objects.elements ∧ p.1 ≠ objectID)) ∧
      s2.mgr.objects.size + 1 = s.mgr.objects.size ∧
      s2.mgr.objects.Distinct ∧
      s2.mgr.version = s.mgr.version ∧
      s2.mgr.objectPrototypes = s.mgr.objectPrototypes ∧
      (∀ r, (s2.statics.components r).Distinct) ∧
      (∀ r, (s2.statics.components r).nextId = (s.statics.components r).nextId) ∧
      (∀ r p, p ∈ (s2.statics.components r).elements ↔
        (p ∈ (s.statics.components r).elements ∧
          ∀ q ∈ ob.componentArrays, ¬ (q.2 = some r ∧ ob.indexOf q.1 = p.1))) := by
  have hvalid : s.mgr.objects.isValid objectID = true := by
    simp [PackedArray.isValid, hobj]
  obtain ⟨s1, ob1, h1, h2, _, _, _, _, h7, h8, h9, _, h11, h12, _, _, _, h16, h17, h18⟩ :=
    removeAllComponentsLoop_spec objectID ob.componentArrays 0 s ob hobj hnn hd
  have hra : removeAllComponents s objectID = .ok (0 + ob.componentArrays.length, s1) := by
    simp only [removeAllComponents, hobj]
    exact h1
  have hdo1 : s1.mgr.objects.Distinct := by
    unfold PackedArray.Distinct
    rw [h9]
    exact hdo
  have hvalid1 : s1.mgr.objects.isValid objectID = true := by
    simp [PackedArray.isValid, h2]
  refine ⟨s1.setObjects (s1.mgr.objects.remove objectID), ?_, ?_, ?_, ?_, ?_, ?_, h11, h12,
    h16, h17, h18⟩
  · simp only [destroyObject, hvalid, if_true, hra]
  · simp only [State.setObjects]
    rw [PackedArray.get?_remove _ _ _ hdo1, if_pos rfl]
  · intro x hx
    simp only [State.setObjects]
    rw [PackedArray.get?_remove _ _ _ hdo1, if_neg hx, h7 x hx]
  · intro p
    simp only [State.setObjects]
    rw [PackedArray.mem_remove _ _ hdo1]
    constructor
    · rintro ⟨hm, hne⟩
      exact ⟨(h8 p hne).mp hm, hne⟩
    · rintro ⟨hm, hne⟩
      exact ⟨(h8 p hne).mpr hm, hne⟩
  · simp only [State.setObjects]
    rw [PackedArray.size_remove_of_valid _ _ hvalid1]
    simp only [PackedArray.size]
    have := congrArg List.length h9
    simpa using this
  · simp only [State.setObjects]
    exact PackedArray.distinct_remove _ _ hdo1

/-- C14: with live objects `A`, `B`, `C` (`A` and `C` different from `B`), no
null table pointer in `B`, distinct ids in the object array and in every
table, and no slot recorded by `B` that `A` or `C` records in this manager's
tables: `destroyObject(B)` returns, `getTotalObjects()` decreases by exactly
1, `B` is no longer valid, `A` and `C` keep their ids and records, and for
every component type `getComponent` on `A` and on `C` returns the same
address, referring to the same value as before. -/
theorem destroyObject_keeps_others (s : State V) (A B C : ID) (oa ob oc : Object)
    (hA : s.mgr.objects.get? A = some oa) (hB : s.mgr.objects.get? B = some ob)
    (hC : s.mgr.objects.get? C = some oc) (hAB : A ≠ B) (hCB : C ≠ B)
    (hnn : ∀ p ∈ ob.componentArrays, p.2 ≠ none)
    (hd : ∀ r, (s.statics.components r).Distinct)
    (hdo : s.mgr.objects.Distinct)
    (hdisj : ∀ q ∈ ob.componentArrays, ∀ e ∈ oa.componentIndices ++ oc.componentIndices,
      ¬ (q.2 = some ⟨false, e.1, s.mgr.version⟩ ∧ ob.indexOf q.1 = e.2)) :
    ∃ s2, destroyObject s B = .ok s2 ∧
      getTotalObjects s2 + 1 = getTotalObjects s ∧
      s2.mgr.objects.isValid B = false ∧
      s2.mgr.objects.get? A = some oa ∧
      s2.mgr.objects.get? C = some oc ∧
      ∀ F : ComponentType,
        (getComponent s2 F A = getComponent s F A ∧
          (getComponent s2 F A).bind (deref s2) = (getComponent s F A).bind (deref s)) ∧
        (getComponent s2 F C = getComponent s F C ∧
          (getComponent s2 F C).bind (deref s2) = (getComponent s F C).bind (deref s)) := by
  obtain ⟨s2, h1, h2, h3, _, h5, _, h7, _, h9, _, h11⟩ :=
    destroyObject_spec s B ob hB hnn hd hdo
  have hA2 : s2.mgr.objects.get? A = some oa := by rw [h3 A hAB]; exact hA
  have hC2 : s2.mgr.objects.get? C = some oc := by rw [h3 C hCB]; exact hC
  have key : ∀ (X : ID) (ox : Object), s.mgr.objects.get? X = some ox →
      s2.mgr.objects.get? X = some ox →
      (∀ q ∈ ob.componentArrays, ∀ (F : ComponentType) (idx : ID),
        mapFind F.family ox.componentIndices = some idx →
        ¬ (q.2 = some (getComponentArray s F) ∧ ob.indexOf q.1 = idx)) →
      ∀ F : ComponentType, getComponent s2 F X = getComponent s F X ∧
        (getComponent s2 F X).bind (deref s2) = (getComponent s F X).bind (deref s) := by
    intro X ox hX hX2 hdj F
    have hg : getComponent s2 F X = getComponent s F X := by
      simp only [getComponent, hX, hX2, getComponentArray, h7]
    refine ⟨hg, ?_⟩
    rw [hg]
    cases hidx : mapFind F.family ox.componentIndices with
    | none => simp [getComponent, hX, hidx]
    | some idx =>
      rw [getComponent_of_entry s F X ox idx hX hidx]
      simp only [Option.bind, deref]
      apply PackedArray.get?_eq_of_mem_iff _ _ _ (h9 _) (hd _)
      intro v
      rw [h11]
      constructor
      · intro h; exact h.1
      · intro h
        exact ⟨h, fun q hq => hdj q hq F idx hidx⟩
  refine ⟨s2, h1, h5, by simp [PackedArray.isValid, h2], hA2, hC2, fun F => ⟨?_, ?_⟩⟩
  · exact key A oa hA hA2 (fun q hq F idx hi => hdisj q hq (F.family, idx)
      (List.mem_append_left _ (mapFind_some_mem _ _ _ hi))) F
  · exact key C oc hC hC2 (fun q hq F idx hi => hdisj q hq (F.family, idx)
      (List.mem_append_right _ (mapFind_some_mem _ _ _ hi))) F

theorem exampleThree_distinct : ∀ r, (exampleThree.statics.components r).Distinct := by
  intro r
  by_cases h0 : r = ⟨false, 0, 0⟩
  · subst h0; decide
  · by_cases h1 : r = ⟨false, 1, 0⟩
    · subst h1; decide
    · have : exampleThree.statics.components r = PackedArray.empty := by
        show (if r = ⟨false, 1, 0⟩ then _ else if r = ⟨false, 1, 0⟩ then _
          else if r = ⟨false, 0, 0⟩ then _ else if r = ⟨false, 0, 0⟩ then _ else _) = _
        simp only [h0, h1, if_false]
        rfl
      rw [this]
      decide

/-- Witness for C14: the three objects of `exampleThree`, destroying object 1. -/
theorem destroyObject_keeps_others_witness :
    (exampleThree.mgr.objects.get? 0 = some ⟨0, [(0, some ⟨false, 0, 0⟩)], [(0, 0)]⟩ ∧
      exampleThree.mgr.objects.get? 1
        = some ⟨1, [(0, some ⟨false, 0, 0⟩), (1, some ⟨false, 1, 0⟩)], [(0, 1), (1, 0)]⟩ ∧
      exampleThree.mgr.objects.get? 2 = some ⟨2, [(1, some ⟨false, 1, 0⟩)], [(1, 1)]⟩) ∧
    ∃ s2, destroyObject exampleThree 1 = .ok s2 ∧
      getTotalObjects s2 + 1 = getTotalObjects exampleThree ∧
      s2.mgr.objects.isValid 1 = false ∧
      s2.mgr.objects.get? 0 = some ⟨0, [(0, some ⟨false, 0, 0⟩)], [(0, 0)]⟩ ∧
      s2.mgr.objects.get? 2 = some ⟨2, [(1, some ⟨false, 1, 0⟩)], [(1, 1)]⟩ ∧
      ∀ F : ComponentType,
        (getComponent s2 F 0 = getComponent exampleThree F 0 ∧
          (getComponent s2 F 0).bind (deref s2)
            = (getComponent exampleThree F 0).bind (deref exampleThree)) ∧
        (getComponent s2 F 2 = getComponent exampleThree F 2 ∧
          (getComponent s2 F 2).bind (deref s2)
            = (getComponent exampleThree F 2).bind (deref exampleThree)) :=
  ⟨⟨by decide, by decide, by decide⟩,
    destroyObject_keeps_others exampleThree 0 1 2 ⟨0, [(0, some ⟨false, 0, 0⟩)], [(0, 0)]⟩
      ⟨1, [(0, some ⟨false, 0, 0⟩), (1, some ⟨false, 1, 0⟩)], [(0, 1), (1, 0)]⟩
      ⟨2, [(1, some ⟨false, 1, 0⟩)], [(1, 1)]⟩ (by decide) (by decide) (by decide)
      (by decide) (by decide) (by decide) exampleThree_distinct (by decide) (by decide)⟩

end Destroy


/-! ## `copyObject` on consistent states -/

section CopySpec

variable {V : Type}

theorem mapIndex_of_some {K W : Type} [DecidableEq K] (k : K) (d v : W) (m : List (K × W))
    (h : mapFind k m = some v) : mapIndex k d m = (v, m) := by
  simp [mapIndex, h]

theorem copiedOne_components (s : State V) (dest : ID) (od : Object) (fam : Family)
    (dst : ArrayRef) (v : Component V) (r : ArrayRef) :
    (copiedOne s dest od fam dst v).statics.components r
      = if r = dst then
          ((s.statics.components dst).addItem v).2.modify (s.statics.components dst).nextId
            (fun c => { c with ownerID := dest })
        else s.statics.components r := by
  simp only [copiedOne, State.statics_modifyObject]
  by_cases hr : r = dst
  · subst hr
    simp only [if_true, State.components_setArray_self]
    rfl
  · simp only [hr, if_false]
    rw [State.components_setArray_ne _ _ _ _ hr, State.components_setArray_ne _ _ _ _ hr,
      State.statics_modifyObject]

theorem copiedOne_get?_self (s : State V) (dest : ID) (od : Object) (fam : Family)
    (dst : ArrayRef) (v : Component V) (hobj : s.mgr.objects.get? dest = some od) :
    (copiedOne s dest od fam dst v).mgr.objects.get? dest
      = some (Object.mk od.objectID od.componentArrays
          (mapSet fam (s.statics.components dst).nextId od.componentIndices)) := by
  simp only [copiedOne]
  rw [State.get?_modifyObject, if_pos rfl, State.mgr_setArray, State.mgr_setArray,
    State.get?_modifyObject, if_pos rfl, hobj]
  rfl

theorem copiedOne_get?_ne (s : State V) (dest x : ID) (od : Object) (fam : Family)
    (dst : ArrayRef) (v : Component V) (hx : x ≠ dest) :
    (copiedOne s dest od fam dst v).mgr.objects.get? x = s.mgr.objects.get? x := by
  simp only [copiedOne]
  rw [State.get?_modifyObject, if_neg hx, State.mgr_setArray, State.mgr_setArray,
    State.get?_modifyObject, if_neg hx]

theorem copyObjectComponents_cons (s : State V) (dest : ID) (source od : Object) (fam : Family)
    (srcArr dst : ArrayRef) (srcIdx : ID) (v : Component V)
    (rest : List (Family × Option ArrayRef))
    (hobj : s.mgr.objects.get? dest = some od)
    (harr : mapFind fam od.componentArrays = some (some dst))
    (hsi : mapFind fam source.componentIndices = some srcIdx)
    (hv : (s.statics.components srcArr).get? srcIdx = some v) :
    copyObjectComponents dest source ((fam, some srcArr) :: rest) s
      = copyObjectComponents dest source rest (copiedOne s dest od fam dst v) := by
  have hix := mapIndex_of_some fam none (some dst) od.componentArrays harr
  have hcc : createCopy (s.modifyObject dest (fun o => { o with
      componentArrays := od.componentArrays })) (some srcArr) srcIdx (some dst)
      = .ok (((s.modifyObject dest (fun o => { o with
          componentArrays := od.componentArrays })).statics.components dst).addItem v |>.1,
        (s.modifyObject dest (fun o => { o with
          componentArrays := od.componentArrays })).setArray dst
          (((s.modifyObject dest (fun o => { o with
            componentArrays := od.componentArrays })).statics.components dst).addItem v).2) := by
    simp only [createCopy, State.statics_modifyObject, hv]
  simp only [copyObjectComponents, hobj, hix, hsi, hcc]
  rfl

theorem copiedOne_frame (s : State V) (dest : ID) (od : Object) (fam : Family)
    (dst : ArrayRef) (v : Component V) :
    (copiedOne s dest od fam dst v).mgr.objects.elements.map Prod.fst
      = s.mgr.objects.elements.map Prod.fst ∧
    (copiedOne s dest od fam dst v).mgr.objects.nextId = s.mgr.objects.nextId ∧
    (copiedOne s dest od fam dst v).mgr.version = s.mgr.version ∧
    (copiedOne s dest od fam dst v).mgr.objectPrototypes = s.mgr.objectPrototypes ∧
    (copiedOne s dest od fam dst v).mgr.compFamilyToProtoCompArray
      = s.mgr.compFamilyToProtoCompArray ∧
    (copiedOne s dest od fam dst v).statics.compFamilyToCompArray
      = s.statics.compFamilyToCompArray ∧
    (copiedOne s dest od fam dst v).statics.stringToCompFamily
      = s.statics.stringToCompFamily := by
  refine ⟨?_, rfl, rfl, rfl, rfl, rfl, rfl⟩
  simp only [copiedOne, State.modifyObject, State.setObjects, State.mgr_setArray]
  rw [PackedArray.ids_modify, PackedArray.ids_modify]

theorem copiedOne_tables (s : State V) (dest : ID) (od : Object) (fam : Family)
    (dst : ArrayRef) (v : Component V) (hf : ∀ r, (s.statics.components r).Fresh) :
    (∀ r, ((copiedOne s dest od fam dst v).statics.components r).Fresh) ∧
    (∀ r, (s.statics.components r).Distinct →
      ((copiedOne s dest od fam dst v).statics.components r).Distinct) ∧
    (∀ r i c, (s.statics.components r).get? i = some c →
      ((copiedOne s dest od fam dst v).statics.components r).get? i = some c) ∧
    (s.statics.components dst).get? (s.statics.components dst).nextId = none ∧
    ((copiedOne s dest od fam dst v).statics.components dst).get?
        (s.statics.components dst).nextId = some { v with ownerID := dest } := by
  refine ⟨?_, ?_, ?_, PackedArray.get?_nextId _ (hf dst), ?_⟩
  · intro r
    rw [copiedOne_components]
    by_cases hr : r = dst
    · rw [if_pos hr]
      exact PackedArray.fresh_modify _ _ _ (PackedArray.fresh_addItem _ _ (hf dst))
    · rw [if_neg hr]
      exact hf r
  · intro r hd
    rw [copiedOne_components]
    by_cases hr : r = dst
    · subst hr
      rw [if_pos rfl]
      unfold PackedArray.Distinct
      rw [PackedArray.ids_modify]
      exact PackedArray.distinct_addItem _ _ hd (hf r)
    · rw [if_neg hr]
      exact hd
  · intro r i c hi
    rw [copiedOne_components]
    by_cases hr : r = dst
    · subst hr
      rw [if_pos rfl]
      have hlt := PackedArray.lt_nextId_of_get? _ i c (hf r) hi
      rw [PackedArray.get?_modify_ne _ _ _ _ (Nat.ne_of_lt hlt)]
      exact PackedArray.get?_addItem_of_some _ _ _ _ hi
    · rw [if_neg hr]
      exact hi
  · rw [copiedOne_components, if_pos rfl, PackedArray.get?_modify_self]
    have h1 := PackedArray.get?_addItem_self (s.statics.components dst) v (hf dst)
    have h2 : ((s.statics.components dst).addItem v).1 = (s.statics.components dst).nextId := rfl
    rw [h2] at h1
    rw [h1]
    rfl

/-- What the second loop of `copyObject` does when every listed family has a
non-null source table with a live source slot and a destination table
recorded on the destination, the listed families are distinct and table ids
are issued by the counters: it returns, appends one copy per family to the
destination table with the destination as owner, records the new index, and
keeps every slot that was live before. -/
theorem copyObjectComponents_spec (dest : ID) (source : Object)
    (l : List (Family × Option ArrayRef)) :
    ∀ (s : State V) (od : Object),
      s.mgr.objects.get? dest = some od →
      (∀ r, (s.statics.components r).Fresh) →
      (l.map Prod.fst).Nodup →
      (∀ q ∈ l, ∃ srcArr srcIdx v dst, q.2 = some srcArr ∧
        mapFind q.1 source.componentIndices = some srcIdx ∧
        (s.statics.components srcArr).get? srcIdx = some v ∧
        mapFind q.1 od.componentArrays = some (some dst)) →
      ∃ s2 od2, copyObjectComponents dest source l s = .ok s2 ∧
        s2.mgr.objects.get? dest = some od2 ∧
        od2.componentArrays = od.componentArrays ∧
        od2.objectID = od.objectID ∧
        (∀ r, (s2.statics.components r).Fresh) ∧
        (∀ r, (s.statics.components r).Distinct → (s2.statics.components r).Distinct) ∧
        (∀ r i c, (s.statics.components r).get? i = some c →
          (s2.statics.components r).get? i = some c) ∧
        (∀ f, f ∉ l.map Prod.fst →
          mapFind f od2.componentIndices = mapFind f od.componentIndices) ∧
        (∀ q ∈ l, ∀ srcArr srcIdx v dst, q.2 = some srcArr →
          mapFind q.1 source.componentIndices = some srcIdx →
          (s.statics.components srcArr).get? srcIdx = some v →
          mapFind q.1 od.componentArrays = some (some dst) →
          ∃ idx2, mapFind q.1 od2.componentIndices = some idx2 ∧
            (s.statics.components dst).get? idx2 = none ∧
            (s2.statics.components dst).get? idx2 = some { v with ownerID := dest }) ∧
        (∀ x, x ≠ dest → s2.mgr.objects.get? x = s.mgr.objects.get? x) ∧
        s2.mgr.objects.elements.map Prod.fst = s.mgr.objects.elements.map Prod.fst ∧
        s2.mgr.objects.nextId = s.mgr.objects.nextId ∧
        s2.mgr.version = s.mgr.version ∧
        s2.mgr.objectPrototypes = s.mgr.objectPrototypes ∧
        s2.mgr.compFamilyToProtoCompArray = s.mgr.compFamilyToProtoCompArray ∧
        s2.statics.compFamilyToCompArray = s.statics.compFamilyToCompArray ∧
        s2.statics.stringToCompFamily = s.statics.stringToCompFamily ∧
        (∀ r, (∀ q ∈ l, mapFind q.1 od.componentArrays ≠ some (some r)) →
          s2.statics.components r = s.statics.components r) := by
  induction l with
  | nil =>
    intro s od hobj hf _ _
    exact ⟨s, od, rfl, hobj, rfl, rfl, hf, fun _ h => h, fun _ _ _ h => h, fun _ _ => rfl,
      fun q hq => absurd hq (List.not_mem_nil q), fun _ _ => rfl, rfl, rfl, rfl, rfl, rfl, rfl,
      rfl, fun _ _ => rfl⟩
  | cons q rest ih =>
    intro s od hobj hf hnd hsrc
    obtain ⟨fam, ptr⟩ := q
    obtain ⟨srcArr, srcIdx, v, dst, hptr, hsi, hv, harr⟩ := hsrc (fam, ptr) (List.mem_cons_self _ _)
    simp only at hptr hsi hv harr
    subst hptr
    have hnd2 : (rest.map Prod.fst).Nodup := (List.nodup_cons.mp (by simpa using hnd)).2
    have hnot : fam ∉ rest.map Prod.fst := (List.nodup_cons.mp (by simpa using hnd)).1
    obtain ⟨t1, t2, t3, t4, t5⟩ := copiedOne_tables s dest od fam dst v hf
    obtain ⟨f1, f2, f3, f4, f5, f6, f7⟩ := copiedOne_frame s dest od fam dst v
    have hobj1 := copiedOne_get?_self s dest od fam dst v hobj
    have hsrc1 : ∀ q ∈ rest, ∃ srcArr srcIdx v2 dst2, q.2 = some srcArr ∧
        mapFind q.1 source.componentIndices = some srcIdx ∧
        ((copiedOne s dest od fam dst v).statics.components srcArr).get? srcIdx = some v2 ∧
        mapFind q.1 (Object.mk od.objectID od.componentArrays
          (mapSet fam (s.statics.components dst).nextId od.componentIndices)).componentArrays
          = some (some dst2) := by
      intro q hq
      obtain ⟨a, i, v2, d2, h1, h2, h3, h4⟩ := hsrc q (List.mem_cons_of_mem _ hq)
      exact ⟨a, i, v2, d2, h1, h2, t3 _ _ _ h3, h4⟩
    obtain ⟨s2, od2, g1, g2, g3, g4, g5, g6, g7, g8, g9, g10, g11, g12, g13, g14, g15, g16,
      g17, g18⟩ := ih (copiedOne s dest od fam dst v) _ hobj1 t1 hnd2 hsrc1
    refine ⟨s2, od2, ?_, g2, g3, g4, g5, fun r hd => g6 r (t2 r hd),
      fun r i c hi => g7 r i c (t3 r i c hi), ?_, ?_, ?_, ?_, ?_, ?_, ?_, ?_, ?_, ?_, ?_⟩
    · rw [copyObjectComponents_cons s dest source od fam srcArr dst srcIdx v rest hobj harr
        hsi hv]
      exact g1
    · intro f hfm
      have hf1 : f ∉ rest.map Prod.fst := fun h => hfm (List.mem_cons_of_mem _ h)
      have hf2 : f ≠ fam := fun h => hfm (by simp [h])
      rw [g8 f hf1]
      exact mapFind_mapSet_ne _ _ _ _ hf2
    · intro q hq a i v2 d2 h1 h2 h3 h4
      simp only [List.mem_cons] at hq
      rcases hq with hq | hq
      · subst hq
        simp only at h1 h2 h3 h4
        have ha : a = srcArr := by injection h1 with h1; exact h1.symm
        subst ha
        have hi : i = srcIdx := by rw [hsi] at h2; injection h2 with h2; exact h2.symm
        subst hi
        have hv2 : v2 = v := by rw [hv] at h3; injection h3 with h3; exact h3.symm
        subst hv2
        have hd2 : d2 = dst := by
          rw [harr] at h4; injection h4 with h4; injection h4 with h4; exact h4.symm
        subst hd2
        refine ⟨(s.statics.components d2).nextId, ?_, t4, g7 _ _ _ t5⟩
        rw [g8 fam hnot]
        exact mapFind_mapSet_self _ _ _
      · obtain ⟨idx2, k1, k2, k3⟩ := g9 q hq a i v2 d2 h1 h2 (t3 _ _ _ h3) h4
        refine ⟨idx2, k1, ?_, k3⟩
        cases hc : (s.statics.components d2).get? idx2 with
        | none => rfl
        | some c =>
          have := t3 _ _ _ hc
          rw [k2] at this
          exact absurd this (by simp)
    · intro x hx
      rw [g10 x hx]
      exact copiedOne_get?_ne s dest x od fam dst v hx
    · rw [g11, f1]
    · rw [g12, f2]
    · rw [g13, f3]
    · rw [g14, f4]
    · rw [g15, f5]
    · rw [g16, f6]
    · rw [g17, f7]
    · intro r hr
      have hr1 : ∀ q ∈ rest, mapFind q.1 od.componentArrays ≠ some (some r) :=
        fun q hq => hr q (List.mem_cons_of_mem _ hq)
      have hr2 : r ≠ dst := by
        intro h
        apply hr (fam, some srcArr) (List.mem_cons_self _ _)
        rw [h]
        exact harr
      rw [g18 r hr1, copiedOne_components, if_neg hr2]

end CopySpec


section CopyTail

variable {V : Type}

/-- What the first loop of `copyObject` does when every listed family is
registered in `compFamilyToCompArray`: the destination records the registered
table for each listed family; nothing else changes. -/
theorem copyObjectFamilies_spec (dest : ID) (l : List (Family × Option ArrayRef)) :
    ∀ (s : State V) (od : Object),
      s.mgr.objects.get? dest = some od →
      (∀ q ∈ l, ∃ dst, mapFind q.1 s.statics.compFamilyToCompArray = some (some dst)) →
      ∃ od1, (copyObjectFamilies dest l s).mgr.objects.get? dest = some od1 ∧
        od1.componentIndices = od.componentIndices ∧
        od1.objectID = od.objectID ∧
        (∀ f, mapFind f od1.componentArrays
          = if f ∈ l.map Prod.fst then mapFind f s.statics.compFamilyToCompArray
            else mapFind f od.componentArrays) ∧
        (copyObjectFamilies dest l s).statics = s.statics ∧
        (∀ x, x ≠ dest →
          (copyObjectFamilies dest l s).mgr.objects.get? x = s.mgr.objects.get? x) ∧
        (copyObjectFamilies dest l s).mgr.objects.elements.map Prod.fst
          = s.mgr.objects.elements.map Prod.fst ∧
        (copyObjectFamilies dest l s).mgr.objects.nextId = s.mgr.objects.nextId ∧
        (copyObjectFamilies dest l s).mgr.version = s.mgr.version ∧
        (copyObjectFamilies dest l s).mgr.objectPrototypes = s.mgr.objectPrototypes ∧
        (copyObjectFamilies dest l s).mgr.compFamilyToProtoCompArray
          = s.mgr.compFamilyToProtoCompArray := by
  induction l with
  | nil =>
    intro s od hobj _
    exact ⟨od, hobj, rfl, rfl, fun f => by simp, rfl, fun _ _ => rfl, rfl, rfl, rfl, rfl, rfl⟩
  | cons q rest ih =>
    intro s od hobj hreg
    obtain ⟨fam, ptr⟩ := q
    obtain ⟨dst, hdst⟩ := hreg (fam, ptr) (List.mem_cons_self _ _)
    simp only at hdst
    have hix := mapIndex_of_some fam none (some dst) s.statics.compFamilyToCompArray hdst
    have hstep : copyObjectFamilies dest ((fam, ptr) :: rest) s
        = copyObjectFamilies dest rest (s.modifyObject dest (fun o => { o with
            componentArrays := mapSet fam (some dst) o.componentArrays })) := by
      simp only [copyObjectFamilies, hix]
    have hobj1 : (s.modifyObject dest (fun o => { o with
        componentArrays := mapSet fam (some dst) o.componentArrays })).mgr.objects.get? dest
        = some (Object.mk od.objectID (mapSet fam (some dst) od.componentArrays)
            od.componentIndices) := by
      rw [State.get?_modifyObject, if_pos rfl, hobj]
      rfl
    obtain ⟨od1, h1, h2, h3, h4, h5, h6, h7, h8, h9, h10, h11⟩ := ih _ _ hobj1
      (fun q hq => hreg q (List.mem_cons_of_mem _ hq))
    rw [hstep]
    refine ⟨od1, h1, h2, h3, ?_, h5, ?_, ?_, h8, h9, h10, h11⟩
    · intro f
      rw [h4 f]
      simp only [State.statics_modifyObject, List.map_cons, List.mem_cons]
      by_cases hf1 : f ∈ rest.map Prod.fst
      · simp [hf1]
      · by_cases hf2 : f = fam
        · subst hf2
          simp [hf1, mapFind_mapSet_self, hdst]
        · simp [hf1, hf2, mapFind_mapSet_ne _ _ _ _ hf2]
    · intro x hx
      rw [h6 x hx, State.get?_modifyObject, if_neg hx]
    · rw [h7]
      simp only [State.modifyObject, State.setObjects]
      exact PackedArray.ids_modify _ _ _

/-- What the two loops of `copyObject` do after the destination was cleared. -/
theorem copyLoops_spec (dest : ID) (source : Object) (s : State V) (od : Object)
    (hobj : s.mgr.objects.get? dest = some od)
    (hf : ∀ r, (s.statics.components r).Fresh)
    (hkeys : (source.componentArrays.map Prod.fst).Nodup)
    (hreg : ∀ q ∈ source.componentArrays,
      ∃ dst, mapFind q.1 s.statics.compFamilyToCompArray = some (some dst))
    (hsrc : ∀ q ∈ source.componentArrays, ∃ srcArr srcIdx v, q.2 = some srcArr ∧
      mapFind q.1 source.componentIndices = some srcIdx ∧
      (s.statics.components srcArr).get? srcIdx = some v) :
    ∃ s2 od2, copyObjectComponents dest source source.componentArrays
        (copyObjectFamilies dest source.componentArrays s) = .ok s2 ∧
      s2.mgr.objects.get? dest = some od2 ∧
      od2.objectID = od.objectID ∧
      (∀ q ∈ source.componentArrays, ∀ srcArr srcIdx v dst, q.2 = some srcArr →
        mapFind q.1 source.componentIndices = some srcIdx →
        (s.statics.components srcArr).get? srcIdx = some v →
        mapFind q.1 s.statics.compFamilyToCompArray = some (some dst) →
        ∃ idx2, mapFind q.1 od2.componentIndices = some idx2 ∧
          mapFind q.1 od2.componentArrays = some (some dst) ∧
          (s.statics.components dst).get? idx2 = none ∧
          (s2.statics.components dst).get? idx2 = some { v with ownerID := dest } ∧
          (s2.statics.components srcArr).get? srcIdx = some v) ∧
      (∀ f, f ∉ source.componentArrays.map Prod.fst →
        mapFind f od2.componentIndices = mapFind f od.componentIndices ∧
        mapFind f od2.componentArrays = mapFind f od.componentArrays) ∧
      (∀ r, (s2.statics.components r).Fresh) ∧
      (∀ r, (s.statics.components r).Distinct → (s2.statics.components r).Distinct) ∧
      (∀ r i c, (s.statics.components r).get? i = some c →
        (s2.statics.components r).get? i = some c) ∧
      (∀ x, x ≠ dest → s2.mgr.objects.get? x = s.mgr.objects.get? x) ∧
      s2.mgr.objects.elements.map Prod.fst = s.mgr.objects.elements.map Prod.fst ∧
      s2.mgr.objects.nextId = s.mgr.objects.nextId ∧
      s2.mgr.version = s.mgr.version ∧
      s2.mgr.objectPrototypes = s.mgr.objectPrototypes ∧
      s2.statics.compFamilyToCompArray = s.statics.compFamilyToCompArray ∧
      (∀ r, (∀ q ∈ source.componentArrays,
          mapFind q.1 s.statics.compFamilyToCompArray ≠ some (some r)) →
        s2.statics.components r = s.statics.components r) := by
  obtain ⟨od1, a1, a2, a3, a4, a5, a6, a7, a8, a9, a10, _⟩ :=
    copyObjectFamilies_spec dest source.componentArrays s od hobj hreg
  have hmem : ∀ q ∈ source.componentArrays, q.1 ∈ source.componentArrays.map Prod.fst :=
    fun q hq => List.mem_map_of_mem _ hq
  have harr : ∀ q ∈ source.componentArrays,
      mapFind q.1 od1.componentArrays = mapFind q.1 s.statics.compFamilyToCompArray := by
    intro q hq
    rw [a4 q.1, if_pos (hmem q hq)]
  have hsrc1 : ∀ q ∈ source.componentArrays, ∃ srcArr srcIdx v dst, q.2 = some srcArr ∧
      mapFind q.1 source.componentIndices = some srcIdx ∧
      ((copyObjectFamilies dest source.componentArrays s).statics.components srcArr).get?
        srcIdx = some v ∧
      mapFind q.1 od1.componentArrays = some (some dst) := by
    intro q hq
    obtain ⟨a, i, v, h1, h2, h3⟩ := hsrc q hq
    obtain ⟨dst, hdst⟩ := hreg q hq
    exact ⟨a, i, v, dst, h1, h2, by rw [a5]; exact h3, by rw [harr q hq]; exact hdst⟩
  obtain ⟨s2, od2, g1, g2, g3, g4, g5, g6, g7, g8, g9, g10, g11, g12, g13, g14, _, g16, _,
    g18⟩ := copyObjectComponents_spec dest source source.componentArrays _ od1 a1
      (by rw [a5]; exact hf) hkeys hsrc1
  rw [a5] at g6 g7 g9 g16 g18
  refine ⟨s2, od2, g1, g2, by rw [g4, a3], ?_, ?_, g5, g6, g7, ?_, by rw [g11, a7],
    by rw [g12, a8], by rw [g13, a9], by rw [g14, a10], g16, ?_⟩
  · intro q hq a i v dst h1 h2 h3 h4
    obtain ⟨idx2, k1, k2, k3⟩ := g9 q hq a i v dst h1 h2 h3 (by rw [harr q hq]; exact h4)
    refine ⟨idx2, k1, ?_, k2, k3, g7 _ _ _ h3⟩
    rw [g3, harr q hq]
    exact h4
  · intro f hfm
    refine ⟨?_, ?_⟩
    · rw [g8 f hfm, a2]
    · rw [g3, a4 f, if_neg hfm]
  · intro x hx
    rw [g10 x hx, a6 x hx]
  · intro r hr
    apply g18 r
    intro q hq
    rw [harr q hq]
    exact hr q hq

end CopyTail


/-! ## `createObject(name)` from a prototype -/

section CreateFromPrototype

variable {V : Type}

/-- What `createObject()` does when the ids of the object array were issued by
its counter: the new id is not live before, the new object is empty and
carries its id, and every other object is untouched. -/
theorem createObject_spec (s : State V) (hfo : s.mgr.objects.Fresh) :
    (createObject s).1 = s.mgr.objects.nextId ∧
    s.mgr.objects.get? (createObject s).1 = none ∧
    (createObject s).2.mgr.objects.get? (createObject s).1
      = some ⟨(createObject s).1, [], []⟩ ∧
    (∀ x o, s.mgr.objects.get? x = some o → (createObject s).2.mgr.objects.get? x = some o) ∧
    (createObject s).2.mgr.objects.size = s.mgr.objects.size + 1 ∧
    (createObject s).2.statics = s.statics ∧
    (createObject s).2.mgr.version = s.mgr.version ∧
    (createObject s).2.mgr.objectPrototypes = s.mgr.objectPrototypes := by
  have h1 : (createObject s).1 = s.mgr.objects.nextId := rfl
  refine ⟨h1, ?_, ?_, ?_, ?_, rfl, rfl, rfl⟩
  · rw [h1]
    exact PackedArray.get?_nextId _ hfo
  · simp only [createObject, State.modifyObject, State.setObjects]
    rw [PackedArray.get?_modify_self, PackedArray.get?_addItem_self _ _ hfo]
    rfl
  · intro x o hx
    have hlt := PackedArray.lt_nextId_of_get? _ x o hfo hx
    simp only [createObject, State.modifyObject, State.setObjects]
    have hne : x ≠ (s.mgr.objects.addItem Object.default).1 := Nat.ne_of_lt hlt
    rw [PackedArray.get?_modify_ne _ _ _ _ hne]
    exact PackedArray.get?_addItem_of_some _ _ _ _ hx
  · simp only [createObject, State.modifyObject, State.setObjects]
    rw [PackedArray.size_modify, PackedArray.size_addItem]

/-- On a manager whose static registrations point at its own tables (the first
manager that registered the types): for a name with a prototype whose
families are all registered with this manager's live tables and whose
components are live in their tables,
`createObject(name)` returns the id of a new object; `getTotalObjects()` grows
by exactly 1; the new object records exactly the families of the prototype;
for each of them `getComponent` on the new object refers to a copy of the
prototype's value, owned by the new object, in this manager's live table
(a slot that was not live before); the prototype map, the prototype's
components, and every object that existed before are unchanged. -/
theorem createObjectFromPrototype_spec (s : State V) (prototypeName : String) (proto : Object)
    (hproto : mapFind prototypeName s.mgr.objectPrototypes = some proto)
    (hfo : s.mgr.objects.Fresh)
    (hf : ∀ r, (s.statics.components r).Fresh)
    (hkeys : (proto.componentArrays.map Prod.fst).Nodup)
    (hreg : ∀ q ∈ proto.componentArrays,
      mapFind q.1 s.statics.compFamilyToCompArray
        = some (some ⟨false, q.1, s.mgr.version⟩))
    (hsrc : ∀ q ∈ proto.componentArrays, ∃ srcArr srcIdx v, q.2 = some srcArr ∧
      mapFind q.1 proto.componentIndices = some srcIdx ∧
      (s.statics.components srcArr).get? srcIdx = some v) :
    ∃ id s2 obj, createObjectFromPrototype s prototypeName = .ok (id, s2) ∧
      s.mgr.objects.isValid id = false ∧
      s2.mgr.objects.get? id = some obj ∧
      obj.objectID = id ∧
      getTotalObjects s2 = getTotalObjects s + 1 ∧
      (∀ f, (mapFind f obj.componentIndices).isSome = true ↔
        f ∈ proto.componentArrays.map Prod.fst) ∧
      (∀ (F : ComponentType) (srcArr : ArrayRef) (srcIdx : ID) (v : Component V),
        mapFind F.family proto.componentArrays = some (some srcArr) →
        mapFind F.family proto.componentIndices = some srcIdx →
        (s.statics.components srcArr).get? srcIdx = some v →
        ∃ idx2, getComponent s2 F id = some ⟨⟨false, F.family, s2.mgr.version⟩, idx2⟩ ∧
          deref s2 ⟨⟨false, F.family, s2.mgr.version⟩, idx2⟩ = some { v with ownerID := id } ∧
          deref s ⟨⟨false, F.family, s.mgr.version⟩, idx2⟩ = none ∧
          (s2.statics.components srcArr).get? srcIdx = some v) ∧
      s2.mgr.objectPrototypes = s.mgr.objectPrototypes ∧
      (∀ r i c, (s.statics.components r).get? i = some c →
        (s2.statics.components r).get? i = some c) ∧
      (∀ r, r.prototype = true → s2.statics.components r = s.statics.components r) ∧
      (∀ x o, s.mgr.objects.get? x = some o → s2.mgr.objects.get? x = some o) := by
  obtain ⟨c1, c2, c3, c4, c5, c6, c7, c8⟩ := createObject_spec s hfo
  have hexists : doesPrototypeExist s prototypeName = true := by
    simp [doesPrototypeExist, hproto]
  have hix := mapIndex_of_some prototypeName Object.default proto s.mgr.objectPrototypes hproto
  have hvalid : (createObject s).2.mgr.objects.isValid (createObject s).1 = true := by
    simp [PackedArray.isValid, c3]
  have hclear : removeAllComponents (createObject s).2 (createObject s).1
      = .ok (0, (createObject s).2) := by
    simp only [removeAllComponents, c3, removeAllComponentsLoop]
  obtain ⟨s2, od2, g1, g2, g3, g4, g5, _, _, g8, g9, g10, _, g12, g13, _, g15⟩ :=
    copyLoops_spec (createObject s).1 proto (createObject s).2 _ c3
      (by rw [c6]; exact hf) hkeys
      (fun q hq => ⟨_, by rw [c6]; exact hreg q hq⟩)
      (fun q hq => by rw [c6]; exact hsrc q hq)
  rw [c6] at g4 g8 g15
  have hcopy : copyObject (createObject s).2 (createObject s).1 proto = .ok s2 := by
    simp only [copyObject, hvalid, if_true, hclear]
    exact g1
  have hres : createObjectFromPrototype s prototypeName = .ok ((createObject s).1, s2) := by
    simp only [createObjectFromPrototype, hexists, if_true, hix]
    have : ({ s with mgr := { s.mgr with objectPrototypes := s.mgr.objectPrototypes } } : State V)
        = s := rfl
    rw [this, hcopy]
  have hver : s2.mgr.version = s.mgr.version := by rw [g12, c7]
  refine ⟨(createObject s).1, s2, od2, hres, by simp [PackedArray.isValid, c2], g2, g3, ?_,
    ?_, ?_, by rw [g13, c8], g8, ?_, ?_⟩
  · simp only [getTotalObjects, PackedArray.size]
    have h1 := congrArg List.length g10
    simp only [List.length_map] at h1
    rw [h1]
    exact c5
  · intro f
    by_cases hfm : f ∈ proto.componentArrays.map Prod.fst
    · simp only [hfm, iff_true]
      obtain ⟨q, hq, hq2⟩ := List.mem_map.mp hfm
      obtain ⟨a, i, v, h1, h2, h3⟩ := hsrc q hq
      obtain ⟨idx2, k1, _⟩ := g4 q hq a i v _ h1 h2 h3 (hreg q hq)
      rw [← hq2, k1]
      rfl
    · simp only [hfm, iff_false]
      rw [(g5 f hfm).1]
      simp [mapFind]
  · intro F srcArr srcIdx v h1 h2 h3
    have hq := mapFind_some_mem _ _ _ h1
    obtain ⟨idx2, k1, _, k3, k4, k5⟩ := g4 (F.family, some srcArr) hq srcArr srcIdx v _ rfl h2 h3
      (hreg _ hq)
    refine ⟨idx2, ?_, ?_, ?_, k5⟩
    · rw [getComponent_of_entry s2 F _ od2 idx2 g2 k1]
      rfl
    · simp only [deref, hver]
      exact k4
    · simp only [deref]
      exact k3
  · intro r hr
    apply g15 r
    intro q hq
    rw [hreg q hq]
    intro h
    injection h with h
    injection h with h
    rw [← h] at hr
    simp at hr
  · intro x o hx
    have hne : x ≠ (createObject s).1 := by
      intro h
      rw [h, c2] at hx
      exact absurd hx (by simp)
    rw [g9 x hne]
    exact c4 x o hx

end CreateFromPrototype


section CopyIsolation

variable {V : Type}

/-- What `copyObject` does when the destination is valid with no null table
pointer, table ids are distinct and issued by the counters, the source lists
distinct registered families with live source slots, and no source slot is a
slot that the destination records: it returns, and for every family of the
source the destination records a new slot of the registered table holding a
copy of the source's value owned by the destination, while the source's slot
keeps its value. -/
theorem copyObject_spec (s : State V) (dest : ID) (source od : Object)
    (hobj : s.mgr.objects.get? dest = some od)
    (hnn : ∀ p ∈ od.componentArrays, p.2 ≠ none)
    (hd : ∀ r, (s.statics.components r).Distinct)
    (hf : ∀ r, (s.statics.components r).Fresh)
    (hkeys : (source.componentArrays.map Prod.fst).Nodup)
    (hreg : ∀ q ∈ source.componentArrays,
      ∃ dst, mapFind q.1 s.statics.compFamilyToCompArray = some (some dst))
    (hsrc : ∀ q ∈ source.componentArrays, ∃ srcArr srcIdx v, q.2 = some srcArr ∧
      mapFind q.1 source.componentIndices = some srcIdx ∧
      (s.statics.components srcArr).get? srcIdx = some v)
    (hdisj : ∀ q ∈ source.componentArrays, ∀ d ∈ od.componentArrays,
      ¬ (d.2 = q.2 ∧ od.indexOf d.1 = source.indexOf q.1)) :
    ∃ s2 od2, copyObject s dest source = .ok s2 ∧
      s2.mgr.objects.get? dest = some od2 ∧
      s2.mgr.version = s.mgr.version ∧
      (∀ r, (s2.statics.components r).Fresh) ∧
      (∀ r, (s2.statics.components r).Distinct) ∧
      (∀ q ∈ source.componentArrays, ∀ srcArr srcIdx v dst, q.2 = some srcArr →
        mapFind q.1 source.componentIndices = some srcIdx →
        (s.statics.components srcArr).get? srcIdx = some v →
        mapFind q.1 s.statics.compFamilyToCompArray = some (some dst) →
        ∃ idx2, mapFind q.1 od2.componentIndices = some idx2 ∧
          mapFind q.1 od2.componentArrays = some (some dst) ∧
          (s2.statics.components dst).get? idx2 = some { v with ownerID := dest } ∧
          (s2.statics.components srcArr).get? srcIdx = some v ∧
          ¬ (dst = srcArr ∧ idx2 = srcIdx)) := by
  have hvalid : s.mgr.objects.isValid dest = true := by
    simp [PackedArray.isValid, hobj]
  obtain ⟨s1, od1, h1, h2, _, _, _, _, _, _, _, _, h11, _, _, h14, _, h16, h17, h18⟩ :=
    removeAllComponentsLoop_spec dest od.componentArrays 0 s od hobj hnn hd
  have hra : removeAllComponents s dest = .ok (0 + od.componentArrays.length, s1) := by
    simp only [removeAllComponents, hobj]
    exact h1
  have hf1 : ∀ r, (s1.statics.components r).Fresh := by
    intro r p hp
    rw [h17 r]
    exact hf r p ((h18 r p).mp hp).1
  have hlive1 : ∀ q ∈ source.componentArrays, ∀ srcArr srcIdx v, q.2 = some srcArr →
      mapFind q.1 source.componentIndices = some srcIdx →
      (s.statics.components srcArr).get? srcIdx = some v →
      (s1.statics.components srcArr).get? srcIdx = some v := by
    intro q hq a i v k1 k2 k3
    have hm := (PackedArray.mapFind_eq_some_iff_mem i v _ (hd a)).mp k3
    apply (PackedArray.mapFind_eq_some_iff_mem i v _ (h16 a)).mpr
    rw [h18 a (i, v)]
    refine ⟨hm, fun d hdm hbad => hdisj q hq d hdm ⟨?_, ?_⟩⟩
    · rw [hbad.1, k1]
    · rw [hbad.2]
      simp [Object.indexOf, k2]
  obtain ⟨s2, od2, g1, g2, _, g4, _, g6, g7, _, _, _, _, g12, _, _, _⟩ :=
    copyLoops_spec dest source s1 od1 h2 hf1 hkeys
      (fun q hq => by rw [h14]; exact hreg q hq)
      (fun q hq => by
        obtain ⟨a, i, v, k1, k2, k3⟩ := hsrc q hq
        exact ⟨a, i, v, k1, k2, hlive1 q hq a i v k1 k2 k3⟩)
  refine ⟨s2, od2, ?_, g2, by rw [g12, h11], g6, fun r => g7 r (h16 r), ?_⟩
  · simp only [copyObject, hvalid, if_true, hra]
    exact g1
  · intro q hq a i v dst k1 k2 k3 k4
    have k3b := hlive1 q hq a i v k1 k2 k3
    obtain ⟨idx2, m1, m2, m3, m4, m5⟩ := g4 q hq a i v dst k1 k2 k3b (by rw [h14]; exact k4)
    refine ⟨idx2, m1, m2, m4, m5, ?_⟩
    rintro ⟨e1, e2⟩
    rw [e1, e2, k3b] at m3
    exact absurd m3 (by simp)

/-- C11: under the hypotheses of `copyObject_spec`, for a family `F` that the
source owns (table pointer, index, live value `v`) and that is registered
with this manager's own table: after `copyObject(dest, source)` the
destination's `F` component is a copy of `v` in a slot different from the
source's, and overwriting it with the typed `assign(dest, c)` returns 0,
stores `c` in the destination's slot and leaves the source's value `v`. -/
theorem copyObject_isolated (s : State V) (dest : ID) (source od : Object)
    (F : ComponentType) (srcArr : ArrayRef) (srcIdx : ID) (v c : Component V) (fuel : Nat)
    (hobj : s.mgr.objects.get? dest = some od)
    (hnn : ∀ p ∈ od.componentArrays, p.2 ≠ none)
    (hd : ∀ r, (s.statics.components r).Distinct)
    (hf : ∀ r, (s.statics.components r).Fresh)
    (hkeys : (source.componentArrays.map Prod.fst).Nodup)
    (hreg : ∀ q ∈ source.componentArrays,
      ∃ dst, mapFind q.1 s.statics.compFamilyToCompArray = some (some dst))
    (hsrc : ∀ q ∈ source.componentArrays, ∃ srcArr srcIdx v, q.2 = some srcArr ∧
      mapFind q.1 source.componentIndices = some srcIdx ∧
      (s.statics.components srcArr).get? srcIdx = some v)
    (hdisj : ∀ q ∈ source.componentArrays, ∀ d ∈ od.componentArrays,
      ¬ (d.2 = q.2 ∧ od.indexOf d.1 = source.indexOf q.1))
    (hFarr : mapFind F.family source.componentArrays = some (some srcArr))
    (hFidx : mapFind F.family source.componentIndices = some srcIdx)
    (hFval : (s.statics.components srcArr).get? srcIdx = some v)
    (hFreg : mapFind F.family s.statics.compFamilyToCompArray
      = some (some (getComponentArray s F))) :
    ∃ s2 idx2, copyObject s dest source = .ok s2 ∧
      getComponent s2 F dest = some ⟨getComponentArray s2 F, idx2⟩ ∧
      ¬ (getComponentArray s2 F = srcArr ∧ idx2 = srcIdx) ∧
      deref s2 ⟨getComponentArray s2 F, idx2⟩ = some { v with ownerID := dest } ∧
      deref s2 ⟨srcArr, srcIdx⟩ = some v ∧
      ∃ s3, assign (fuel + 1) s2 dest [(F, c)] = .ok (0, s3) ∧
        deref s3 ⟨getComponentArray s3 F, idx2⟩ = some c ∧
        deref s3 ⟨srcArr, srcIdx⟩ = some v := by
  obtain ⟨s2, od2, g1, g2, g3, _, _, g6⟩ :=
    copyObject_spec s dest source od hobj hnn hd hf hkeys hreg hsrc hdisj
  have hq := mapFind_some_mem _ _ _ hFarr
  obtain ⟨idx2, m1, _, m3, m4, m5⟩ := g6 (F.family, some srcArr) hq srcArr srcIdx v _ rfl
    hFidx hFval hFreg
  have hT : getComponentArray s2 F = getComponentArray s F := by
    simp [getComponentArray, g3]
  have hlive : deref s2 ⟨getComponentArray s2 F, idx2⟩ = some { v with ownerID := dest } := by
    simp only [deref, hT]
    exact m3
  have hassign := assign_existing_family_eq s2 dest F c _ fuel od2 idx2 g2 m1 hlive
  refine ⟨s2, idx2, g1, getComponent_of_entry s2 F dest od2 idx2 g2 m1, by rw [hT]; exact m5,
    hlive, m4, _, hassign, ?_, ?_⟩
  · simp only [deref]
    have : getComponentArray (s2.setArray (getComponentArray s2 F)
        ((s2.statics.components (getComponentArray s2 F)).modify idx2 (fun _ => c))) F
        = getComponentArray s2 F := rfl
    rw [this, State.components_setArray_self, PackedArray.get?_modify_self]
    simp only [deref] at hlive
    rw [hlive]
    rfl
  · simp only [deref]
    by_cases hr : srcArr = getComponentArray s2 F
    · subst hr
      rw [State.components_setArray_self]
      have hne : srcIdx ≠ idx2 := by
        intro h
        apply m5
        exact ⟨hT.symm, h.symm⟩
      rw [PackedArray.get?_modify_ne _ _ _ _ hne]
      exact m4
    · rw [State.components_setArray_ne _ _ _ _ hr]
      exact m4

end CopyIsolation


/-! ## `destroyAllObjects` -/

section DestroyAll

variable {V : Type}

theorem PackedArray.eq_of_mem_of_distinct {T : Type} (a : PackedArray T) (id : ID) (x y : T)
    (hd : a.Distinct) (hx : (id, x) ∈ a.elements) (hy : (id, y) ∈ a.elements) : x = y := by
  have h1 := (PackedArray.mapFind_eq_some_iff_mem id x _ hd).mpr hx
  have h2 := (PackedArray.mapFind_eq_some_iff_mem id y _ hd).mpr hy
  rw [h1] at h2
  injection h2

/-- One `destroyObject` on the first object keeps the store consistent. -/
theorem OwnedTables.destroy_first (s : State V) (h : OwnedTables s) (id : ID) (o : Object)
    (rest : List (ID × Object)) (hels : s.mgr.objects.elements = (id, o) :: rest) :
    ∃ s1, destroyObject s id = .ok s1 ∧ OwnedTables s1 ∧
      s1.mgr.objects.size + 1 = s.mgr.objects.size ∧ s1.mgr.version = s.mgr.version := by
  have hmem : (id, o) ∈ s.mgr.objects.elements := by rw [hels]; exact List.mem_cons_self _ _
  have hobj : s.mgr.objects.get? id = some o := by
    simp [PackedArray.get?, hels, mapFind]
  obtain ⟨s1, h1, _, _, h4, h5, h6, h7, _, h9, _, h11⟩ :=
    destroyObject_spec s id o hobj (h.pointersNonNull (id, o) hmem) h.tablesDistinct
      h.objectsDistinct
  refine ⟨s1, h1, ⟨h6, h9, ?_, ?_⟩, h5, h7⟩
  · intro p hp
    exact h.pointersNonNull p ((h4 p).mp hp).1
  · intro r hr1 hr2 e he
    rw [h7] at hr2
    obtain ⟨he1, he2⟩ := (h11 r e).mp he
    obtain ⟨p, hp, q, hq, hq1, hq2⟩ := h.owned r hr1 hr2 e he1
    have hne : p.1 ≠ id := by
      intro hpid
      have hp2 : (id, p.2) ∈ s.mgr.objects.elements := by
        rw [← hpid]
        exact hp
      have := PackedArray.eq_of_mem_of_distinct _ id p.2 o h.objectsDistinct hp2 hmem
      rw [this] at hq hq2
      exact he2 q hq ⟨hq1, hq2⟩
    exact ⟨p, (h4 p).mpr ⟨hp, hne⟩, q, hq, hq1, hq2⟩

/-- The loop of `destroyAllObjects` on a consistent store returns within
`size + 1` tests of its condition, with no object and no component left. -/
theorem destroyAllObjectsLoop_spec (k : Nat) :
    ∀ (n : Nat) (s : State V), s.mgr.objects.size = n → OwnedTables s →
      ∃ s2, destroyAllObjectsLoop (n + 1 + k) s = .ok s2 ∧
        s2.mgr.objects.size = 0 ∧
        s2.mgr.version = s.mgr.version ∧
        ∀ r, r.prototype = false → r.version = s.mgr.version →
          (s2.statics.components r).elements = [] := by
  intro n
  induction n with
  | zero =>
    intro s hn h
    refine ⟨s, ?_, hn, rfl, ?_⟩
    · have : ¬ (s.mgr.objects.size > 0) := by omega
      simp only [Nat.zero_add, Nat.add_comm 1 k, destroyAllObjectsLoop, this, if_false]
    · intro r hr1 hr2
      have hobjs : s.mgr.objects.elements = [] := by
        have : s.mgr.objects.elements.length = 0 := hn
        exact List.length_eq_zero.mp this
      apply List.eq_nil_iff_forall_not_mem.mpr
      intro e he
      obtain ⟨p, hp, _⟩ := h.owned r hr1 hr2 e he
      rw [hobjs] at hp
      exact absurd hp (List.not_mem_nil p)
  | succ m ih =>
    intro s hn h
    have hpos : s.mgr.objects.size > 0 := by omega
    obtain ⟨id, o, rest, hels⟩ : ∃ id o rest, s.mgr.objects.elements = (id, o) :: rest := by
      cases hl : s.mgr.objects.elements with
      | nil =>
        have : s.mgr.objects.size = 0 := by simp [PackedArray.size, hl]
        omega
      | cons p rest => exact ⟨p.1, p.2, rest, rfl⟩
    have hgid : s.mgr.objects.getId 0 = some id := by
      simp [PackedArray.getId, hels]
    obtain ⟨s1, g1, g2, g3, g4⟩ := OwnedTables.destroy_first s h id o rest hels
    obtain ⟨s2, k1, k2, k3, k4⟩ := ih s1 (by omega) g2
    refine ⟨s2, ?_, k2, by rw [k3, g4], ?_⟩
    · have hfuel : m + 1 + 1 + k = (m + 1 + k) + 1 := by omega
      rw [hfuel]
      simp only [destroyAllObjectsLoop, hpos, if_true, hgid, g1]
      exact k1
    · intro r hr1 hr2
      exact k4 r hr1 (by rw [g4]; exact hr2)

/-- C15 (amended): on a consistent store (`OwnedTables`: distinct ids, no null
table pointer in an object, every element of the manager's live-object tables
recorded by one of its objects), `destroyAllObjects()` terminates, within
`size + 1` tests of its loop condition, and leaves no
object and no component: `getTotalObjects()` is 0 and
`getTotalComponents<C>()` is 0 for every component type `C`. -/
theorem destroyAllObjects_empties (s : State V) (k : Nat) (h : OwnedTables s) :
    ∃ s2, destroyAllObjects (s.mgr.objects.size + 1 + k) s = .ok s2 ∧
      getTotalObjects s2 = 0 ∧
      ∀ C : ComponentType, getTotalComponents s2 C = 0 := by
  obtain ⟨s1, h1, _, h3, h4⟩ := destroyAllObjectsLoop_spec k s.mgr.objects.size s rfl h
  refine ⟨s1.setObjects s1.mgr.objects.clear, ?_, rfl, ?_⟩
  · simp only [destroyAllObjects, h1]
  · intro C
    have := h4 ⟨false, C.family, s1.mgr.version⟩ rfl h3
    simp only [getTotalComponents, getComponentArray, State.setObjects, PackedArray.size]
    rw [this]
    rfl

end DestroyAll

section PrototypeAssign

variable {V : Type}

theorem bindStringToComponent_prototypes (s : State V) (C : ComponentType) (n : String) :
    (bindStringToComponent s C n).mgr.objectPrototypes = s.mgr.objectPrototypes := by
  unfold bindStringToComponent
  split <;> rfl

theorem registerComponent_prototypes (s : State V) (C : ComponentType) :
    (registerComponent s C).mgr.objectPrototypes = s.mgr.objectPrototypes := by
  unfold registerComponent
  split
  · dsimp only
    split
    · rw [bindStringToComponent_prototypes]
    · rfl
  · rfl

/-- The typed `assignToPrototype` on a prototype that already owns the family
of the first component: no table changes and both maps of the prototype stay
as they were, whatever follows in the call; the recursive call sits inside
the `if` that found the family missing (hpp 536-547). -/
theorem assignToPrototype_owned_family_skips (s : State V) (prototypeName : String)
    (C : ComponentType) (first : Component V) (others : List (ComponentType × Component V))
    (proto : Object)
    (hproto : mapFind prototypeName s.mgr.objectPrototypes = some proto)
    (hown : (mapFind C.family proto.componentArrays).isSome = true) :
    (assignToPrototype s prototypeName ((C, first) :: others)).statics.components
      = s.statics.components ∧
    ∃ proto2,
      mapFind prototypeName
        (assignToPrototype s prototypeName ((C, first) :: others)).mgr.objectPrototypes
        = some proto2 ∧
      proto2.componentArrays = proto.componentArrays ∧
      proto2.componentIndices = proto.componentIndices := by
  have hp0 : mapFind prototypeName (registerComponent s C).mgr.objectPrototypes = some proto := by
    rw [registerComponent_prototypes]; exact hproto
  have hc0 := (registerComponent_frame s C).2.2
  have hix : mapIndex prototypeName Object.default (registerComponent s C).mgr.objectPrototypes
      = (proto, (registerComponent s C).mgr.objectPrototypes) := by
    simp [mapIndex, hp0]
  have hnot : (mapFind C.family proto.componentArrays).isNone = false := by
    cases h : mapFind C.family proto.componentArrays with
    | none => rw [h] at hown; simp at hown
    | some x => rfl
  by_cases hid : proto.objectID = invalidID
  · have ho : openPrototype (registerComponent s C) prototypeName
        = ({ proto with objectID := (registerComponent s C).statics.prototypeIDCounter },
          { statics := { (registerComponent s C).statics with
              prototypeIDCounter :=
                ((registerComponent s C).statics.prototypeIDCounter + 1) % 2 ^ idBits }
            mgr := { (registerComponent s C).mgr with
              objectPrototypes := (registerComponent s C).mgr.objectPrototypes } }) := by
      simp only [openPrototype, hix, hid, if_true]
    simp only [assignToPrototype, ho, hnot, setPrototype]
    refine ⟨hc0, _, mapFind_mapSet_self _ _ _, rfl, rfl⟩
  · have ho : openPrototype (registerComponent s C) prototypeName
        = (proto, { (registerComponent s C) with
            mgr := { (registerComponent s C).mgr with
              objectPrototypes := (registerComponent s C).mgr.objectPrototypes } }) := by
      simp only [openPrototype, hix, hid, if_false]
    simp only [assignToPrototype, ho, hnot, setPrototype]
    refine ⟨hc0, _, mapFind_mapSet_self _ _ _, rfl, rfl⟩

theorem openPrototype_frame (s : State V) (prototypeName : String) :
    (openPrototype s prototypeName).1.componentArrays
      = ((mapFind prototypeName s.mgr.objectPrototypes).getD Object.default).componentArrays ∧
    (openPrototype s prototypeName).1.componentIndices
      = ((mapFind prototypeName s.mgr.objectPrototypes).getD Object.default).componentIndices ∧
    (openPrototype s prototypeName).2.statics.components = s.statics.components ∧
    (openPrototype s prototypeName).2.mgr.objects = s.mgr.objects ∧
    (openPrototype s prototypeName).2.mgr.version = s.mgr.version := by
  have hp : (mapIndex prototypeName Object.default s.mgr.objectPrototypes).1
      = (mapFind prototypeName s.mgr.objectPrototypes).getD Object.default :=
    mapIndex_fst _ _ _
  unfold openPrototype
  dsimp only
  split
  · refine ⟨?_, ?_, rfl, rfl, rfl⟩
    · simp only [hp]
    · simp only [hp]
  · refine ⟨?_, ?_, rfl, rfl, rfl⟩
    · simp only [hp]
    · simp only [hp]

theorem assignToPrototype_cons (s : State V) (prototypeName : String) (C : ComponentType)
    (first : Component V) (others : List (ComponentType × Component V)) :
    assignToPrototype s prototypeName ((C, first) :: others)
      = if (mapFind C.family (protoRecord s prototypeName C).componentArrays).isNone then
          assignToPrototype (protoInserted s prototypeName C first) prototypeName others
        else protoOpened s prototypeName C := by
  cases others with
  | nil =>
    simp only [assignToPrototype, protoRecord, protoOpened, protoInserted]
  | cons next rest =>
    simp only [assignToPrototype, protoRecord, protoOpened, protoInserted]

theorem protoOpened_frame (s : State V) (prototypeName : String) (C : ComponentType) :
    (protoOpened s prototypeName C).mgr.objects = s.mgr.objects ∧
    (protoOpened s prototypeName C).mgr.version = s.mgr.version ∧
    (protoOpened s prototypeName C).statics.components = s.statics.components ∧
    mapFind prototypeName (protoOpened s prototypeName C).mgr.objectPrototypes
      = some (protoRecord s prototypeName C) ∧
    (protoRecord s prototypeName C).componentArrays
      = ((mapFind prototypeName s.mgr.objectPrototypes).getD Object.default).componentArrays ∧
    (protoRecord s prototypeName C).componentIndices
      = ((mapFind prototypeName s.mgr.objectPrototypes).getD
          Object.default).componentIndices := by
  obtain ⟨r1, r2, r3⟩ := registerComponent_frame s C
  obtain ⟨o1, o2, o3, o4, o5⟩ := openPrototype_frame (registerComponent s C) prototypeName
  rw [registerComponent_prototypes] at o1 o2
  refine ⟨?_, ?_, ?_, ?_, o1, o2⟩
  · simp only [protoOpened, setPrototype]
    rw [o4, r1]
  · simp only [protoOpened, setPrototype]
    rw [o5, r2]
  · simp only [protoOpened, setPrototype]
    rw [o3, r3]
  · simp only [protoOpened, setPrototype]
    exact mapFind_mapSet_self _ _ _

theorem protoInserted_frame (s : State V) (prototypeName : String) (C : ComponentType)
    (first : Component V) :
    (protoInserted s prototypeName C first).mgr.objects = s.mgr.objects ∧
    (protoInserted s prototypeName C first).mgr.version = s.mgr.version ∧
    (∀ r, (protoInserted s prototypeName C first).statics.components r
      = if r = ⟨true, C.family, s.mgr.version⟩ then
          ((s.statics.components ⟨true, C.family, s.mgr.version⟩).addItem first).2
        else s.statics.components r) ∧
    mapFind prototypeName (protoInserted s prototypeName C first).mgr.objectPrototypes
      = some (Object.mk (protoRecord s prototypeName C).objectID
          (mapSet C.family (some ⟨true, C.family, s.mgr.version⟩)
            (protoRecord s prototypeName C).componentArrays)
          (mapSet C.family (s.statics.components ⟨true, C.family, s.mgr.version⟩).nextId
            (protoRecord s prototypeName C).componentIndices)) := by
  obtain ⟨p1, p2, p3, _, _, _⟩ := protoOpened_frame s prototypeName C
  have hT : getPrototypeComponentArray (protoOpened s prototypeName C) C
      = ⟨true, C.family, s.mgr.version⟩ := by
    simp [getPrototypeComponentArray, p2]
  refine ⟨?_, ?_, ?_, ?_⟩
  · simp only [protoInserted, setPrototype, State.mgr_setArray]
    exact p1
  · simp only [protoInserted, setPrototype, State.mgr_setArray]
    exact p2
  · intro r
    simp only [protoInserted, setPrototype, hT, p3]
    by_cases hr : r = ⟨true, C.family, s.mgr.version⟩
    · subst hr
      simp only [if_true]
      exact State.components_setArray_self _ _ _
    · simp only [hr, if_false]
      rw [State.components_setArray_ne _ _ _ _ hr, p3]
  · simp only [protoInserted, setPrototype, hT, p3]
    rw [mapFind_mapSet_self]
    rfl

theorem assignToPrototype_frame (prototypeName : String)
    (l : List (ComponentType × Component V)) :
    ∀ s : State V, (assignToPrototype s prototypeName l).mgr.objects = s.mgr.objects ∧
      (assignToPrototype s prototypeName l).mgr.version = s.mgr.version ∧
      ∀ r, r.prototype = false →
        (assignToPrototype s prototypeName l).statics.components r
          = s.statics.components r := by
  induction l with
  | nil => intro s; exact ⟨rfl, rfl, fun _ _ => rfl⟩
  | cons p rest ih =>
    intro s
    obtain ⟨C, first⟩ := p
    rw [assignToPrototype_cons]
    split
    · obtain ⟨i1, i2, i3⟩ := ih (protoInserted s prototypeName C first)
      obtain ⟨q1, q2, q3, _⟩ := protoInserted_frame s prototypeName C first
      refine ⟨by rw [i1, q1], by rw [i2, q2], fun r hr => ?_⟩
      rw [i3 r hr, q3 r]
      have hne : r ≠ ⟨true, C.family, s.mgr.version⟩ := by
        intro h
        rw [h] at hr
        simp at hr
      rw [if_neg hne]
    · obtain ⟨p1, p2, p3, _⟩ := protoOpened_frame s prototypeName C
      exact ⟨p1, p2, fun r _ => by rw [p3]⟩

/-- The insert path of the typed `assignToPrototype(name, c1, ...)`: it never
changes a live object or a live-object table, and the prototype exists
afterwards.
When the prototype (a fresh record if the name is new) does not own the family
of `c1`, `c1` is appended to this manager's prototype table of its type in a
new slot, the prototype records that table and slot under the family, and the
call goes on with the remaining components. When the prototype already owns
the family of `c1`, `assignToPrototype(name, c1)` changes no table and no
entry of the prototype: the stored value is not overwritten. -/
theorem assignToPrototype_spec (s : State V) (prototypeName : String) (C : ComponentType)
    (first : Component V) (others : List (ComponentType × Component V))
    (hfresh : (s.statics.components ⟨true, C.family, s.mgr.version⟩).Fresh) :
    ((assignToPrototype s prototypeName ((C, first) :: others)).mgr.objects = s.mgr.objects ∧
      ∀ r, r.prototype = false →
        (assignToPrototype s prototypeName ((C, first) :: others)).statics.components r
          = s.statics.components r) ∧
    doesPrototypeExist (assignToPrototype s prototypeName [(C, first)]) prototypeName = true ∧
    (mapFind C.family
        ((mapFind prototypeName s.mgr.objectPrototypes).getD Object.default).componentArrays
        = none →
      assignToPrototype s prototypeName ((C, first) :: others)
        = assignToPrototype (assignToPrototype s prototypeName [(C, first)]) prototypeName
            others ∧
      ∃ proto2 idx,
        mapFind prototypeName
          (assignToPrototype s prototypeName [(C, first)]).mgr.objectPrototypes = some proto2 ∧
        mapFind C.family proto2.componentIndices = some idx ∧
        mapFind C.family proto2.componentArrays = some (some ⟨true, C.family, s.mgr.version⟩) ∧
        (s.statics.components ⟨true, C.family, s.mgr.version⟩).get? idx = none ∧
        ((assignToPrototype s prototypeName [(C, first)]).statics.components
          ⟨true, C.family, s.mgr.version⟩).get? idx = some first ∧
        ∀ f, f ≠ C.family →
          mapFind f proto2.componentIndices
            = mapFind f ((mapFind prototypeName s.mgr.objectPrototypes).getD
                Object.default).componentIndices) ∧
    (∀ proto, mapFind prototypeName s.mgr.objectPrototypes = some proto →
      (mapFind C.family proto.componentArrays).isSome = true →
      (assignToPrototype s prototypeName [(C, first)]).statics.components
        = s.statics.components ∧
      ∃ proto2,
        mapFind prototypeName
          (assignToPrototype s prototypeName [(C, first)]).mgr.objectPrototypes = some proto2 ∧
        proto2.componentArrays = proto.componentArrays ∧
        proto2.componentIndices = proto.componentIndices) := by
  obtain ⟨f1, _, f3⟩ := assignToPrototype_frame prototypeName ((C, first) :: others) s
  obtain ⟨p1, p2, p3, p4, p5, p6⟩ := protoOpened_frame s prototypeName C
  obtain ⟨q1, q2, q3, q4⟩ := protoInserted_frame s prototypeName C first
  refine ⟨⟨f1, f3⟩, ?_, ?_, ?_⟩
  · rw [assignToPrototype_cons]
    split
    · simp only [assignToPrototype, doesPrototypeExist, q4, Option.isSome_some]
    · simp only [doesPrototypeExist, p4, Option.isSome_some]
  · intro hlack
    have hl : (mapFind C.family (protoRecord s prototypeName C).componentArrays).isNone
        = true := by
      rw [p5, hlack]
      rfl
    have hsingle : assignToPrototype s prototypeName [(C, first)]
        = protoInserted s prototypeName C first := by
      rw [assignToPrototype_cons, if_pos hl]
      rfl
    refine ⟨?_, Object.mk (protoRecord s prototypeName C).objectID
        (mapSet C.family (some ⟨true, C.family, s.mgr.version⟩)
          (protoRecord s prototypeName C).componentArrays)
        (mapSet C.family (s.statics.components ⟨true, C.family, s.mgr.version⟩).nextId
          (protoRecord s prototypeName C).componentIndices),
      (s.statics.components ⟨true, C.family, s.mgr.version⟩).nextId, ?_, ?_, ?_,
      PackedArray.get?_nextId _ hfresh, ?_, ?_⟩
    · rw [hsingle, assignToPrototype_cons, if_pos hl]
    · rw [hsingle]
      exact q4
    · exact mapFind_mapSet_self _ _ _
    · exact mapFind_mapSet_self _ _ _
    · rw [hsingle, q3, if_pos rfl]
      exact PackedArray.get?_addItem_self _ _ hfresh
    · intro f hf
      simp only [mapFind_mapSet_ne _ _ _ _ hf, p6]
  · intro proto hproto hown
    exact assignToPrototype_owned_family_skips s prototypeName C first [] proto hproto hown

/-- An instance of `assignToPrototype_spec`: the prototype "Enemy" of
`examplePrototype` owns a `Position` and no `Velocity`. -/
theorem assignToPrototype_spec_witness :
    mapFind Velocity.family
      ((mapFind "Enemy" examplePrototype.mgr.objectPrototypes).getD
        Object.default).componentArrays = none ∧
    ∃ proto2 idx,
      mapFind "Enemy"
        (assignToPrototype examplePrototype "Enemy"
          [(Velocity, ⟨invalidID, "1,1"⟩)]).mgr.objectPrototypes = some proto2 ∧
      mapFind Velocity.family proto2.componentIndices = some idx ∧
      mapFind Velocity.family proto2.componentArrays
        = some (some ⟨true, Velocity.family, examplePrototype.mgr.version⟩) ∧
      (examplePrototype.statics.components
        ⟨true, Velocity.family, examplePrototype.mgr.version⟩).get? idx = none ∧
      ((assignToPrototype examplePrototype "Enemy"
          [(Velocity, ⟨invalidID, "1,1"⟩)]).statics.components
        ⟨true, Velocity.family, examplePrototype.mgr.version⟩).get? idx
        = some ⟨invalidID, "1,1"⟩ ∧
      ∀ f, f ≠ Velocity.family →
        mapFind f proto2.componentIndices
          = mapFind f ((mapFind "Enemy" examplePrototype.mgr.objectPrototypes).getD
              Object.default).componentIndices :=
  ⟨by decide,
    ((assignToPrototype_spec examplePrototype "Enemy" Velocity ⟨invalidID, "1,1"⟩ []
      (by decide)).2.2.1 (by decide)).2⟩

/-- The typed overload does not overwrite: the prototype "Enemy" of
`examplePrototype` owns a `Position` with payload "1,2"; after
`assignToPrototype("Enemy", Position "9,9")` the stored payload is still
"1,2". -/
theorem assignToPrototype_no_overwrite_counterexample :
    (mapFind "Enemy" examplePrototype.mgr.objectPrototypes
        = some ⟨0, [(0, some ⟨true, 0, 0⟩)], [(0, 0)]⟩ ∧
      (examplePrototype.statics.components ⟨true, 0, 0⟩).get? 0 = some ⟨invalidID, "1,2"⟩) ∧
    mapFind "Enemy"
        (assignToPrototype examplePrototype "Enemy"
          [(Position, ⟨invalidID, "9,9"⟩)]).mgr.objectPrototypes
      = some ⟨0, [(0, some ⟨true, 0, 0⟩)], [(0, 0)]⟩ ∧
    ((assignToPrototype examplePrototype "Enemy"
        [(Position, ⟨invalidID, "9,9"⟩)]).statics.components ⟨true, 0, 0⟩).get? 0
      = some ⟨invalidID, "1,2"⟩ ∧
    ((assignToPrototype examplePrototype "Enemy"
        [(Position, ⟨invalidID, "9,9"⟩)]).statics.components ⟨true, 0, 0⟩).get? 0
      ≠ some ⟨invalidID, "9,9"⟩ :=
  ⟨⟨by decide, by decide⟩, by decide, by decide, by decide⟩

/-- C20 (the code at a failing input): two managers alive at the same time,
the first (version 0) registered `Position` before the second (version 1) was
constructed. The second manager's `assign(0, "pos", "3,4")` returns 1 and the
component lands in the first manager's `Position` table: the first manager's
`getTotalComponents<Position>()` goes from 0 to 1, the second manager's stays
0 and its `getComponent<Position>(0)` points at a slot that is not live. -/
theorem second_manager_assign_changes_first :
    exampleBase.mgr.version = 0 ∧ exampleSecond.mgr.version = 1 ∧
    assignString exampleOps exampleSecond 0 [("pos", "3,4")]
      = .ok (1, exampleSecondAssigned) ∧
    getTotalComponents (State.mk exampleSecond.statics exampleBase.mgr) Position = 0 ∧
    getTotalComponents (State.mk exampleSecondAssigned.statics exampleBase.mgr) Position = 1 ∧
    getTotalComponents exampleSecondAssigned Position = 0 ∧
    hasComponents exampleSecondAssigned [Position] 0 = true ∧
    (getComponent exampleSecondAssigned Position 0).bind (deref exampleSecondAssigned) = none :=
  ⟨by decide, by decide, rfl, by decide, by decide, by decide, by decide, by decide⟩

end PrototypeAssign

section ExampleStates

theorem exampleTwo_tables (r : ArrayRef) (h0 : r ≠ ⟨false, 0, 0⟩) (h1 : r ≠ ⟨false, 1, 0⟩) :
    exampleTwo.statics.components r = PackedArray.empty := by
  show (if r = ⟨false, 0, 0⟩ then _ else if r = ⟨false, 1, 0⟩ then _ else _) = _
  simp only [h0, h1, if_false]
  rfl

theorem exampleTwo_distinct : ∀ r, (exampleTwo.statics.components r).Distinct := by
  intro r
  by_cases h0 : r = ⟨false, 0, 0⟩
  · subst h0; decide
  · by_cases h1 : r = ⟨false, 1, 0⟩
    · subst h1; decide
    · rw [exampleTwo_tables r h0 h1]
      decide

theorem exampleTwo_fresh : ∀ r, (exampleTwo.statics.components r).Fresh := by
  intro r
  by_cases h0 : r = ⟨false, 0, 0⟩
  · subst h0; decide
  · by_cases h1 : r = ⟨false, 1, 0⟩
    · subst h1; decide
    · rw [exampleTwo_tables r h0 h1]
      decide

theorem examplePrototype_tables (r : ArrayRef) (h0 : r ≠ ⟨true, 0, 0⟩) :
    examplePrototype.statics.components r = PackedArray.empty := by
  show (if r = ⟨true, 0, 0⟩ then _ else _) = _
  simp only [h0, if_false]
  rfl

theorem examplePrototype_fresh : ∀ r, (examplePrototype.statics.components r).Fresh := by
  intro r
  by_cases h0 : r = ⟨true, 0, 0⟩
  · subst h0; decide
  · rw [examplePrototype_tables r h0]
    decide

theorem exampleThree_tables (r : ArrayRef) (h0 : r ≠ ⟨false, 0, 0⟩) (h1 : r ≠ ⟨false, 1, 0⟩) :
    exampleThree.statics.components r = PackedArray.empty := by
  show (if r = ⟨false, 1, 0⟩ then _ else if r = ⟨false, 1, 0⟩ then _
    else if r = ⟨false, 0, 0⟩ then _ else if r = ⟨false, 0, 0⟩ then _ else _) = _
  simp only [h0, h1, if_false]
  rfl

theorem exampleThree_owned : OwnedTables exampleThree where
  objectsDistinct := by decide
  tablesDistinct := exampleThree_distinct
  pointersNonNull := by decide
  owned := by
    intro r _ _
    by_cases h0 : r = ⟨false, 0, 0⟩
    · subst h0; decide
    · by_cases h1 : r = ⟨false, 1, 0⟩
      · subst h1; decide
      · rw [exampleThree_tables r h0 h1]
        intro e he
        exact absurd he (List.not_mem_nil e)

/-- Witness for C15: draining the three objects of `exampleThree`. -/
theorem destroyAllObjects_empties_witness :
    getTotalObjects exampleThree = 3 ∧ getTotalComponents exampleThree Position = 2 ∧
    ∃ s2, destroyAllObjects (exampleThree.mgr.objects.size + 1 + 0) exampleThree = .ok s2 ∧
      getTotalObjects s2 = 0 ∧
      ∀ C : ComponentType, getTotalComponents s2 C = 0 :=
  ⟨by decide, by decide, destroyAllObjects_empties exampleThree 0 exampleThree_owned⟩

/-- An instance of `createObjectFromPrototype_spec`: creating an object from
the prototype "Enemy" of `examplePrototype`. -/
theorem createObjectFromPrototype_spec_witness :
    mapFind "Enemy" examplePrototype.mgr.objectPrototypes
      = some ⟨0, [(0, some ⟨true, 0, 0⟩)], [(0, 0)]⟩ ∧
    (examplePrototype.statics.components ⟨true, 0, 0⟩).get? 0 = some ⟨invalidID, "1,2"⟩ ∧
    ∃ id s2 obj, createObjectFromPrototype examplePrototype "Enemy" = .ok (id, s2) ∧
      s2.mgr.objects.get? id = some obj ∧
      getTotalObjects s2 = getTotalObjects examplePrototype + 1 ∧
      (∀ f, (mapFind f obj.componentIndices).isSome = true ↔ f ∈ [Position.family]) ∧
      (∃ idx2, getComponent s2 Position id = some ⟨⟨false, 0, s2.mgr.version⟩, idx2⟩ ∧
        deref s2 ⟨⟨false, 0, s2.mgr.version⟩, idx2⟩ = some ⟨id, "1,2"⟩ ∧
        (s2.statics.components ⟨true, 0, 0⟩).get? 0 = some ⟨invalidID, "1,2"⟩) ∧
      s2.mgr.objectPrototypes = examplePrototype.mgr.objectPrototypes := by
  refine ⟨by decide, by decide, ?_⟩
  obtain ⟨id, s2, obj, h1, _, h3, _, h5, h6, h7, h8, _⟩ :=
    createObjectFromPrototype_spec examplePrototype "Enemy"
      ⟨0, [(0, some ⟨true, 0, 0⟩)], [(0, 0)]⟩ (by decide) (by decide) examplePrototype_fresh
      (by decide) (by decide)
      (fun q hq => by
        rw [List.mem_singleton] at hq
        subst hq
        exact ⟨⟨true, 0, 0⟩, 0, ⟨invalidID, "1,2"⟩, rfl, by decide, by decide⟩)
  obtain ⟨idx2, k1, k2, _, k4⟩ := h7 Position ⟨true, 0, 0⟩ 0 ⟨invalidID, "1,2"⟩
    (by decide) (by decide) (by decide)
  exact ⟨id, s2, obj, h1, h3, h5, h6, ⟨idx2, k1, k2, k4⟩, h8⟩

/-- Witness for C11: in `exampleTwo`, object 0 (a `Velocity`) receives a copy
of object 1 (a `Position` with payload "1,2") and its copy is then overwritten
with "9,9". -/
theorem copyObject_isolated_witness :
    exampleTwo.mgr.objects.get? 0 = some ⟨0, [(1, some ⟨false, 1, 0⟩)], [(1, 0)]⟩ ∧
    exampleTwo.mgr.objects.get? 1 = some exampleSource ∧
    ∃ s2 idx2, copyObject exampleTwo 0 exampleSource = .ok s2 ∧
      getComponent s2 Position 0 = some ⟨getComponentArray s2 Position, idx2⟩ ∧
      ¬ (getComponentArray s2 Position = ⟨false, 0, 0⟩ ∧ idx2 = 0) ∧
      deref s2 ⟨getComponentArray s2 Position, idx2⟩ = some ⟨0, "1,2"⟩ ∧
      deref s2 ⟨⟨false, 0, 0⟩, 0⟩ = some ⟨1, "1,2"⟩ ∧
      ∃ s3, assign (0 + 1) s2 0 [(Position, ⟨0, "9,9"⟩)] = .ok (0, s3) ∧
        deref s3 ⟨getComponentArray s3 Position, idx2⟩ = some ⟨0, "9,9"⟩ ∧
        deref s3 ⟨⟨false, 0, 0⟩, 0⟩ = some ⟨1, "1,2"⟩ :=
  ⟨by decide, by decide,
    copyObject_isolated exampleTwo 0 exampleSource ⟨0, [(1, some ⟨false, 1, 0⟩)], [(1, 0)]⟩
      Position ⟨false, 0, 0⟩ 0 ⟨1, "1,2"⟩ ⟨0, "9,9"⟩ 0
      (by decide) (by decide) exampleTwo_distinct exampleTwo_fresh (by decide)
      (fun q hq => by
        rw [exampleSource, List.mem_singleton] at hq
        subst hq
        exact ⟨⟨false, 0, 0⟩, by decide⟩)
      (fun q hq => by
        rw [exampleSource, List.mem_singleton] at hq
        subst hq
        exact ⟨⟨false, 0, 0⟩, 0, ⟨1, "1,2"⟩, rfl, by decide, by decide⟩)
      (by decide) (by decide) (by decide) (by decide) (by decide)⟩

end ExampleStates

section Serialization

variable {V : Type}

/-- What the sources fix about `serializeObject` and `deSerializeObject`: on an
id that is not live the first returns the empty vector and the second changes
nothing; on a live id both hand the object to the member of `Object`. -/
theorem serialization_guards (ser : Statics V → Object → List String)
    (de : Statics V → Object → List (Family × String) → Except Fault (Statics V × Object))
    (s : State V) (objectID : ID) (objectArgs : List (Family × String)) :
    (s.mgr.objects.isValid objectID = false →
      serializeObject ser s objectID = [] ∧
      deSerializeObject de s objectID objectArgs = .ok s) ∧
    (∀ obj, s.mgr.objects.get? objectID = some obj →
      serializeObject ser s objectID = ser s.statics obj) := by
  constructor
  · intro h
    have hnone : s.mgr.objects.get? objectID = none := by
      simpa [PackedArray.isValid] using h
    simp only [serializeObject, deSerializeObject, hnone]
    exact ⟨trivial, trivial⟩
  · intro obj h
    simp only [serializeObject, h]

end Serialization

section Binding

variable {V : Type}

theorem bindStringToComponent_lookup (s : State V) (C : ComponentType) (compName n : String) :
    mapFind n (bindStringToComponent s C compName).statics.stringToCompFamily
      = match mapFind n s.statics.stringToCompFamily with
        | some f => some f
        | none => if compName = n then some C.family else none := by
  unfold bindStringToComponent
  cases hb : mapFind compName s.statics.stringToCompFamily with
  | some g =>
    simp only [Option.isNone_some, Bool.false_eq_true, if_false]
    cases hn : mapFind n s.statics.stringToCompFamily with
    | some f => rfl
    | none =>
      have hne : compName ≠ n := by
        intro h
        rw [h, hn] at hb
        exact absurd hb (by simp)
      simp only [hne, if_false]
  | none =>
    simp only [Option.isNone_none, if_true]
    by_cases h : compName = n
    · subst h
      rw [mapFind_mapSet_self, hb]
      simp
    · rw [mapFind_mapSet_ne _ _ _ _ (fun e => h e.symm)]
      cases hn : mapFind n s.statics.stringToCompFamily with
      | some f => rfl
      | none => simp only [h, if_false]

theorem bindAll_lookup (calls : List (ComponentType × String)) :
    ∀ (s : State V) (n : String),
      mapFind n (bindAll s calls).statics.stringToCompFamily
        = match mapFind n s.statics.stringToCompFamily with
          | some f => some f
          | none => (calls.find? (fun c => decide (c.2 = n))).map (fun c => c.1.family) := by
  induction calls with
  | nil =>
    intro s n
    simp only [bindAll, List.find?_nil, Option.map_none']
    cases mapFind n s.statics.stringToCompFamily <;> rfl
  | cons c rest ih =>
    intro s n
    obtain ⟨C, compName⟩ := c
    simp only [bindAll]
    rw [ih, bindStringToComponent_lookup]
    cases hn : mapFind n s.statics.stringToCompFamily with
    | some f => rfl
    | none =>
      by_cases h : compName = n
      · simp [h]
      · simp [h]

/-- C22: `bindStringToComponent<C>(name)` binds an unbound name to the family
of `C` and leaves every other binding, and everything else in the state, as it
was; on a name that is already bound it changes nothing at all. After a
sequence of bind calls a name that was bound before keeps its family, and a
name that was not is bound to the family of the first call of the sequence
that names it (and stays unbound when no call names it). -/
theorem bindStringToComponent_first_wins (s : State V) (C : ComponentType)
    (compName : String) (calls : List (ComponentType × String)) :
    (mapFind compName s.statics.stringToCompFamily = none →
      mapFind compName (bindStringToComponent s C compName).statics.stringToCompFamily
        = some C.family) ∧
    (∀ n, n ≠ compName →
      mapFind n (bindStringToComponent s C compName).statics.stringToCompFamily
        = mapFind n s.statics.stringToCompFamily) ∧
    ((mapFind compName s.statics.stringToCompFamily).isSome = true →
      bindStringToComponent s C compName = s) ∧
    ((bindStringToComponent s C compName).mgr = s.mgr ∧
      (bindStringToComponent s C compName).statics.compFamilyToCompArray
        = s.statics.compFamilyToCompArray ∧
      (bindStringToComponent s C compName).statics.components = s.statics.components) ∧
    ∀ n, mapFind n (bindAll s calls).statics.stringToCompFamily
      = match mapFind n s.statics.stringToCompFamily with
        | some f => some f
        | none => (calls.find? (fun c => decide (c.2 = n))).map (fun c => c.1.family) := by
  refine ⟨?_, ?_, ?_, ?_, bindAll_lookup calls s⟩
  · intro h
    rw [bindStringToComponent_lookup, h]
    simp
  · intro n hn
    rw [bindStringToComponent_lookup]
    cases h : mapFind n s.statics.stringToCompFamily with
    | some f => rfl
    | none =>
      have hne : ¬ compName = n := fun e => hn e.symm
      simp [hne]
  · intro h
    unfold bindStringToComponent
    cases hb : mapFind compName s.statics.stringToCompFamily with
    | some g => simp
    | none => rw [hb] at h; exact absurd h (by simp)
  · unfold bindStringToComponent
    split <;> exact ⟨rfl, rfl, rfl⟩

end Binding

section AssignTermination

variable {V : Type}

theorem assign_missing_family_outOfFuel (s : State V) (objectID : ID) (C : ComponentType)
    (c : Component V) (hvalid : s.mgr.objects.isValid objectID = true)
    (hlacks : hasComponents s [C] objectID = false) :
    ∀ (fuel : Nat) (others : List (ComponentType × Component V)),
      assign fuel s objectID ((C, c) :: others) = .error .outOfFuel := by
  intro fuel
  induction fuel with
  | zero => intro others; rfl
  | succ n ih =>
    intro others
    simp only [assign, hvalid, hlacks, if_true, Bool.not_false, ih []]

/-- C23 (the code at the failing inputs): on a valid object id whose object
does not own the family of `c1`, the call `assign(id, c1)` of depth `n + 1` is
the call `assign(id, c1)` of depth `n` on the same state with the same
arguments (hpp 360), so nothing decreases along the recursion, and
`assign(id, c1, ...)` returns for no call depth. -/
theorem assign_recursion_not_well_founded (s : State V) (objectID : ID) (C : ComponentType)
    (c : Component V) (others : List (ComponentType × Component V))
    (hvalid : s.mgr.objects.isValid objectID = true)
    (hlacks : hasComponents s [C] objectID = false) :
    (∀ fuel, assign (fuel + 1) s objectID [(C, c)] = assign fuel s objectID [(C, c)]) ∧
    ¬ ∃ fuel r, assign fuel s objectID ((C, c) :: others) = .ok r := by
  constructor
  · intro fuel
    rw [assign_missing_family_outOfFuel s objectID C c hvalid hlacks,
      assign_missing_family_outOfFuel s objectID C c hvalid hlacks]
  · rintro ⟨fuel, r, h⟩
    rw [assign_missing_family_outOfFuel s objectID C c hvalid hlacks] at h
    exact absurd h (by simp)

/-- Witness for C23: object 0 of `exampleOne` is live and owns no `Position`. -/
theorem assign_recursion_not_well_founded_witness :
    (exampleOne.mgr.objects.isValid 0 = true ∧ hasComponents exampleOne [Position] 0 = false) ∧
    (∀ fuel, assign (fuel + 1) exampleOne 0 [(Position, ⟨0, "0,0"⟩)]
      = assign fuel exampleOne 0 [(Position, ⟨0, "0,0"⟩)]) ∧
    ¬ ∃ fuel r, assign fuel exampleOne 0 [(Position, ⟨0, "0,0"⟩), (Velocity, ⟨0, "1,1"⟩)]
      = .ok r :=
  ⟨⟨by decide, by decide⟩,
    assign_recursion_not_well_founded exampleOne 0 Position ⟨0, "0,0"⟩
      [(Velocity, ⟨0, "1,1"⟩)] (by decide) (by decide)⟩

end AssignTermination

section Consistency

theorem examplePos_tables (r : ArrayRef) (h0 : r ≠ ⟨false, 0, 0⟩) :
    examplePos.statics.components r = PackedArray.empty := by
  show (if r = ⟨false, 0, 0⟩ then _ else _) = _
  simp only [h0, if_false]
  rfl

theorem examplePos_consistent : Consistent examplePos where
  noDangling := by decide
  noOrphans := by
    intro r _ _
    by_cases h0 : r = ⟨false, 0, 0⟩
    · subst h0; decide
    · rw [examplePos_tables r h0]
      intro e he
      exact absurd he (List.not_mem_nil e)

/-- C24 (the code at a failing input): `examplePos` is consistent (object 0
records slot 0 of the `Position` table, which holds a component owned by 0,
and no table element lacks an owner); `removeAll(0)` returns 1 and empties the
table, but object 0 still records family 0 with index 0, which is no longer a
live slot: the invariant does not hold in the state the call returns. -/
theorem removeAll_breaks_consistency :
    Consistent examplePos ∧
    removeAllComponents examplePos 0 = .ok (1, exampleRemoved) ∧
    exampleRemoved.mgr.objects.get? 0 = some ⟨0, [(0, some ⟨false, 0, 0⟩)], [(0, 0)]⟩ ∧
    (exampleRemoved.statics.components ⟨false, 0, exampleRemoved.mgr.version⟩).get? 0 = none ∧
    ¬ NoDangling exampleRemoved ∧
    ¬ Consistent exampleRemoved :=
  ⟨examplePos_consistent, rfl, by decide, by decide, by decide,
    fun h => absurd h.noDangling (by decide)⟩

end Consistency

section Versions

variable {V : Type}

theorem perm_cons_eraseIdx {α : Type} (l : List α) :
    ∀ (i : Nat) (a : α), l.get? i = some a → l.Perm (a :: l.eraseIdx i) := by
  induction l with
  | nil => intro i a h; simp at h
  | cons x rest ih =>
    intro i a h
    cases i with
    | zero =>
      simp only [List.get?_cons_zero, Option.some.injEq] at h
      subst h
      exact List.Perm.refl _
    | succ j =>
      simp only [List.get?_cons_succ] at h
      simp only [List.eraseIdx_cons_succ]
      exact ((ih j a h).cons x).trans (List.Perm.swap a x _)

/-- The invariant of the version bookkeeping: the tags in use are pairwise
distinct and below the counter, and the counter is at most `n`. -/
theorem World.step_versions (w : World V) (e : LifeEvent) (n : Nat)
    (hnodup : w.versions.Nodup) (hbelow : ∀ v ∈ w.versions, v < w.statics.versionCounter)
    (hcount : w.statics.versionCounter ≤ n) (hbound : n + 1 < 2 ^ idBits) :
    (w.step e).versions.Nodup ∧
    (∀ v ∈ (w.step e).versions, v < (w.step e).statics.versionCounter) ∧
    (w.step e).statics.versionCounter ≤ n + 1 := by
  cases e with
  | create =>
    cases hq : w.statics.availableVersions with
    | nil =>
      have hmod : (w.statics.versionCounter + 1) % 2 ^ idBits = w.statics.versionCounter + 1 :=
        Nat.mod_eq_of_lt (Nat.lt_of_le_of_lt (Nat.succ_le_succ hcount) hbound)
      have hv : (w.step .create).versions = w.versions ++ [w.statics.versionCounter] := by
        simp only [World.step, World.versions, construct, hq, List.map_append, List.map_cons,
          List.map_nil, List.append_nil]
      have hc : (w.step .create).statics.versionCounter = w.statics.versionCounter + 1 := by
        simp only [World.step, construct, hq, hmod]
      rw [hv, hc]
      refine ⟨?_, ?_, Nat.succ_le_succ hcount⟩
      · rw [List.nodup_append]
        refine ⟨hnodup, List.nodup_singleton _, ?_⟩
        intro a ha hb
        rw [List.mem_singleton] at hb
        have hlt := hbelow a ha
        rw [hb] at hlt
        exact Nat.lt_irrefl _ hlt
      · intro v hv2
        rw [List.mem_append, List.mem_singleton] at hv2
        rcases hv2 with h | h
        · exact Nat.lt_succ_of_lt (hbelow v h)
        · rw [h]
          exact Nat.lt_succ_self _
    | cons v rest =>
      have hv : (w.step .create).versions = w.versions := by
        simp only [World.step, World.versions, construct, hq, List.map_append, List.map_cons,
          List.map_nil, List.append_assoc, List.singleton_append]
      have hc : (w.step .create).statics.versionCounter = w.statics.versionCounter := by
        simp only [World.step, construct, hq]
      rw [hv, hc]
      exact ⟨hnodup, hbelow, Nat.le_succ_of_le hcount⟩
  | destroy position =>
    cases hm : w.live.get? position with
    | none =>
      have hs : w.step (.destroy position) = w := by
        simp only [World.step, hm]
      rw [hs]
      exact ⟨hnodup, hbelow, Nat.le_succ_of_le hcount⟩
    | some m =>
      have hv : (w.step (.destroy position)).versions.Perm w.versions := by
        have h1 : (w.step (.destroy position)).versions
            = (w.live.eraseIdx position).map (fun m => m.version)
              ++ (w.statics.availableVersions ++ [m.version]) := by
          simp only [World.step, World.versions, destruct, hm]
        rw [h1]
        have h2 := (perm_cons_eraseIdx w.live position m hm).map (fun m => m.version)
        simp only [List.map_cons] at h2
        have h3 : ((w.live.eraseIdx position).map (fun m => m.version)
              ++ (w.statics.availableVersions ++ [m.version])).Perm
            ((m.version :: (w.live.eraseIdx position).map (fun m => m.version))
              ++ w.statics.availableVersions) := by
          rw [← List.append_assoc]
          refine (List.perm_append_comm).trans ?_
          simp only [List.singleton_append, List.cons_append]
          exact List.Perm.refl _
        exact h3.trans (h2.symm.append_right _)
      have hc : (w.step (.destroy position)).statics.versionCounter
          = w.statics.versionCounter := by
        simp only [World.step, destruct, hm]
      rw [hc]
      refine ⟨hv.nodup_iff.mpr hnodup, ?_, Nat.le_succ_of_le hcount⟩
      intro v hv2
      exact hbelow v (hv.mem_iff.mp hv2)

theorem World.run_versions (events : List LifeEvent) :
    ∀ (w : World V) (n : Nat), w.versions.Nodup →
      (∀ v ∈ w.versions, v < w.statics.versionCounter) →
      w.statics.versionCounter ≤ n → n + events.length < 2 ^ idBits →
      (w.run events).versions.Nodup ∧
      ∀ v ∈ (w.run events).versions, v < (w.run events).statics.versionCounter := by
  induction events with
  | nil => intro w n h1 h2 _ _; exact ⟨h1, h2⟩
  | cons e rest ih =>
    intro w n h1 h2 h3 h4
    simp only [List.length_cons] at h4
    obtain ⟨k1, k2, k3⟩ := World.step_versions w e n h1 h2 h3 (by omega)
    exact ih (w.step e) (n + 1) k1 k2 k3 (by omega)

/-- C25: after any sequence of constructions and destructions from the
initial statics, shorter than `2 ^ idBits`, two managers alive at the same
time carry different version tags; the tags of the live managers are distinct,
the queue of released versions holds no duplicate and none of the live tags,
and all of them are below `versionCounter`. -/
theorem live_versions_distinct (events : List LifeEvent)
    (hbound : events.length < 2 ^ idBits) :
    (∀ i j m1 m2, (World.run (World.initial : World V) events).live.get? i = some m1 →
      (World.run (World.initial : World V) events).live.get? j = some m2 → i ≠ j →
      m1.version ≠ m2.version) ∧
    ((World.run (World.initial : World V) events).live.map (fun m => m.version)).Nodup ∧
    (World.run (World.initial : World V) events).statics.availableVersions.Nodup ∧
    (∀ m ∈ (World.run (World.initial : World V) events).live,
      m.version ∉ (World.run (World.initial : World V) events).statics.availableVersions) ∧
    (∀ m ∈ (World.run (World.initial : World V) events).live,
      m.version < (World.run (World.initial : World V) events).statics.versionCounter) ∧
    (∀ v ∈ (World.run (World.initial : World V) events).statics.availableVersions,
      v < (World.run (World.initial : World V) events).statics.versionCounter) := by
  obtain ⟨h1, h2⟩ := World.run_versions events (World.initial : World V) 0
    (by simp [World.versions, World.initial, Statics.initial])
    (by simp [World.versions, World.initial, Statics.initial])
    (by simp [World.initial, Statics.initial]) (by omega)
  simp only [World.versions] at h1 h2
  rw [List.nodup_append] at h1
  obtain ⟨n1, n2, n3⟩ := h1
  refine ⟨?_, n1, n2, ?_, ?_, ?_⟩
  · intro i j m1 m2 hi hj hij heq
    have e1 : ((World.run (World.initial : World V) events).live.map
        (fun m => m.version)).get? i = some m1.version := by
      rw [List.get?_eq_getElem?, List.getElem?_map, ← List.get?_eq_getElem?, hi]
      rfl
    have e2 : ((World.run (World.initial : World V) events).live.map
        (fun m => m.version)).get? j = some m1.version := by
      rw [List.get?_eq_getElem?, List.getElem?_map, ← List.get?_eq_getElem?, hj, heq]
      rfl
    rcases Nat.lt_or_gt_of_ne hij with hlt | hlt
    · have hj2 : j < ((World.run (World.initial : World V) events).live.map
          (fun m => m.version)).length := by
        rw [List.length_map]
        exact List.get?_eq_some.mp hj |>.1
      exact List.nodup_iff_get?_ne_get?.mp n1 i j hlt hj2 (e1.trans e2.symm)
    · have hi2 : i < ((World.run (World.initial : World V) events).live.map
          (fun m => m.version)).length := by
        rw [List.length_map]
        exact List.get?_eq_some.mp hi |>.1
      exact List.nodup_iff_get?_ne_get?.mp n1 j i hlt hi2 (e2.trans e1.symm)
  · intro m hm hq
    exact n3 (List.mem_map_of_mem _ hm) hq
  · intro m hm
    exact h2 _ (List.mem_append_left _ (List.mem_map_of_mem _ hm))
  · intro v hv
    exact h2 _ (List.mem_append_right _ hv)

/-- Witness for C25: two constructions, the destruction of the first manager,
a third construction (which takes the released tag 0), and a fourth. -/
theorem live_versions_distinct_witness :
    (World.run (World.initial : World String)
        [.create, .create, .destroy 0, .create, .create]).live.map (fun m => m.version)
      = [1, 0, 2] ∧
    ((World.run (World.initial : World String)
        [.create, .create, .destroy 0, .create, .create]).live.map
      (fun m => m.version)).Nodup ∧
    ∀ m ∈ (World.run (World.initial : World String)
        [.create, .create, .destroy 0, .create, .create]).live,
      m.version < (World.run (World.initial : World String)
        [.create, .create, .destroy 0, .create, .create]).statics.versionCounter :=
  ⟨by decide,
    (live_versions_distinct [.create, .create, .destroy 0, .create, .create]
      (by decide)).2.1,
    (live_versions_distinct [.create, .create, .destroy 0, .create, .create]
      (by decide)).2.2.2.2.1⟩

end Versions

section PrototypeQuery

variable {V : Type}

theorem hasComponentsPrototype_missing (s : State V) (families : List ComponentType)
    (prototypeName : String) (hmissing : doesPrototypeExist s prototypeName = false) :
    hasComponentsPrototype s families prototypeName
      = (families.isEmpty, State.mk s.statics { s.mgr with
          objectPrototypes := mapSet prototypeName Object.default s.mgr.objectPrototypes }) := by
  have hnone : mapFind prototypeName s.mgr.objectPrototypes = none := by
    simpa [doesPrototypeExist] using hmissing
  have hix : mapIndex prototypeName Object.default s.mgr.objectPrototypes
      = (Object.default, mapSet prototypeName Object.default s.mgr.objectPrototypes) := by
    simp [mapIndex, hnone]
  cases families with
  | nil => simp only [hasComponentsPrototype, hix, List.isEmpty_nil]
  | cons C args =>
    simp only [hasComponentsPrototype, hix]
    simp [Object.default, mapFind]

theorem copyObject_default_into_new (t : State V) (hfo : t.mgr.objects.Fresh) :
    copyObject (createObject t).2 (createObject t).1 Object.default
      = .ok (createObject t).2 := by
  obtain ⟨_, _, c3, _⟩ := createObject_spec t hfo
  have hvalid : (createObject t).2.mgr.objects.isValid (createObject t).1 = true := by
    simp [PackedArray.isValid, c3]
  have hclear : removeAllComponents (createObject t).2 (createObject t).1
      = .ok (0, (createObject t).2) := by
    simp only [removeAllComponents, c3, removeAllComponentsLoop]
  simp only [copyObject, hvalid, if_true, hclear]
  rfl

/-- C26: for a name without a prototype, `hasComponentsPrototype<Families...>`
returns false for a non-empty family list and true for the empty one, and in
both cases leaves a default record (id `ID(-1)`, no components) under the name
and nothing else changed; `doesPrototypeExist(name)` is true afterwards and a
following `createObject(name)` returns the id of a new, valid, empty object,
`getTotalObjects()` growing by 1. -/
theorem hasComponentsPrototype_inserts_record (s : State V) (families : List ComponentType)
    (prototypeName : String) (hmissing : doesPrototypeExist s prototypeName = false)
    (hfo : s.mgr.objects.Fresh) :
    (hasComponentsPrototype s families prototypeName).1 = families.isEmpty ∧
    ((hasComponentsPrototype s families prototypeName).2.statics = s.statics ∧
      (hasComponentsPrototype s families prototypeName).2.mgr.objects = s.mgr.objects ∧
      ∀ n, n ≠ prototypeName →
        mapFind n (hasComponentsPrototype s families prototypeName).2.mgr.objectPrototypes
          = mapFind n s.mgr.objectPrototypes) ∧
    mapFind prototypeName
        (hasComponentsPrototype s families prototypeName).2.mgr.objectPrototypes
      = some ⟨invalidID, [], []⟩ ∧
    doesPrototypeExist (hasComponentsPrototype s families prototypeName).2 prototypeName
      = true ∧
    ∃ id s3, createObjectFromPrototype (hasComponentsPrototype s families prototypeName).2
        prototypeName = .ok (id, s3) ∧
      s.mgr.objects.isValid id = false ∧
      s3.mgr.objects.get? id = some ⟨id, [], []⟩ ∧
      getTotalObjects s3 = getTotalObjects s + 1 ∧
      s3.statics = s.statics := by
  rw [hasComponentsPrototype_missing s families prototypeName hmissing]
  have hfind : mapFind prototypeName
      (mapSet prototypeName Object.default s.mgr.objectPrototypes) = some Object.default :=
    mapFind_mapSet_self _ _ _
  refine ⟨rfl, ⟨rfl, rfl, fun n hn => mapFind_mapSet_ne _ _ _ _ hn⟩, hfind, ?_, ?_⟩
  · simp only [doesPrototypeExist, hfind, Option.isSome_some]
  · obtain ⟨c1, c2, c3, _, c5, c6, _, _⟩ := createObject_spec
      (State.mk s.statics { s.mgr with
        objectPrototypes := mapSet prototypeName Object.default s.mgr.objectPrototypes }) hfo
    refine ⟨_, _, ?_, ?_, c3, c5, c6⟩
    · simp only [createObjectFromPrototype, doesPrototypeExist, hfind, Option.isSome_some,
        if_true, mapIndex_of_some _ _ _ _ hfind]
      have hcopy := copyObject_default_into_new (State.mk s.statics { s.mgr with
        objectPrototypes := mapSet prototypeName Object.default s.mgr.objectPrototypes }) hfo
      rw [hcopy]
    · simp only [PackedArray.isValid]
      rw [c2]
      rfl

/-- Witness for C26: `exampleOne` has no prototype named "Enemy". -/
theorem hasComponentsPrototype_inserts_record_witness :
    (doesPrototypeExist exampleOne "Enemy" = false ∧ exampleOne.mgr.objects.Fresh) ∧
    (hasComponentsPrototype exampleOne [Position] "Enemy").1 = false ∧
    doesPrototypeExist (hasComponentsPrototype exampleOne [Position] "Enemy").2 "Enemy"
      = true ∧
    ∃ id s3, createObjectFromPrototype
        (hasComponentsPrototype exampleOne [Position] "Enemy").2 "Enemy" = .ok (id, s3) ∧
      exampleOne.mgr.objects.isValid id = false ∧
      s3.mgr.objects.get? id = some ⟨id, [], []⟩ ∧
      getTotalObjects s3 = getTotalObjects exampleOne + 1 ∧
      s3.statics = exampleOne.statics :=
  ⟨⟨by decide, by decide⟩,
    (hasComponentsPrototype_inserts_record exampleOne [Position] "Enemy" (by decide)
      (by decide)).1,
    (hasComponentsPrototype_inserts_record exampleOne [Position] "Enemy" (by decide)
      (by decide)).2.2.2⟩

end PrototypeQuery

section PrototypeIdentity

variable {V : Type}

theorem assignFromStringFirst_ids (ops : ComponentOps V) (g g1 : Statics V) (obj obj1 : Object)
    (cfa : List (Family × Option ArrayRef)) (n v : String) (k : ID)
    (h : assignFromStringFirst ops g obj cfa n v = .ok (k, g1, obj1)) :
    g1.prototypeIDCounter = g.prototypeIDCounter ∧ obj1.objectID = obj.objectID := by
  unfold assignFromStringFirst at h
  split at h
  · split at h
    · split at h
      · injection h with h
        injection h with _ h
        injection h with h1 h2
        rw [← h1, ← h2]
        exact ⟨rfl, rfl⟩
      · exact absurd h (by simp)
    · dsimp only at h
      split at h
      · injection h with h
        injection h with _ h
        injection h with h1 h2
        rw [← h1, ← h2]
        exact ⟨rfl, rfl⟩
      · exact absurd h (by simp)
    · exact absurd h (by simp)
  · injection h with h
    injection h with _ h
    injection h with h1 h2
    rw [← h1, ← h2]
    exact ⟨rfl, rfl⟩

theorem assignFromString_ids (ops : ComponentOps V) (cfa : List (Family × Option ArrayRef))
    (others : List (String × String)) :
    ∀ (g g1 : Statics V) (obj obj1 : Object) (n v : String) (k : ID),
      assignFromString ops cfa g obj n v others = .ok (k, g1, obj1) →
      g1.prototypeIDCounter = g.prototypeIDCounter ∧ obj1.objectID = obj.objectID := by
  induction others with
  | nil =>
    intro g g1 obj obj1 n v k h
    simp only [assignFromString] at h
    exact assignFromStringFirst_ids ops g g1 obj obj1 cfa n v k h
  | cons p rest ih =>
    intro g g1 obj obj1 n v k h
    obtain ⟨n2, v2⟩ := p
    simp only [assignFromString] at h
    cases h1 : assignFromStringFirst ops g obj cfa n v with
    | error e =>
      rw [h1] at h
      exact absurd h (by simp)
    | ok r =>
      obtain ⟨k1, ga, obja⟩ := r
      rw [h1] at h
      dsimp only at h
      cases h2 : assignFromString ops cfa ga obja n2 v2 rest with
      | error e =>
        rw [h2] at h
        exact absurd h (by simp)
      | ok r2 =>
        obtain ⟨k2, gb, objb⟩ := r2
        rw [h2] at h
        dsimp only at h
        injection h with h
        injection h with _ h
        injection h with e1 e2
        obtain ⟨a1, a2⟩ := assignFromStringFirst_ids ops g ga obj obja cfa n v k1 h1
        obtain ⟨b1, b2⟩ := ih ga gb obja objb n2 v2 k2 h2
        rw [← e1, ← e2, b1, b2, a1, a2]
        exact ⟨rfl, rfl⟩

/-- The record and the counter after the lookup that opens both
`assignToPrototype` overloads, written back under the name. -/
theorem openPrototype_touched (s : State V) (prototypeName : String) :
    (∀ n, n ≠ prototypeName →
      mapFind n (openPrototype s prototypeName).2.mgr.objectPrototypes
        = mapFind n s.mgr.objectPrototypes) ∧
    (∀ i, prototypeId s prototypeName = some i → i ≠ invalidID →
      (openPrototype s prototypeName).1.objectID = i ∧
      (openPrototype s prototypeName).2.statics.prototypeIDCounter
        = s.statics.prototypeIDCounter) ∧
    (prototypeId s prototypeName = none →
      (openPrototype s prototypeName).1.objectID = s.statics.prototypeIDCounter ∧
      (openPrototype s prototypeName).2.statics.prototypeIDCounter
        = (s.statics.prototypeIDCounter + 1) % 2 ^ idBits) := by
  refine ⟨?_, ?_, ?_⟩
  · intro n hn
    have hk : mapFind n (mapIndex prototypeName Object.default s.mgr.objectPrototypes).2
        = mapFind n s.mgr.objectPrototypes := by
      unfold mapIndex
      cases mapFind prototypeName s.mgr.objectPrototypes with
      | some x => rfl
      | none => exact mapFind_mapSet_ne _ _ _ _ hn
    unfold openPrototype
    dsimp only
    split <;> exact hk
  · intro i hi hne
    unfold prototypeId at hi
    cases hp : mapFind prototypeName s.mgr.objectPrototypes with
    | none => rw [hp] at hi; exact absurd hi (by simp)
    | some o =>
      rw [hp] at hi
      simp only [Option.map_some', Option.some.injEq] at hi
      have hix := mapIndex_of_some prototypeName Object.default o s.mgr.objectPrototypes hp
      have hne2 : ¬ o.objectID = invalidID := by rw [hi]; exact hne
      unfold openPrototype
      simp only [hix, hne2, if_false]
      exact ⟨hi, trivial⟩
  · intro hnone
    unfold prototypeId at hnone
    cases hp : mapFind prototypeName s.mgr.objectPrototypes with
    | some o => rw [hp] at hnone; exact absurd hnone (by simp)
    | none =>
      have hix : mapIndex prototypeName Object.default s.mgr.objectPrototypes
          = (Object.default, mapSet prototypeName Object.default s.mgr.objectPrototypes) := by
        simp [mapIndex, hp]
      have hd : Object.default.objectID = invalidID := rfl
      unfold openPrototype
      simp only [hix, hd, if_true]
      exact ⟨trivial, trivial⟩

theorem prototypeTouched_of_opened (s s0 s2 : State V) (prototypeName : String) (rec : Object)
    (hp : s0.mgr.objectPrototypes = s.mgr.objectPrototypes)
    (hc : s0.statics.prototypeIDCounter = s.statics.prototypeIDCounter)
    (hothers : ∀ n, n ≠ prototypeName → mapFind n s2.mgr.objectPrototypes
      = mapFind n (openPrototype s0 prototypeName).2.mgr.objectPrototypes)
    (hrec : mapFind prototypeName s2.mgr.objectPrototypes = some rec)
    (hid : rec.objectID = (openPrototype s0 prototypeName).1.objectID)
    (hctr : s2.statics.prototypeIDCounter
      = (openPrototype s0 prototypeName).2.statics.prototypeIDCounter) :
    PrototypeTouched s s2 prototypeName := by
  obtain ⟨o1, o2, o3⟩ := openPrototype_touched s0 prototypeName
  have hpid : ∀ n, prototypeId s0 n = prototypeId s n := by
    intro n
    simp only [prototypeId, hp]
  have hself : prototypeId s2 prototypeName = some rec.objectID := by
    simp only [prototypeId, hrec, Option.map_some']
  refine ⟨?_, ?_, ?_⟩
  · intro n hn
    simp only [prototypeId]
    rw [hothers n hn, o1 n hn, hp]
  · intro i hi hne
    obtain ⟨a1, a2⟩ := o2 i (by rw [hpid]; exact hi) hne
    rw [hself, hid, a1, hctr, a2, hc]
    exact ⟨rfl, rfl⟩
  · intro hnone hb
    obtain ⟨a1, a2⟩ := o3 (by rw [hpid]; exact hnone)
    rw [hself, hid, a1, hctr, a2, hc, Nat.mod_eq_of_lt hb]
    exact ⟨rfl, rfl⟩

theorem bindStringToComponent_counter (s : State V) (C : ComponentType) (n : String) :
    (bindStringToComponent s C n).statics.prototypeIDCounter = s.statics.prototypeIDCounter := by
  unfold bindStringToComponent
  split <;> rfl

theorem registerComponent_counter (s : State V) (C : ComponentType) :
    (registerComponent s C).statics.prototypeIDCounter = s.statics.prototypeIDCounter := by
  unfold registerComponent
  split
  · dsimp only
    split
    · rw [bindStringToComponent_counter]
    · rfl
  · rfl

theorem protoOpened_touched (s : State V) (prototypeName : String) (C : ComponentType) :
    PrototypeTouched s (protoOpened s prototypeName C) prototypeName := by
  apply prototypeTouched_of_opened s (registerComponent s C) _ prototypeName
    (protoRecord s prototypeName C) (registerComponent_prototypes s C)
    (registerComponent_counter s C)
  · intro n hn
    simp only [protoOpened, setPrototype]
    exact mapFind_mapSet_ne _ _ _ _ hn
  · simp only [protoOpened, setPrototype]
    exact mapFind_mapSet_self _ _ _
  · rfl
  · rfl

theorem protoInserted_touched (s : State V) (prototypeName : String) (C : ComponentType)
    (first : Component V) :
    PrototypeTouched s (protoInserted s prototypeName C first) prototypeName := by
  apply prototypeTouched_of_opened s (registerComponent s C) _ prototypeName
    (Object.mk (protoRecord s prototypeName C).objectID
      (mapSet C.family (some (getPrototypeComponentArray (protoOpened s prototypeName C) C))
        (protoRecord s prototypeName C).componentArrays)
      (mapSet C.family
        ((protoOpened s prototypeName C).statics.components
          (getPrototypeComponentArray (protoOpened s prototypeName C) C)).nextId
        (protoRecord s prototypeName C).componentIndices))
    (registerComponent_prototypes s C) (registerComponent_counter s C)
  · intro n hn
    simp only [protoInserted, setPrototype, State.mgr_setArray]
    rw [mapFind_mapSet_ne _ _ _ _ hn]
    simp only [protoOpened, setPrototype]
    exact mapFind_mapSet_ne _ _ _ _ hn
  · simp only [protoInserted, setPrototype]
    rw [mapFind_mapSet_self]
    rfl
  · rfl
  · rfl

theorem PrototypeTouched.trans {s s1 s2 : State V} {prototypeName : String}
    (h1 : PrototypeTouched s s1 prototypeName) (h2 : PrototypeTouched s1 s2 prototypeName) :
    PrototypeTouched s s2 prototypeName := by
  refine ⟨?_, ?_, ?_⟩
  · intro n hn
    rw [h2.others n hn, h1.others n hn]
  · intro i hi hne
    obtain ⟨a1, a2⟩ := h1.existing i hi hne
    obtain ⟨b1, b2⟩ := h2.existing i a1 hne
    exact ⟨b1, by rw [b2, a2]⟩
  · intro hnone hb
    obtain ⟨a1, a2⟩ := h1.created hnone hb
    have hne : s.statics.prototypeIDCounter ≠ invalidID := by
      intro e
      rw [e] at hb
      have hpos : 0 < 2 ^ idBits := Nat.two_pow_pos idBits
      have : 2 ^ idBits - 1 + 1 < 2 ^ idBits := hb
      omega
    obtain ⟨b1, b2⟩ := h2.existing _ a1 hne
    exact ⟨b1, by rw [b2, a2]⟩

theorem assignToPrototype_touched (prototypeName : String)
    (l : List (ComponentType × Component V)) :
    ∀ s : State V, l ≠ [] →
      PrototypeTouched s (assignToPrototype s prototypeName l) prototypeName := by
  induction l with
  | nil => intro s h; exact absurd rfl h
  | cons p rest ih =>
    intro s _
    obtain ⟨C, first⟩ := p
    rw [assignToPrototype_cons]
    split
    · cases rest with
      | nil => exact protoInserted_touched s prototypeName C first
      | cons next rest2 =>
        exact (protoInserted_touched s prototypeName C first).trans
          (ih _ (List.cons_ne_nil _ _))
    · exact protoOpened_touched s prototypeName C

theorem assignToPrototypeString_touched (ops : ComponentOps V) (s s2 : State V)
    (prototypeName compName compValues : String) (others : List (String × String))
    (h : assignToPrototypeString ops s prototypeName compName compValues others = .ok s2) :
    PrototypeTouched s s2 prototypeName := by
  unfold assignToPrototypeString at h
  dsimp only at h
  cases hr : assignFromString ops
      (setPrototype (openPrototype s prototypeName).2 prototypeName
        (openPrototype s prototypeName).1).mgr.compFamilyToProtoCompArray
      (setPrototype (openPrototype s prototypeName).2 prototypeName
        (openPrototype s prototypeName).1).statics
      (openPrototype s prototypeName).1 compName compValues others with
  | error e =>
    rw [hr] at h
    exact absurd h (by simp)
  | ok r =>
    obtain ⟨k, g1, prototype⟩ := r
    rw [hr] at h
    dsimp only at h
    injection h with h
    obtain ⟨a1, a2⟩ := assignFromString_ids ops _ others _ _ _ _ _ _ _ hr
    subst h
    apply prototypeTouched_of_opened s s _ prototypeName prototype rfl rfl
    · intro n hn
      simp only [setPrototype]
      rw [mapFind_mapSet_ne _ _ _ _ hn, mapFind_mapSet_ne _ _ _ _ hn]
    · simp only [setPrototype]
      exact mapFind_mapSet_self _ _ _
    · exact a2
    · simp only [setPrototype]
      exact a1

theorem runPrototypeCall_touched (ops : ComponentOps V) (s s2 : State V)
    (c : PrototypeCall V) (h : runPrototypeCall ops s c = .ok s2) :
    PrototypeTouched s s2 c.target := by
  cases c with
  | typed prototypeName first others =>
    simp only [runPrototypeCall, Except.ok.injEq] at h
    subst h
    exact assignToPrototype_touched prototypeName (first :: others) s (List.cons_ne_nil _ _)
  | keyed prototypeName compName compValues others =>
    exact assignToPrototypeString_touched ops s s2 prototypeName compName compValues others h

theorem PrototypeIds.step {s s2 : State V} {prototypeName : String} (hinv : PrototypeIds s)
    (ht : PrototypeTouched s s2 prototypeName)
    (hb : s.statics.prototypeIDCounter + 1 < 2 ^ idBits) :
    PrototypeIds s2 ∧
    s.statics.prototypeIDCounter ≤ s2.statics.prototypeIDCounter ∧
    s2.statics.prototypeIDCounter ≤ s.statics.prototypeIDCounter + 1 ∧
    (∀ n i, prototypeId s n = some i → prototypeId s2 n = some i) ∧
    (prototypeId s2 prototypeName).isSome = true := by
  cases hp : prototypeId s prototypeName with
  | some i =>
    have hlt := hinv.issued prototypeName i hp
    have hne : i ≠ invalidID := by
      intro e
      rw [e] at hlt
      exact absurd (Nat.lt_sub_of_add_lt hb) (Nat.lt_asymm hlt)
    obtain ⟨a1, a2⟩ := ht.existing i hp hne
    have hsame : ∀ n, prototypeId s2 n = prototypeId s n := by
      intro n
      by_cases hn : n = prototypeName
      · rw [hn, a1, hp]
      · exact ht.others n hn
    refine ⟨⟨?_, ?_⟩, Nat.le_of_eq a2.symm, ?_, ?_, ?_⟩
    · intro n j hj
      rw [hsame] at hj
      rw [a2]
      exact hinv.issued n j hj
    · intro n1 n2 j h1 h2
      rw [hsame] at h1 h2
      exact hinv.different n1 n2 j h1 h2
    · rw [a2]
      exact Nat.le_succ _
    · intro n j hj
      rw [hsame]
      exact hj
    · rw [a1]
      rfl
  | none =>
    obtain ⟨a1, a2⟩ := ht.created hp hb
    refine ⟨⟨?_, ?_⟩, ?_, Nat.le_of_eq a2, ?_, ?_⟩
    · intro n j hj
      rw [a2]
      by_cases hn : n = prototypeName
      · rw [hn, a1] at hj
        injection hj with hj
        rw [← hj]
        exact Nat.lt_succ_self _
      · rw [ht.others n hn] at hj
        exact Nat.lt_succ_of_lt (hinv.issued n j hj)
    · intro n1 n2 j h1 h2
      by_cases hn1 : n1 = prototypeName
      · by_cases hn2 : n2 = prototypeName
        · rw [hn1, hn2]
        · rw [hn1, a1] at h1
          injection h1 with h1
          rw [ht.others n2 hn2, ← h1] at h2
          exact absurd (hinv.issued n2 _ h2) (Nat.lt_irrefl _)
      · by_cases hn2 : n2 = prototypeName
        · rw [hn2, a1] at h2
          injection h2 with h2
          rw [ht.others n1 hn1, ← h2] at h1
          exact absurd (hinv.issued n1 _ h1) (Nat.lt_irrefl _)
        · rw [ht.others n1 hn1] at h1
          rw [ht.others n2 hn2] at h2
          exact hinv.different n1 n2 j h1 h2
    · rw [a2]
      exact Nat.le_succ _
    · intro n j hj
      have hn : n ≠ prototypeName := by
        intro e
        rw [e, hp] at hj
        exact absurd hj (by simp)
      rw [ht.others n hn]
      exact hj
    · rw [a1]
      rfl

theorem runPrototypeCalls_ids (ops : ComponentOps V) (calls : List (PrototypeCall V)) :
    ∀ (s s2 : State V), PrototypeIds s →
      s.statics.prototypeIDCounter + calls.length < 2 ^ idBits →
      runPrototypeCalls ops s calls = .ok s2 →
      PrototypeIds s2 ∧
      s.statics.prototypeIDCounter ≤ s2.statics.prototypeIDCounter ∧
      s2.statics.prototypeIDCounter ≤ s.statics.prototypeIDCounter + calls.length ∧
      (∀ n i, prototypeId s n = some i → prototypeId s2 n = some i) ∧
      (∀ c ∈ calls, (prototypeId s2 c.target).isSome = true) := by
  induction calls with
  | nil =>
    intro s s2 hinv _ hrun
    simp only [runPrototypeCalls, Except.ok.injEq] at hrun
    subst hrun
    exact ⟨hinv, Nat.le_refl _, Nat.le_refl _, fun _ _ h => h,
      fun c hc => absurd hc (List.not_mem_nil c)⟩
  | cons c rest ih =>
    intro s s2 hinv hb hrun
    simp only [List.length_cons] at hb
    have hb1 : s.statics.prototypeIDCounter + 1 < 2 ^ idBits :=
      Nat.lt_of_le_of_lt (Nat.add_le_add_left (Nat.succ_le_succ (Nat.zero_le _)) _) hb
    simp only [runPrototypeCalls] at hrun
    cases h1 : runPrototypeCall ops s c with
    | error e =>
      rw [h1] at hrun
      exact absurd hrun (by simp)
    | ok s1 =>
      rw [h1] at hrun
      dsimp only at hrun
      obtain ⟨k1, k2, k3, k4, k5⟩ :=
        PrototypeIds.step hinv (runPrototypeCall_touched ops s s1 c h1) hb1
      have hsum : s.statics.prototypeIDCounter + 1 + rest.length
          = s.statics.prototypeIDCounter + (rest.length + 1) := by
        rw [Nat.add_assoc, Nat.add_comm 1]
      have hb2 : s1.statics.prototypeIDCounter + rest.length < 2 ^ idBits :=
        Nat.lt_of_le_of_lt (Nat.add_le_add_right k3 rest.length) (by rw [hsum]; exact hb)
      obtain ⟨m1, m2, m3, m4, m5⟩ := ih s1 s2 k1 hb2 hrun
      refine ⟨m1, Nat.le_trans k2 m2, ?_, fun n i h => m4 n i (k4 n i h), ?_⟩
      · simp only [List.length_cons]
        rw [← hsum]
        exact Nat.le_trans m3 (Nat.add_le_add_right k3 rest.length)
      · intro c2 hc2
        rw [List.mem_cons] at hc2
        rcases hc2 with h | h
        · rw [h]
          cases hk : prototypeId s1 c.target with
          | none => rw [hk] at k5; exact absurd k5 (by simp)
          | some i => rw [m4 c.target i hk]; rfl
        · exact m5 c2 h

theorem PrototypeIds.of_no_prototypes (s : State V) (h : s.mgr.objectPrototypes = []) :
    PrototypeIds s := by
  have hnone : ∀ n, prototypeId s n = none := by
    intro n
    simp [prototypeId, h, mapFind]
  exact ⟨fun n i hi => by rw [hnone] at hi; exact absurd hi (by simp),
    fun n1 n2 i hi _ => by rw [hnone] at hi; exact absurd hi (by simp)⟩

/-- C27: from a store whose prototype ids were issued by the counter and
differ between names (as for a store without prototypes), and while the counter
does not wrap around, a sequence of `assignToPrototype` calls (typed or
string-keyed) that returns leaves such a store again: different names hold
different ids, all below `prototypeIDCounter`; the counter does not decrease
and advances by at most one per call; an id once held by a name is held by it
ever after; every name addressed by a call has a record with an id. And for
each further call: a name that has no record receives the counter value as
its id and the counter advances by one, a name that has a record keeps its id
and the counter stays, and no other name is affected. -/
theorem prototype_ids_assigned_once (ops : ComponentOps V) (s s2 : State V)
    (calls : List (PrototypeCall V)) (hinv : PrototypeIds s)
    (hbound : s.statics.prototypeIDCounter + calls.length < 2 ^ idBits)
    (hrun : runPrototypeCalls ops s calls = .ok s2) :
    PrototypeIds s2 ∧
    s.statics.prototypeIDCounter ≤ s2.statics.prototypeIDCounter ∧
    s2.statics.prototypeIDCounter ≤ s.statics.prototypeIDCounter + calls.length ∧
    (∀ n i, prototypeId s n = some i → prototypeId s2 n = some i) ∧
    (∀ c ∈ calls, (prototypeId s2 c.target).isSome = true) ∧
    ∀ c s3, runPrototypeCall ops s2 c = .ok s3 → PrototypeTouched s2 s3 c.target := by
  obtain ⟨m1, m2, m3, m4, m5⟩ := runPrototypeCalls_ids ops calls s s2 hinv hbound hrun
  exact ⟨m1, m2, m3, m4, m5, fun c s3 h => runPrototypeCall_touched ops s2 s3 c h⟩

/-- Witness for C27: the three calls of `examplePrototypeCalls` on the first
manager; "Enemy" holds id 0, "Boss" holds id 1 and the counter is 2. -/
theorem prototype_ids_assigned_once_witness :
    (exampleBase.mgr.objectPrototypes = [] ∧ exampleBase.statics.prototypeIDCounter = 0 ∧
      prototypeId examplePrototypes "Enemy" = some 0 ∧
      prototypeId examplePrototypes "Boss" = some 1 ∧
      examplePrototypes.statics.prototypeIDCounter = 2) ∧
    PrototypeIds examplePrototypes ∧
    exampleBase.statics.prototypeIDCounter ≤ examplePrototypes.statics.prototypeIDCounter ∧
    examplePrototypes.statics.prototypeIDCounter
      ≤ exampleBase.statics.prototypeIDCounter + examplePrototypeCalls.length ∧
    (∀ n i, prototypeId exampleBase n = some i → prototypeId examplePrototypes n = some i) ∧
    (∀ c ∈ examplePrototypeCalls, (prototypeId examplePrototypes c.target).isSome = true) ∧
    ∀ c s3, runPrototypeCall exampleOps examplePrototypes c = .ok s3 →
      PrototypeTouched examplePrototypes s3 c.target :=
  ⟨⟨by decide, by decide, by decide, by decide, by decide⟩,
    prototype_ids_assigned_once exampleOps exampleBase examplePrototypes examplePrototypeCalls
      (PrototypeIds.of_no_prototypes exampleBase (by decide)) (by decide) rfl⟩

end PrototypeIdentity

section Revisions

/-- C13 (the code at a failing input): a second manager (version 1) is
constructed while the first (version 0) is alive and has registered the
component types; it registers them too, assigns a `Position` to its prototype
"Enemy" and calls `createObject("Enemy")`. The call returns the new id 0 and
the object records `Position`, but the copy is stored in the first manager's
table (the static `compFamilyToCompArray` still points there): the second
manager's `getTotalComponents<Position>()` stays 0, the first manager's goes
from 0 to 1, and the slot that the second manager's `getComponent<Position>`
refers to holds no component. -/
theorem createObject_from_prototype_on_second_manager :
    (exampleBase.mgr.version = 0 ∧ exampleSecondPrototype.mgr.version = 1 ∧
      mapFind "Enemy" exampleSecondPrototype.mgr.objectPrototypes
        = some ⟨0, [(0, some ⟨true, 0, 1⟩)], [(0, 0)]⟩ ∧
      (exampleSecondPrototype.statics.components ⟨true, 0, 1⟩).get? 0
        = some ⟨invalidID, "1,2"⟩ ∧
      mapFind Position.family exampleSecondPrototype.statics.compFamilyToCompArray
        = some (some ⟨false, 0, 0⟩)) ∧
    createObjectFromPrototype exampleSecondPrototype "Enemy" = .ok (0, exampleSecondCreated) ∧
    getTotalObjects exampleSecondCreated = getTotalObjects exampleSecondPrototype + 1 ∧
    exampleSecondCreated.mgr.objects.get? 0 = some ⟨0, [(0, some ⟨false, 0, 0⟩)], [(0, 0)]⟩ ∧
    hasComponents exampleSecondCreated [Position] 0 = true ∧
    getTotalComponents exampleSecondPrototype Position = 0 ∧
    getTotalComponents exampleSecondCreated Position = 0 ∧
    getComponent exampleSecondCreated Position 0 = some ⟨⟨false, 0, 1⟩, 0⟩ ∧
    (getComponent exampleSecondCreated Position 0).bind (deref exampleSecondCreated) = none ∧
    getTotalComponents (State.mk exampleSecondPrototype.statics exampleBase.mgr) Position = 0 ∧
    getTotalComponents (State.mk exampleSecondCreated.statics exampleBase.mgr) Position = 1 ∧
    (exampleSecondCreated.statics.components ⟨false, 0, 0⟩).get? 0 = some ⟨0, "1,2"⟩ :=
  ⟨⟨by decide, by decide, by decide, by decide, by decide⟩, rfl, by decide, by decide,
    by decide, by decide, by decide, by decide, by decide, by decide, by decide, by decide⟩

/-- A store without objects whose tables are all empty is consistent in the
sense of `OwnedTables`. -/
theorem OwnedTables.of_empty {V : Type} (s : State V) (hobjs : s.mgr.objects.elements = [])
    (htables : ∀ r, (s.statics.components r).elements = []) : OwnedTables s where
  objectsDistinct := by simp [PackedArray.Distinct, hobjs]
  tablesDistinct := fun r => by simp [PackedArray.Distinct, htables r]
  pointersNonNull := fun p hp => by rw [hobjs] at hp; exact absurd hp (List.not_mem_nil p)
  owned := fun r _ _ e he => by rw [htables r] at he; exact absurd he (List.not_mem_nil e)

/-- C15 as stated fails: the manager of `examplePos` (one object with a
`Position`) is destructed, which releases version 0 and drains nothing, and a
new manager is constructed, which takes version 0. It has no object, and
`destroyAllObjects()` returns with `getTotalObjects() == 0` but
`getTotalComponents<Position>() == 1`, for every call that returns. -/
theorem destroyAllObjects_leaves_orphans_counterexample :
    (exampleReused.mgr.version = examplePos.mgr.version ∧ getTotalObjects exampleReused = 0 ∧
      getTotalComponents exampleReused Position = 1) ∧
    (∃ s2, destroyAllObjects 1 exampleReused = .ok s2 ∧ getTotalObjects s2 = 0 ∧
      getTotalComponents s2 Position = 1) ∧
    ∀ fuel s2, destroyAllObjects fuel exampleReused = .ok s2 →
      getTotalObjects s2 = 0 ∧ getTotalComponents s2 Position = 1 := by
  have hloop : ∀ fuel, destroyAllObjectsLoop (fuel + 1) exampleReused = .ok exampleReused := by
    intro fuel
    have hsize : ¬ (exampleReused.mgr.objects.size > 0) := by decide
    simp only [destroyAllObjectsLoop, hsize, if_false]
  refine ⟨⟨by decide, by decide, by decide⟩,
    ⟨exampleReused.setObjects exampleReused.mgr.objects.clear, ?_, ?_, ?_⟩, ?_⟩
  · simp only [destroyAllObjects, hloop 0]
  · decide
  · decide
  · intro fuel s2 h
    cases fuel with
    | zero => simp [destroyAllObjects, destroyAllObjectsLoop] at h
    | succ n =>
      simp only [destroyAllObjects, hloop n, Except.ok.injEq] at h
      subst h
      exact ⟨by decide, by decide⟩

/-- C19 (the code at a failing input): the prototype "Enemy" of
`examplePrototype` owns a `Position` with payload "1,2" and no `Velocity`.
The typed `assignToPrototype("Enemy", Position "9,9", Velocity "1,1")` leaves
the record and the stored payload "1,2" as they were and adds no `Velocity`:
the first component is not written and the rest of the list is not processed.
The string-keyed overload on the same state overwrites the payload with "9,9"
and adds the `Velocity`. -/
theorem assignToPrototype_owned_first_drops_call :
    (mapFind "Enemy" examplePrototype.mgr.objectPrototypes
        = some ⟨0, [(0, some ⟨true, 0, 0⟩)], [(0, 0)]⟩ ∧
      (examplePrototype.statics.components ⟨true, 0, 0⟩).get? 0 = some ⟨invalidID, "1,2"⟩ ∧
      (examplePrototype.statics.components ⟨true, 1, 0⟩).size = 0) ∧
    (mapFind "Enemy"
        (assignToPrototype examplePrototype "Enemy"
          [(Position, ⟨invalidID, "9,9"⟩), (Velocity, ⟨invalidID, "1,1"⟩)]).mgr.objectPrototypes
        = some ⟨0, [(0, some ⟨true, 0, 0⟩)], [(0, 0)]⟩ ∧
      ((assignToPrototype examplePrototype "Enemy"
          [(Position, ⟨invalidID, "9,9"⟩), (Velocity, ⟨invalidID, "1,1"⟩)]).statics.components
        ⟨true, 0, 0⟩).get? 0 = some ⟨invalidID, "1,2"⟩ ∧
      ((assignToPrototype examplePrototype "Enemy"
          [(Position, ⟨invalidID, "9,9"⟩), (Velocity, ⟨invalidID, "1,1"⟩)]).statics.components
        ⟨true, 1, 0⟩).size = 0) ∧
    (mapFind "Enemy"
        (assignToPrototype examplePrototype "Enemy"
          [(Velocity, ⟨invalidID, "1,1"⟩)]).mgr.objectPrototypes
        = some ⟨0, [(0, some ⟨true, 0, 0⟩), (1, some ⟨true, 1, 0⟩)], [(0, 0), (1, 0)]⟩) ∧
    (assignToPrototypeString exampleOps examplePrototype "Enemy" "pos" "9,9" [("vel", "1,1")]
        = .ok examplePrototypeKeyed ∧
      mapFind "Enemy" examplePrototypeKeyed.mgr.objectPrototypes
        = some ⟨0, [(0, some ⟨true, 0, 0⟩), (1, some ⟨true, 1, 0⟩)], [(0, 0), (1, 0)]⟩ ∧
      (examplePrototypeKeyed.statics.components ⟨true, 0, 0⟩).get? 0
        = some ⟨invalidID, "9,9"⟩ ∧
      (examplePrototypeKeyed.statics.components ⟨true, 1, 0⟩).get? 0 = some ⟨0, "1,1"⟩) :=
  ⟨⟨by decide, by decide, by decide⟩, ⟨by decide, by decide, by decide⟩, by decide,
    ⟨rfl, by decide, by decide, by decide⟩⟩

end Revisions

section UnboundNames

variable {V : Type}

theorem assignFromStringFirst_registry (ops : ComponentOps V) (g g1 : Statics V)
    (obj obj1 : Object) (cfa : List (Family × Option ArrayRef)) (n v : String) (k : ID)
    (h : assignFromStringFirst ops g obj cfa n v = .ok (k, g1, obj1)) :
    g1.compFamilyToCompArray = g.compFamilyToCompArray := by
  unfold assignFromStringFirst at h
  split at h
  · split at h
    · split at h
      · injection h with h
        injection h with _ h
        injection h with h _
        rw [← h]
      · exact absurd h (by simp)
    · dsimp only at h
      split at h
      · injection h with h
        injection h with _ h
        injection h with h _
        rw [← h]
      · exact absurd h (by simp)
    · exact absurd h (by simp)
  · injection h with h
    injection h with _ h
    injection h with h _
    rw [← h]

/-- The string-keyed `assign` processes its pairs one after the other: the
call on `p :: rest` is the call on `p` followed by the call on `rest` in the
state the first call leaves, the counts added. -/
theorem assignString_cons (ops : ComponentOps V) (s : State V) (objectID : ID)
    (p : String × String) (rest : List (String × String)) :
    assignString ops s objectID (p :: rest)
      = match assignString ops s objectID [p] with
        | .ok r =>
          match assignString ops r.2 objectID rest with
          | .ok r2 => .ok (r.1 + r2.1, r2.2)
          | .error e => .error e
        | .error e => .error e := by
  obtain ⟨n, v⟩ := p
  cases hobj : s.mgr.objects.get? objectID with
  | none =>
    cases rest with
    | nil => simp [assignString, hobj]
    | cons q rest2 => obtain ⟨n2, v2⟩ := q; simp [assignString, hobj]
  | some obj =>
    cases rest with
    | nil =>
      simp only [assignString, hobj]
      cases assignFromString ops s.statics.compFamilyToCompArray s.statics obj n v [] with
      | error e => rfl
      | ok r => obtain ⟨k, g1, o1⟩ := r; simp
    | cons q rest2 =>
      obtain ⟨n2, v2⟩ := q
      simp only [assignString, hobj, assignFromString]
      cases h1 : assignFromStringFirst ops s.statics obj s.statics.compFamilyToCompArray n v with
      | error e => rfl
      | ok r =>
        obtain ⟨k1, g1, o1⟩ := r
        dsimp only
        have hreg := assignFromStringFirst_registry ops s.statics g1 obj o1 _ n v k1 h1
        have hget : ((State.mk g1 s.mgr).modifyObject objectID (fun _ => o1)).mgr.objects.get?
            objectID = some o1 := by
          rw [State.get?_modifyObject, if_pos rfl]
          show (s.mgr.objects.get? objectID).map (fun _ => o1) = some o1
          rw [hobj]
          rfl
        rw [hget]
        dsimp only
        rw [State.statics_modifyObject]
        dsimp only
        rw [hreg]
        cases assignFromString ops s.statics.compFamilyToCompArray g1 o1 n2 v2 rest2 with
        | error e => rfl
        | ok r2 =>
          obtain ⟨k2, g2, o2⟩ := r2
          dsimp only
          simp only [State.modifyObject, State.setObjects, PackedArray.modify_modify_const]

theorem assignString_insert_eq (ops : ComponentOps V) (s : State V) (objectID : ID)
    (n v : String) (f : Family) (obj : Object) (arr : ArrayRef)
    (hobj : s.mgr.objects.get? objectID = some obj)
    (hbound : mapFind n s.statics.stringToCompFamily = some f)
    (hlacks : mapFind f obj.componentArrays = none)
    (hreg : mapFind f s.statics.compFamilyToCompArray = some (some arr)) :
    assignString ops s objectID [(n, v)] = .ok (1,
      (State.mk { s.statics with components := fun r =>
          if r = arr then
            (((s.statics.components arr).addItem (ops.fromString arr.family v)).2.modify
              (s.statics.components arr).nextId (fun c => { c with ownerID := obj.objectID }))
          else s.statics.components r } s.mgr).modifyObject objectID
        (fun _ => { obj with
          componentArrays := mapSet f (some arr) obj.componentArrays
          componentIndices :=
            mapSet f (s.statics.components arr).nextId obj.componentIndices })) := by
  simp only [assignString, hobj, assignFromString, assignFromStringFirst, hbound, hlacks, hreg]
  rfl

theorem assignString_overwrite_eq (ops : ComponentOps V) (s : State V) (objectID : ID)
    (n v : String) (f : Family) (obj : Object) (arr : ArrayRef) (idx : ID) (old : Component V)
    (hobj : s.mgr.objects.get? objectID = some obj)
    (hbound : mapFind n s.statics.stringToCompFamily = some f)
    (harr : mapFind f obj.componentArrays = some (some arr))
    (hidx : mapFind f obj.componentIndices = some idx)
    (hlive : (s.statics.components arr).get? idx = some old) :
    assignString ops s objectID [(n, v)] = .ok (0,
      (State.mk { s.statics with components := fun r =>
          if r = arr then
            ((s.statics.components arr).modify idx (fun c => ops.deSerialize arr.family c v))
          else s.statics.components r } s.mgr).modifyObject objectID (fun _ => obj)) := by
  have hix : mapIndex f 0 obj.componentIndices = (idx, obj.componentIndices) := by
    simp [mapIndex, hidx]
  simp only [assignString, hobj, assignFromString, assignFromStringFirst, hbound, harr,
    hix, hlive]

theorem filter_bound_between_unbound (s : State V)
    (before after : List (String × String)) (n v : String) (f : Family)
    (hbefore : ∀ p ∈ before, mapFind p.1 s.statics.stringToCompFamily = none)
    (hafter : ∀ p ∈ after, mapFind p.1 s.statics.stringToCompFamily = none)
    (hbound : mapFind n s.statics.stringToCompFamily = some f) :
    (before ++ (n, v) :: after).filter
      (fun p => (mapFind p.1 s.statics.stringToCompFamily).isSome) = [(n, v)] := by
  have h1 : before.filter (fun p => (mapFind p.1 s.statics.stringToCompFamily).isSome)
      = [] := by
    rw [List.filter_eq_nil_iff]
    intro p hp
    simp [hbefore p hp]
  have h2 : after.filter (fun p => (mapFind p.1 s.statics.stringToCompFamily).isSome)
      = [] := by
    rw [List.filter_eq_nil_iff]
    intro p hp
    simp [hafter p hp]
  have h3 : ((n, v) :: after).filter
      (fun p => (mapFind p.1 s.statics.stringToCompFamily).isSome) = [(n, v)] := by
    simp only [List.filter_cons, hbound, Option.isSome_some, if_true, h2]
  rw [List.filter_append, h1, h3]
  rfl

/-- C4: in the string-keyed `assign`, a pair whose name is not bound in
`stringToCompFamily` is skipped and every other pair is processed. The result
(count and state, or failure) is that of the call with the unbound pairs
deleted; a call whose names are all unbound returns 0 and leaves the state
unchanged; the pairs are processed one after the other, each in the state the
pairs before it left; and a bound pair standing between unbound pairs takes
effect: when the object lacks its family, one component decoded from its value
string is inserted in a new slot of the registered table, owned by the object
and recorded in it, and the call returns 1; when the object owns the family in
a live slot, the value string is deserialized into that instance, the manager
and the table size are unchanged, and the call returns 0. -/
theorem assignString_unbound_pairs_skipped (ops : ComponentOps V) (s : State V)
    (objectID : ID) (pairs : List (String × String)) :
    assignString ops s objectID pairs =
      assignString ops s objectID
        (pairs.filter (fun p => (mapFind p.1 s.statics.stringToCompFamily).isSome)) ∧
    ((∀ p ∈ pairs, mapFind p.1 s.statics.stringToCompFamily = none) →
      assignString ops s objectID pairs = .ok (0, s)) ∧
    (∀ p rest, assignString ops s objectID (p :: rest)
      = match assignString ops s objectID [p] with
        | .ok r =>
          match assignString ops r.2 objectID rest with
          | .ok r2 => .ok (r.1 + r2.1, r2.2)
          | .error e => .error e
        | .error e => .error e) ∧
    (∀ (before after : List (String × String)) (n v : String) (f : Family) (obj : Object)
        (arr : ArrayRef),
      (∀ p ∈ before, mapFind p.1 s.statics.stringToCompFamily = none) →
      (∀ p ∈ after, mapFind p.1 s.statics.stringToCompFamily = none) →
      s.mgr.objects.get? objectID = some obj → obj.objectID = objectID →
      mapFind n s.statics.stringToCompFamily = some f →
      mapFind f obj.componentArrays = none →
      mapFind f s.statics.compFamilyToCompArray = some (some arr) →
      (s.statics.components arr).Fresh →
      ∃ s2 obj2 idx,
        assignString ops s objectID (before ++ (n, v) :: after) = .ok (1, s2) ∧
        (s.statics.components arr).get? idx = none ∧
        (s2.statics.components arr).size = (s.statics.components arr).size + 1 ∧
        (∀ r, r ≠ arr → s2.statics.components r = s.statics.components r) ∧
        s2.mgr.objects.get? objectID = some obj2 ∧
        mapFind f obj2.componentIndices = some idx ∧
        mapFind f obj2.componentArrays = some (some arr) ∧
        (s2.statics.components arr).get? idx
          = some { ops.fromString arr.family v with ownerID := objectID }) ∧
    (∀ (before after : List (String × String)) (n v : String) (f : Family) (obj : Object)
        (arr : ArrayRef) (idx : ID) (old : Component V),
      (∀ p ∈ before, mapFind p.1 s.statics.stringToCompFamily = none) →
      (∀ p ∈ after, mapFind p.1 s.statics.stringToCompFamily = none) →
      s.mgr.objects.get? objectID = some obj →
      mapFind n s.statics.stringToCompFamily = some f →
      mapFind f obj.componentArrays = some (some arr) →
      mapFind f obj.componentIndices = some idx →
      (s.statics.components arr).get? idx = some old →
      ∃ s2, assignString ops s objectID (before ++ (n, v) :: after) = .ok (0, s2) ∧
        s2.mgr = s.mgr ∧
        (s2.statics.components arr).size = (s.statics.components arr).size ∧
        (∀ r, r ≠ arr → s2.statics.components r = s.statics.components r) ∧
        (s2.statics.components arr).get? idx
          = some (ops.deSerialize arr.family old v)) := by
  refine ⟨(assignString_skips_unbound_names ops s objectID pairs).1,
    (assignString_skips_unbound_names ops s objectID pairs).2,
    fun p rest => assignString_cons ops s objectID p rest, ?_, ?_⟩
  rotate_left
  · intro before after n v f obj arr idx old hbefore hafter hobj hbound harr hidx hlive
    have hfilter := filter_bound_between_unbound s before after n v f hbefore hafter hbound
    have heq := assignString_overwrite_eq ops s objectID n v f obj arr idx old hobj hbound
      harr hidx hlive
    rw [(assignString_skips_unbound_names ops s objectID (before ++ (n, v) :: after)).1,
      hfilter]
    refine ⟨_, heq, ?_, ?_, ?_, ?_⟩
    · simp only [State.modifyObject, State.setObjects]
      rw [PackedArray.modify_const_of_get? _ _ _ hobj]
    · simp [State.modifyObject, State.setObjects, PackedArray.size_modify]
    · intro r hr
      simp [State.modifyObject, State.setObjects, hr]
    · simp [State.modifyObject, State.setObjects, PackedArray.get?_modify_self, hlive]
  intro before after n v f obj arr hbefore hafter hobj hid hbound hlacks hreg hfresh
  have hfilter := filter_bound_between_unbound s before after n v f hbefore hafter hbound
  have heq := assignString_insert_eq ops s objectID n v f obj arr hobj hbound hlacks hreg
  rw [(assignString_skips_unbound_names ops s objectID (before ++ (n, v) :: after)).1, hfilter]
  refine ⟨_, { obj with
      componentArrays := mapSet f (some arr) obj.componentArrays
      componentIndices := mapSet f (s.statics.components arr).nextId obj.componentIndices },
    (s.statics.components arr).nextId, heq, ?_, ?_, ?_, ?_, ?_, ?_, ?_⟩
  · exact PackedArray.get?_nextId _ hfresh
  · simp [State.modifyObject, State.setObjects, PackedArray.size_modify,
      PackedArray.size_addItem]
  · intro r hr
    simp [State.modifyObject, State.setObjects, hr]
  · simp only [State.modifyObject, State.setObjects]
    rw [PackedArray.get?_modify_self, hobj]
    rfl
  · simp [mapFind_mapSet_self]
  · simp [mapFind_mapSet_self]
  · simp only [State.modifyObject, State.setObjects, if_true]
    have h1 := PackedArray.get?_addItem_self (s.statics.components arr)
      (ops.fromString arr.family v) hfresh
    have h2 : ((s.statics.components arr).addItem (ops.fromString arr.family v)).1
        = (s.statics.components arr).nextId := rfl
    rw [h2] at h1
    rw [PackedArray.get?_modify_self, h1, hid]
    rfl

/-- Witness for C4: on object 0 of `exampleOne` the names "nope" and "nada"
are unbound and "pos" is bound to `Position`; the call with the three pairs
inserts the `Position` decoded from "3,4" and returns 1, and the call with the
two unbound pairs returns 0 and changes nothing. -/
theorem assignString_unbound_pairs_skipped_witness :
    (mapFind "nope" exampleOne.statics.stringToCompFamily = none ∧
      mapFind "nada" exampleOne.statics.stringToCompFamily = none ∧
      mapFind "pos" exampleOne.statics.stringToCompFamily = some 0 ∧
      exampleOne.mgr.objects.get? 0 = some ⟨0, [], []⟩) ∧
    assignString exampleOps exampleOne 0 [("nope", "0,0"), ("nada", "1")]
      = .ok (0, exampleOne) ∧
    ∃ s2 obj2 idx,
      assignString exampleOps exampleOne 0 ([("nope", "0,0")] ++ ("pos", "3,4") :: [("nada", "1")])
        = .ok (1, s2) ∧
      (exampleOne.statics.components ⟨false, 0, 0⟩).get? idx = none ∧
      (s2.statics.components ⟨false, 0, 0⟩).size
        = (exampleOne.statics.components ⟨false, 0, 0⟩).size + 1 ∧
      (∀ r, r ≠ ⟨false, 0, 0⟩ → s2.statics.components r = exampleOne.statics.components r) ∧
      s2.mgr.objects.get? 0 = some obj2 ∧
      mapFind 0 obj2.componentIndices = some idx ∧
      mapFind 0 obj2.componentArrays = some (some ⟨false, 0, 0⟩) ∧
      (s2.statics.components ⟨false, 0, 0⟩).get? idx
        = some { exampleOps.fromString 0 "3,4" with ownerID := 0 } :=
  ⟨⟨by decide, by decide, by decide, by decide⟩,
    (assignString_unbound_pairs_skipped exampleOps exampleOne 0
      [("nope", "0,0"), ("nada", "1")]).2.1 (by decide),
    (assignString_unbound_pairs_skipped exampleOps exampleOne 0 []).2.2.2.1
      [("nope", "0,0")] [("nada", "1")] "pos" "3,4" 0 ⟨0, [], []⟩ ⟨false, 0, 0⟩
      (by decide) (by decide) (by decide) rfl (by decide) (by decide) (by decide) (by decide)⟩

end UnboundNames

end OCS
